import Mathlib

/-!
# PKEET-VPG: commitments, encryption, equality test and sigma proofs

A shallow embedding of the Go sources `content.go`, `pkeetnp.go`, `circuit.go`,
`etp.go`, `batchTrace.go`, `pkeetvpg.go` and `Comp/Hades/hades.go`.

Modelling conventions.

* `*big.Int` is `Int`; a byte is a `Nat` below 256 and a byte slice is a `List Nat`.
* `fr.Element` is the canonical residue, a `Nat` below the field modulus `Env.q`;
  a `twistededwards.PointAffine` is the pair of its two coordinates.
* The curve library (gnark-crypto), the hash functions and the SNARK backend are
  not part of the repository.  Their operations are the fields of `Env` and
  `Groth16`; what is assumed about them is stated as explicit hypotheses
  (`CurveModel`, `Bilinear`, ...) of the theorems that need it.
* The bn254 groups `G1Affine`, `G2Affine` and the pairing target `GT` are type
  parameters carrying a commutative group structure, written additively; the
  repository never looks inside their elements.
* Every `rand.Int` draw is an explicit argument of the function that draws it.
  Where the failure of a draw matters, the operation is given a second time with
  draws that may fail (`GetContent.draws`, ...): `checkedDraw` is a draw whose
  error is tested, `discardedDraw` one whose error is dropped.
* A circuit variable (`frontend.Variable`) holds a field element.  `Define` is
  modelled as the function that evaluates the circuit on an assignment and
  returns whether every assertion holds.  The gadgets `curve.ScalarMul` and
  `mimc` of the gnark standard library are the fields of `Gadgets`, assumed to
  agree with the native operations (`GadgetModel`); `api.ToBinary`, `api.Xor`
  and `api.FromBinary` are given their documented meaning on bits.
* A `uint64` is a `Nat` and an `int` an `Int`; where the code converts or adds
  machine integers the wrap-around is explicit (`toInt64`, `wrapInt`).  A slice
  is a `List`, so the limits of memory are not modelled.
-/

namespace PKEET

/-! ## Bytes and integers -/

/-- The value of a big-endian byte string (`big.Int.SetBytes`). -/
def SetBytes (b : List Nat) : Nat :=
  b.foldl (fun acc x => acc * 256 + x) 0

/-- The big-endian bytes of `n` without leading zeros, at most `fuel` of them. -/
def bytesFuel : Nat → Nat → List Nat
  | 0, _ => []
  | fuel + 1, n => if n = 0 then [] else bytesFuel fuel (n / 256) ++ [n % 256]

/-- The minimal big-endian bytes of the absolute value (`big.Int.Bytes`). -/
def BigBytes (n : Int) : List Nat :=
  bytesFuel n.natAbs n.natAbs

/-- Go `BigIntToFixed32Bytes`: `copy(fixed[32-len(b):], b)` into a zeroed
32-byte array.  `none` is the run-time panic of the slice expression when
`len(b) > 32`. -/
def BigIntToFixed32Bytes (n : Int) : Option (List Nat) :=
  let b := BigBytes n
  if b.length ≤ 32 then some (List.replicate (32 - b.length) 0 ++ b) else none

/-- The 32 big-endian bytes of a canonical field element (`fr.Element.Bytes`). -/
def ElementBytes (x : Nat) : List Nat :=
  let b := BigBytes x
  List.replicate (32 - b.length) 0 ++ b

/-- Bytewise exclusive or of two 32-byte buffers (the `for i := 0; i < 32; i++`
loops of `Enc` and `Dec`). -/
def xorBytes (a b : List Nat) : List Nat :=
  List.zipWith (fun x y => x ^^^ y) a b

/-! ## The external capabilities -/

/-- A `twistededwards.PointAffine`: two field elements. -/
structure PointAffine where
  X : Nat
  Y : Nat
deriving DecidableEq, Repr

/-- The operations the repository uses from the curve library and from the hash
packages. -/
structure Env (G1Affine G2Affine GT : Type) where
  /-- The modulus of `fr.Element`. -/
  q : Nat
  /-- The subgroup order of the twisted Edwards curve, `curve.Order`. -/
  Order : Nat
  /-- The generator `curve.Base`. -/
  Base : PointAffine
  /-- The library call `PointAffine.Add`. -/
  Add : PointAffine → PointAffine → PointAffine
  /-- The library call `PointAffine.Neg`. -/
  Neg : PointAffine → PointAffine
  /-- The library call `PointAffine.ScalarMultiplication`. -/
  ScalarMultiplication : PointAffine → Int → PointAffine
  /-- The library call `PointAffine.Marshal`. -/
  Marshal : PointAffine → List Nat
  /-- The third result of `bn254.Generators()`. -/
  G1 : G1Affine
  /-- The fourth result of `bn254.Generators()`. -/
  G2 : G2Affine
  /-- The library call `G1Affine.Marshal`. -/
  MarshalG1 : G1Affine → List Nat
  /-- The library call `G2Affine.Marshal`. -/
  MarshalG2 : G2Affine → List Nat
  /-- The pairing `bn254.Pair` on one pair of points. -/
  Pair : G1Affine → G2Affine → GT
  /-- The digest `sha256.Sum256`. -/
  Sum256 : List Nat → List Nat
  /-- The field element that `hash.MIMC_BN254` holds after one `Write`. -/
  MiMC : List Nat → Nat

/-- What is assumed of the twisted Edwards library: on the curve points, given
as the image of `φ`, its operations are those of a commutative group `A`, the
generator is a curve point, and curve points have canonical coordinates. -/
structure CurveModel {G1Affine G2Affine GT : Type} (E : Env G1Affine G2Affine GT)
    {A : Type} [AddCommGroup A] (φ : A → PointAffine) (g : A) : Prop where
  base : φ g = E.Base
  add : ∀ a b, E.Add (φ a) (φ b) = φ (a + b)
  neg : ∀ a, E.Neg (φ a) = φ (-a)
  smul : ∀ a (n : Int), E.ScalarMultiplication (φ a) n = φ (n • a)
  canon : ∀ a, (φ a).X < E.q ∧ (φ a).Y < E.q

/-- Bilinearity of the pairing, in the form the equality test uses. -/
structure Bilinear {G1Affine G2Affine GT : Type} [AddCommGroup G1Affine]
    [AddCommGroup G2Affine] [AddCommGroup GT] (e : G1Affine → G2Affine → GT) : Prop where
  smul_left : ∀ (a : Int) P Q, e (a • P) Q = a • e P Q
  smul_right : ∀ (b : Int) P Q, e P (b • Q) = b • e P Q

/-! ## content.go -/

/-- Go `Content`: the dual commitment and its sigma proof. -/
structure Content (G1Affine : Type) where
  k : Int
  M : PointAffine
  H : PointAffine
  B : PointAffine
  _M : G1Affine
  _H : G1Affine
  _B : G1Affine
  cint : Int
  zu : Int
  zk : Int

/-- Go `(*Content).ProveSigma`, with the draws `ru`, `rk`. -/
def Content.ProveSigma {G1Affine G2Affine GT : Type} [AddCommGroup G1Affine]
    (E : Env G1Affine G2Affine GT) (cont : Content G1Affine)
    (uid ru rk : Int) : Content G1Affine :=
  -- BB = g^ru · h^rk
  let index := E.ScalarMultiplication E.Base ru
  let index1 := E.ScalarMultiplication cont.H rk
  let BB := E.Add index index1
  -- _BB = G1^ru · _H^rk
  let _index := ru • E.G1
  let _index1 := rk • cont._H
  let _BB := _index + _index1
  -- B, BB, _B, _BB, g, h, G1, _H
  let arr := E.Marshal cont.B ++ E.Marshal BB
  let arr := arr ++ E.MarshalG1 cont._B
  let arr := arr ++ E.MarshalG1 _BB
  let arr := arr ++ E.Marshal E.Base
  let arr := arr ++ E.Marshal cont.H
  let arr := arr ++ E.MarshalG1 E.G1
  let arr := arr ++ E.MarshalG1 cont._H
  let c := E.Sum256 arr
  -- zu = ru + c · u, zk = rk + c · k
  let cint : Int := SetBytes c
  let zu := ru + uid * cint
  let zk := rk + cont.k * cint
  { cont with cint := cint, zu := zu, zk := zk }

/-- Go `GetContent`, with the draws `u`, `u1`, `k` and those of `ProveSigma`. -/
def GetContent {G1Affine G2Affine GT : Type} [AddCommGroup G1Affine]
    (E : Env G1Affine G2Affine GT) (uid u u1 k ru rk : Int) : Content G1Affine :=
  -- M=g^uid (twistededwards), _M=G1^uid (bn254-G1)
  let M := E.ScalarMultiplication E.Base uid
  let _M := uid • E.G1
  -- H = g^u (twistededwards)
  let H := E.ScalarMultiplication E.Base u
  -- _H = G1^u1 (bn254-G1)
  let _H := u1 • E.G1
  -- B = M · H^k, _B = _M · _H^k
  let B := E.ScalarMultiplication H k
  let B := E.Add M B
  let _B := k • _H
  let _B := _M + _B
  let cont : Content G1Affine :=
    { k := k, M := M, H := H, B := B, _M := _M, _H := _H, _B := _B,
      cint := 0, zu := 0, zk := 0 }
  cont.ProveSigma E uid ru rk

/-- The byte string `arr1` that `(*Content).VerifySigma` hashes. -/
def Content.verifyTranscript {G1Affine G2Affine GT : Type} [AddCommGroup G1Affine]
    (E : Env G1Affine G2Affine GT) (cont : Content G1Affine) : List Nat :=
  let ind := E.ScalarMultiplication E.Base cont.zu
  let ind1 := E.ScalarMultiplication cont.H cont.zk
  let ind2 := E.ScalarMultiplication cont.B cont.cint
  let ind := E.Add ind ind1
  let ind3 := E.Neg ind2
  let B_B := E.Add ind ind3
  let _ind := cont.zu • E.G1
  let _ind1 := cont.zk • cont._H
  let _ind2 := cont.cint • cont._B
  let _ind := _ind + _ind1
  let _ind3 := -_ind2
  let _B_B := _ind + _ind3
  let arr1 := E.Marshal cont.B ++ E.Marshal B_B
  let arr1 := arr1 ++ E.MarshalG1 cont._B
  let arr1 := arr1 ++ E.MarshalG1 _B_B
  let arr1 := arr1 ++ E.Marshal E.Base
  let arr1 := arr1 ++ E.Marshal cont.H
  let arr1 := arr1 ++ E.MarshalG1 E.G1
  let arr1 := arr1 ++ E.MarshalG1 cont._H
  arr1

/-- Go `(*Content).VerifySigma`. -/
def Content.VerifySigma {G1Affine G2Affine GT : Type} [AddCommGroup G1Affine]
    (E : Env G1Affine G2Affine GT) (cont : Content G1Affine) : Bool :=
  let c1 := E.Sum256 (cont.verifyTranscript E)
  let cint1 : Int := SetBytes c1
  if cont.cint = cint1 then true else false

/-! ## pkeetnp.go -/

/-- Go `Ciphertext`; `W` is the array `[3]big.Int`. -/
structure Ciphertext where
  U : PointAffine
  V : PointAffine
  W : Int × Int × Int
deriving DecidableEq

/-- Go `PKEETNP`. -/
structure PKEETNP where
  PK : PointAffine
  M : PointAffine
  r : Int
  cp : Ciphertext
deriving DecidableEq

/-- One `hFunc.Write(data)` followed by `hFunc.Sum(nil)` on a fresh or reset
MiMC state: the 32 bytes of the digest, a field element. -/
def MiMCSum {G1Affine G2Affine GT : Type} (E : Env G1Affine G2Affine GT)
    (data : List Nat) : List Nat :=
  ElementBytes (E.MiMC data % E.q)

/-- The byte string `pref` of `Enc` and `Dec`: the coordinates of `U`, `V`, `Y`. -/
def hashPrefix (U V Y : PointAffine) : List Nat :=
  let _ux := ElementBytes U.X
  let _uy := ElementBytes U.Y
  let _vx := ElementBytes V.X
  let _vy := ElementBytes V.Y
  let _yx := ElementBytes Y.X
  let _yy := ElementBytes Y.Y
  let pref := _ux ++ _uy
  let pref := pref ++ _vx
  let pref := pref ++ _vy
  let pref := pref ++ _yx
  let pref := pref ++ _yy
  pref

/-- One hash block of `Enc` and `Dec`: the digest of `pref` followed by the
coordinates of the marker point `i·g`, for `i = 1, 2, 3`. -/
def hashBlock {G1Affine G2Affine GT : Type} (E : Env G1Affine G2Affine GT)
    (pref : List Nat) (i : Int) : List Nat :=
  let One := E.ScalarMultiplication E.Base i
  let onex := ElementBytes One.X
  let oney := ElementBytes One.Y
  let onexy := onex ++ oney
  MiMCSum E (pref ++ onexy)

/-- Go `(*PKEETNP).Enc`, with the draw `r`.  `none` is the panic of
`BigIntToFixed32Bytes`. -/
def PKEETNP.Enc {G1Affine G2Affine GT : Type} (E : Env G1Affine G2Affine GT)
    (pkeetnp : PKEETNP) (r : Int) : Option PKEETNP :=
  let pk := pkeetnp.PK
  let m := pkeetnp.M
  -- U=g^r, V=M^r, Y=PK^r
  let U := E.ScalarMultiplication E.Base r
  let V := E.ScalarMultiplication m r
  let Y := E.ScalarMultiplication pk r
  let pref := hashPrefix U V Y
  let hOut := hashBlock E pref 1
  let hOut1 := hashBlock E pref 2
  let hOut2 := hashBlock E pref 3
  match BigIntToFixed32Bytes r with
  | none => none
  | some rByte =>
    let mxByte := ElementBytes m.X
    let myByte := ElementBytes m.Y
    let resXOR := xorBytes hOut rByte
    let resXOR1 := xorBytes hOut1 mxByte
    let resXOR2 := xorBytes hOut2 myByte
    let res : Int := SetBytes resXOR
    let res1 : Int := SetBytes resXOR1
    let res2 : Int := SetBytes resXOR2
    let cp : Ciphertext := { U := U, V := V, W := (res, res1, res2) }
    some { pkeetnp with cp := cp, r := r }

/-- Go `(*Ciphertext).Dec`.  `none` is the panic of `BigIntToFixed32Bytes`; the
point returned with `false` is the zero value `*new(PointAffine)`. -/
def Ciphertext.Dec {G1Affine G2Affine GT : Type} (E : Env G1Affine G2Affine GT)
    (cp : Ciphertext) (sk : Int) : Option (PointAffine × Bool) :=
  let Y := E.ScalarMultiplication cp.U sk
  let pref := hashPrefix cp.U cp.V Y
  let hOut := hashBlock E pref 1
  let hOut1 := hashBlock E pref 2
  let hOut2 := hashBlock E pref 3
  match BigIntToFixed32Bytes cp.W.1, BigIntToFixed32Bytes cp.W.2.1,
      BigIntToFixed32Bytes cp.W.2.2 with
  | some WByte, some WByte1, some WByte2 =>
    let rByte := xorBytes hOut WByte
    let mxByte := xorBytes hOut1 WByte1
    let myByte := xorBytes hOut2 WByte2
    let r : Int := SetBytes rByte
    let m : PointAffine := { X := SetBytes mxByte % E.q, Y := SetBytes myByte % E.q }
    if cp.U = E.ScalarMultiplication E.Base r ∧ cp.V = E.ScalarMultiplication m r then
      some (m, true)
    else
      some ({ X := 0, Y := 0 }, false)
  | _, _, _ => none

/-- Go `(*PKEETNP).Dec`. -/
def PKEETNP.Dec {G1Affine G2Affine GT : Type} (E : Env G1Affine G2Affine GT)
    (pkeetnp : PKEETNP) (sk : Int) : Option (PointAffine × Bool) :=
  match pkeetnp.cp.Dec E sk with
  | none => none
  | some (m, res) => if res = true ∧ m = pkeetnp.M then some (m, true) else some (m, false)

/-- Go `PKENPCircuit`, as the assignment `GetCircuit` builds. -/
structure PKENPCircuit where
  R : Int
  MX : Nat
  MY : Nat
  PKX : Nat
  PKY : Nat
  UX : Nat
  UY : Nat
  VX : Nat
  VY : Nat
  YX : Nat
  YY : Nat
  W : Int
  W1 : Int
  W2 : Int
deriving DecidableEq

/-- Go `(*PKEETNP).GetCircuit`. -/
def PKEETNP.GetCircuit {G1Affine G2Affine GT : Type} (E : Env G1Affine G2Affine GT)
    (pkeetnp : PKEETNP) : Option PKENPCircuit :=
  let Y := E.ScalarMultiplication pkeetnp.PK pkeetnp.r
  match BigIntToFixed32Bytes pkeetnp.r with
  | none => none
  | some rByte =>
    some { R := SetBytes rByte, MX := pkeetnp.M.X, MY := pkeetnp.M.Y,
           PKX := pkeetnp.PK.X, PKY := pkeetnp.PK.Y,
           UX := pkeetnp.cp.U.X, UY := pkeetnp.cp.U.Y,
           VX := pkeetnp.cp.V.X, VY := pkeetnp.cp.V.Y,
           YX := Y.X, YY := Y.Y,
           W := pkeetnp.cp.W.1, W1 := pkeetnp.cp.W.2.1, W2 := pkeetnp.cp.W.2.2 }

/-! ## etp.go and batchTrace.go -/

/-- Go `ETP`. -/
structure ETP (G1Affine G2Affine : Type) where
  v : Int
  _V : G1Affine
  HR_ : G2Affine
  X_ : G2Affine

/-- Go `(*ETP).Test`; `Except.ok ()` is the `nil` error. -/
def ETP.Test {G1Affine G2Affine GT : Type} [DecidableEq GT] (E : Env G1Affine G2Affine GT)
    (etp etp1 : ETP G1Affine G2Affine) : Except String Unit :=
  let res := E.Pair etp._V etp1.X_
  let res1 := E.Pair etp1._V etp.X_
  if res = res1 then Except.ok () else Except.error "not equal"

/-- Go `AffinePair`. -/
structure AffinePair (G1Affine G2Affine : Type) where
  _V : G1Affine
  X_ : G2Affine

/-- Go `(*AffinePair).test`. -/
def AffinePair.test {G1Affine G2Affine GT : Type} [DecidableEq GT]
    (E : Env G1Affine G2Affine GT) (ap ap1 : AffinePair G1Affine G2Affine) : Bool :=
  let res := E.Pair ap._V ap1.X_
  let res1 := E.Pair ap1._V ap.X_
  if res = res1 then true else false

/-- A list of bytes: every entry is below 256. -/
def IsBytes (b : List Nat) : Prop := ∀ x ∈ b, x < 256

instance (b : List Nat) : Decidable (IsBytes b) :=
  inferInstanceAs (Decidable (∀ x ∈ b, x < 256))

/-! ## pkeetvpg.go -/

/-- The SNARK backend (gnark `frontend` and `groth16`), taken as given.  An
error result makes `ProveSnark` panic; the backend calls it makes are taken as
total here.  `Verify` is `true` when `groth16.Verify` returns the `nil` error. -/
structure Groth16 where
  ConstraintSystem : Type
  ProvingKey : Type
  VerifyingKey : Type
  Witness : Type
  Proof : Type
  NewWitness : PKENPCircuit → Witness
  Public : Witness → Witness
  Prove : ConstraintSystem → ProvingKey → Witness → Proof
  Verify : Proof → VerifyingKey → Witness → Bool

/-- Go `snarkProof`. -/
structure snarkProof (Z : Groth16) where
  ccs : Z.ConstraintSystem
  proKey : Z.ProvingKey
  verKey : Z.VerifyingKey
  secWitness : Z.Witness
  pubWitness : Z.Witness
  proof : Z.Proof

/-- Go `(*snarkProof).ProveSnark`; the receiver holds `ccs`, `proKey`, `verKey`. -/
def snarkProof.ProveSnark (Z : Groth16) (ccs : Z.ConstraintSystem) (proKey : Z.ProvingKey)
    (verKey : Z.VerifyingKey) (pc : PKENPCircuit) : snarkProof Z :=
  let secretWitness := Z.NewWitness pc
  let publicWitness := Z.Public secretWitness
  let proof := Z.Prove ccs proKey secretWitness
  { ccs := ccs, proKey := proKey, verKey := verKey,
    secWitness := secretWitness, pubWitness := publicWitness, proof := proof }

/-- Go `(*snarkProof).VerifySnark`. -/
def snarkProof.VerifySnark {Z : Groth16} (snp : snarkProof Z) : Bool :=
  if Z.Verify snp.proof snp.verKey snp.pubWitness then true else false

/-- Go `sigmaProof`. -/
structure sigmaProof (G1Affine : Type) where
  teB : PointAffine
  teD : PointAffine
  bnB : G1Affine
  bnD : G1Affine
  cint : Int
  zv : Int
  zAlpha : Int
  zBeta : Int

/-- Go `PKEETVPG`. -/
structure PKEETVPG (G1Affine G2Affine : Type) (Z : Groth16) where
  cont : Content G1Affine
  cipher : PKEETNP
  et : ETP G1Affine G2Affine
  snp : snarkProof Z
  sigp : sigmaProof G1Affine

/-- Go `(*sigmaProof).ProveSigma`, with the draws `d`, `rv`, `rAlpha`, `rBeta`. -/
def sigmaProof.ProveSigma {G1Affine G2Affine GT : Type} [AddCommGroup G1Affine]
    [AddCommGroup G2Affine] (E : Env G1Affine G2Affine GT) (cont : Content G1Affine)
    (pen : PKEETNP) (et : ETP G1Affine G2Affine) (d rv rAlpha rBeta : Int) :
    sigmaProof G1Affine :=
  let v := et.v
  let k := cont.k
  -- twistededwards
  let H := cont.H
  let B := cont.B
  -- bn254
  let _H := cont._H
  let _B := cont._B
  let HR_ := et.HR_
  let X_ := et.X_
  -- construct extra public inputs that supports the sigma proof
  let alpha := d * v
  let beta := k * v
  -- extra public inputs on twistededwards
  let teB := E.ScalarMultiplication B v
  let teInd := E.ScalarMultiplication E.Base alpha
  let teInd1 := E.ScalarMultiplication H (-beta)
  let teD := E.Add teInd teInd1
  let teT := E.Add pen.cp.V teInd
  -- extra public inputs on bn254
  let bnB := v • _B
  let bnInd := alpha • E.G1
  let bnInd1 := (-beta) • _H
  let bnD := bnInd + bnInd1
  let bnT := et._V + bnInd
  -- contents for challenge
  let TEB := E.ScalarMultiplication B rv
  let TEInd := E.ScalarMultiplication E.Base rAlpha
  let TEInd1 := E.ScalarMultiplication H (-rBeta)
  let TED := E.Add TEInd TEInd1
  let TET := E.Add pen.cp.V TEInd
  let BNB := rv • _B
  let BNInd := rAlpha • E.G1
  let BNInd1 := (-rBeta) • _H
  let BND := BNInd + BNInd1
  let BNT := et._V + BNInd
  let BNX := rv • HR_
  -- construct the challenge
  -- B, V, teB, teD, teT, TEB, TED, TET
  let arr := E.Marshal B ++ E.Marshal pen.cp.V
  let arr := arr ++ E.Marshal teB
  let arr := arr ++ E.Marshal teD
  let arr := arr ++ E.Marshal teT
  let arr := arr ++ E.Marshal TEB
  let arr := arr ++ E.Marshal TED
  let arr := arr ++ E.Marshal TET
  -- _B, _V, bnB, bnD, bnT, BNB, BND, BNT
  let arr := arr ++ E.MarshalG1 _B
  let arr := arr ++ E.MarshalG1 et._V
  let arr := arr ++ E.MarshalG1 bnB
  let arr := arr ++ E.MarshalG1 bnD
  let arr := arr ++ E.MarshalG1 bnT
  let arr := arr ++ E.MarshalG1 BNB
  let arr := arr ++ E.MarshalG1 BND
  let arr := arr ++ E.MarshalG1 BNT
  -- X_, BNX
  let arr := arr ++ E.MarshalG2 X_
  let arr := arr ++ E.MarshalG2 BNX
  -- basic
  let arr := arr ++ E.Marshal E.Base
  let arr := arr ++ E.Marshal H
  let arr := arr ++ E.MarshalG1 E.G1
  let arr := arr ++ E.MarshalG1 _H
  let arr := arr ++ E.MarshalG2 HR_
  let c := E.Sum256 arr
  -- zv = rv + c · v, zAlpha = rAlpha + c · alpha, zBeta = rBeta + c · beta
  let cint : Int := SetBytes c
  let zv := rv + v * cint
  let zAlpha := rAlpha + alpha * cint
  let zBeta := rBeta + beta * cint
  { teB := teB, teD := teD, bnB := bnB, bnD := bnD,
    cint := cint, zv := zv, zAlpha := zAlpha, zBeta := zBeta }

/-- The byte string `arr1` that `(*sigmaProof).VerifySigma` hashes. -/
def sigmaProof.verifyTranscript {G1Affine G2Affine GT : Type} [AddCommGroup G1Affine]
    [AddCommGroup G2Affine] (E : Env G1Affine G2Affine GT) (sigp : sigmaProof G1Affine)
    (B V H : PointAffine) (_B _V _H : G1Affine) (X_ HR_ : G2Affine) : List Nat :=
  -- twistededwards part
  -- B_B
  let B_BInd := E.ScalarMultiplication B sigp.zv
  let B_BInd1 := E.ScalarMultiplication sigp.teB sigp.cint
  let B_BInd2 := E.Neg B_BInd1
  let B_B := E.Add B_BInd B_BInd2
  -- D_D
  let D_DInd := E.ScalarMultiplication E.Base sigp.zAlpha
  let D_DInd1 := E.ScalarMultiplication H (-sigp.zBeta)
  let D_DInd2 := E.ScalarMultiplication sigp.teD sigp.cint
  let D_DInd := E.Add D_DInd D_DInd1
  let D_DInd3 := E.Neg D_DInd2
  let D_D := E.Add D_DInd D_DInd3
  -- T_T
  let indexT := E.Add sigp.teB sigp.teD
  let T_TInd := E.ScalarMultiplication E.Base sigp.zAlpha
  let T_TInd1 := E.Neg V
  let T_TInd2 := E.Add indexT T_TInd1
  let T_TInd2 := E.ScalarMultiplication T_TInd2 sigp.cint
  let T_TInd2 := E.Neg T_TInd2
  let T_TInd3 := E.Add T_TInd T_TInd2
  let T_T := E.Add V T_TInd3
  -- bn254 part
  -- _B_B
  let _B_BInd := sigp.zv • _B
  let _B_BInd1 := sigp.cint • sigp.bnB
  let _B_BInd2 := -_B_BInd1
  let _B_B := _B_BInd + _B_BInd2
  -- _D_D
  let _D_DInd := sigp.zAlpha • E.G1
  let _D_DInd1 := (-sigp.zBeta) • _H
  let _D_DInd2 := sigp.cint • sigp.bnD
  let _D_DInd := _D_DInd + _D_DInd1
  let _D_DInd3 := -_D_DInd2
  let _D_D := _D_DInd + _D_DInd3
  -- _T_T
  let _indexT := sigp.bnB + sigp.bnD
  let _T_TInd := sigp.zAlpha • E.G1
  let _T_TInd1 := -_V
  let _T_TInd2 := _indexT + _T_TInd1
  let _T_TInd2 := sigp.cint • _T_TInd2
  let _T_TInd2 := -_T_TInd2
  let _T_TInd3 := _T_TInd + _T_TInd2
  let _T_T := _V + _T_TInd3
  -- X_X
  let X_XInd := sigp.zv • HR_
  let X_XInd1 := (-sigp.cint) • X_
  let X_X := X_XInd + X_XInd1
  -- reconstruct challenge
  -- B, V, teB, teD, teT, B_B, D_D, T_T
  let arr1 := E.Marshal B ++ E.Marshal V
  let arr1 := arr1 ++ E.Marshal sigp.teB
  let arr1 := arr1 ++ E.Marshal sigp.teD
  let arr1 := arr1 ++ E.Marshal indexT
  let arr1 := arr1 ++ E.Marshal B_B
  let arr1 := arr1 ++ E.Marshal D_D
  let arr1 := arr1 ++ E.Marshal T_T
  -- _B, _V, bnB, bnD, bnT, _B_B, _D_D, _T_T
  let arr1 := arr1 ++ E.MarshalG1 _B
  let arr1 := arr1 ++ E.MarshalG1 _V
  let arr1 := arr1 ++ E.MarshalG1 sigp.bnB
  let arr1 := arr1 ++ E.MarshalG1 sigp.bnD
  let arr1 := arr1 ++ E.MarshalG1 _indexT
  let arr1 := arr1 ++ E.MarshalG1 _B_B
  let arr1 := arr1 ++ E.MarshalG1 _D_D
  let arr1 := arr1 ++ E.MarshalG1 _T_T
  -- X_, X_X
  let arr1 := arr1 ++ E.MarshalG2 X_
  let arr1 := arr1 ++ E.MarshalG2 X_X
  let arr1 := arr1 ++ E.Marshal E.Base
  let arr1 := arr1 ++ E.Marshal H
  let arr1 := arr1 ++ E.MarshalG1 E.G1
  let arr1 := arr1 ++ E.MarshalG1 _H
  let arr1 := arr1 ++ E.MarshalG2 HR_
  arr1

/-- Go `(*sigmaProof).VerifySigma`. -/
def sigmaProof.VerifySigma {G1Affine G2Affine GT : Type} [AddCommGroup G1Affine]
    [AddCommGroup G2Affine] (E : Env G1Affine G2Affine GT) (sigp : sigmaProof G1Affine)
    (B V H : PointAffine) (_B _V _H : G1Affine) (X_ HR_ : G2Affine) : Bool :=
  let c1 := E.Sum256 (sigp.verifyTranscript E B V H _B _V _H X_ HR_)
  let cint1 : Int := SetBytes c1
  if cint1 = sigp.cint then true else false

/-- Go `(*PKEETVPG).Verify`. -/
def PKEETVPG.Verify {G1Affine G2Affine GT : Type} [AddCommGroup G1Affine]
    [AddCommGroup G2Affine] {Z : Groth16} (E : Env G1Affine G2Affine GT)
    (pvpg : PKEETVPG G1Affine G2Affine Z) : Bool :=
  let resSnark := pvpg.snp.VerifySnark
  let resSigma := pvpg.sigp.VerifySigma E pvpg.cont.B pvpg.cipher.cp.V pvpg.cont.H
    pvpg.cont._B pvpg.et._V pvpg.cont._H pvpg.et.X_ pvpg.et.HR_
  resSnark && resSigma

/-- The random draws of one round of `testPkeetVPG`, in the order they are made. -/
structure Draws where
  u : Int
  u1 : Int
  k : Int
  ru : Int
  rk : Int
  s : Int
  r : Int
  d : Int
  rv : Int
  rAlpha : Int
  rBeta : Int

/-- One round of the loop of Go `testPkeetVPG`, up to the point where
`pvpg.Verify()` is called: the value of `pvpg` there.  `PK` is the regulator key
`sk·g` and `sccs`, `spk`, `svk` come from `setupSnark`.  `none` stands for the
`break` after a failed `cont.VerifySigma()` and for a panic. -/
def testPkeetVPG {G1Affine G2Affine GT : Type} [AddCommGroup G1Affine]
    [AddCommGroup G2Affine] (E : Env G1Affine G2Affine GT) (Z : Groth16)
    (sccs : Z.ConstraintSystem) (spk : Z.ProvingKey) (svk : Z.VerifyingKey)
    (uid sk : Int) (dr : Draws) : Option (PKEETVPG G1Affine G2Affine Z) :=
  let PK := E.ScalarMultiplication E.Base sk
  let cont := GetContent E uid dr.u dr.u1 dr.k dr.ru dr.rk
  if !cont.VerifySigma E then none else
  -- Round specific generator
  let HR_ := dr.s • E.G2
  -- twistededwards
  let pken : PKEETNP :=
    { PK := PK, M := cont.M, r := 0, cp := { U := ⟨0, 0⟩, V := ⟨0, 0⟩, W := (0, 0, 0) } }
  match pken.Enc E dr.r with
  | none => none
  | some pken =>
    -- bn254
    let r := pken.r
    let _V := r • cont._M
    let X_ := r • HR_
    let et : ETP G1Affine G2Affine := { v := r, _V := _V, HR_ := HR_, X_ := X_ }
    -- snark proof for cipher
    match pken.GetCircuit E with
    | none => none
    | some pc =>
      let snp := snarkProof.ProveSnark Z sccs spk svk pc
      -- consistency proof for cipher, et and cont
      let sigp := sigmaProof.ProveSigma E cont pken et dr.d dr.rv dr.rAlpha dr.rBeta
      some { cont := cont, cipher := pken, et := et, snp := snp, sigp := sigp }

/-! ## circuit.go -/

/-- The gadgets of the gnark standard library that `Define` calls, taken as
given: a variable holds a field element, a `Nat` below `Env.q`. -/
structure Gadgets where
  /-- The gadget `curve.ScalarMul` on a point and a scalar variable. -/
  ScalarMul : PointAffine → Nat → PointAffine
  /-- The value of `miMC.Sum()` after one `miMC.Write` of the given variables on
  a fresh or reset state. -/
  MiMC : List Nat → Nat

/-- What is assumed of the gadgets: on curve points the in-circuit scalar
multiplication is the native one, and the in-circuit MiMC of field elements is
the native MiMC of their 32-byte encodings. -/
structure GadgetModel {G1Affine G2Affine GT : Type} (E : Env G1Affine G2Affine GT)
    (G : Gadgets) {A : Type} (φ : A → PointAffine) : Prop where
  scalarMul : ∀ a (n : Nat), n < E.q → G.ScalarMul (φ a) n = E.ScalarMultiplication (φ a) n
  mimc : ∀ xs : List Nat, (∀ x ∈ xs, x < E.q) →
    G.MiMC xs = E.MiMC (xs.flatMap ElementBytes) % E.q

/-- The call `api.ToBinary(v, n)` of gnark: the `n` low bits of the value,
least significant first.  The constraint it adds, that the bits recompose to
the value, holds when `v < 2 ^ n`. -/
def api.ToBinary : Nat → Nat → List Nat
  | _, 0 => []
  | v, n + 1 => v % 2 :: api.ToBinary (v / 2) n

/-- The call `api.Xor` of gnark on two bits. -/
def api.Xor (a b : Nat) : Nat := a ^^^ b

/-- The call `api.FromBinary` of gnark: the field element with the given bits,
least significant first. -/
def api.FromBinary (q : Nat) (bits : List Nat) : Nat :=
  bits.foldr (fun b acc => b + 2 * acc) 0 % q

/-- Go `(*PKENPCircuit).Define`: `true` when every assertion holds.  Each
variable holds the assigned value as a field element, that is modulo `q`; the
last two conjuncts are the range constraints of the six `api.ToBinary` calls. -/
def PKENPCircuit.Define {G1Affine G2Affine GT : Type} (E : Env G1Affine G2Affine GT)
    (G : Gadgets) (circuit : PKENPCircuit) : Bool :=
  let R := (circuit.R % E.q).toNat
  let W := (circuit.W % E.q).toNat
  let W1 := (circuit.W1 % E.q).toNat
  let W2 := (circuit.W2 % E.q).toNat
  let base := E.Base
  let m : PointAffine := { X := circuit.MX % E.q, Y := circuit.MY % E.q }
  let PK : PointAffine := { X := circuit.PKX % E.q, Y := circuit.PKY % E.q }
  let Y : PointAffine := { X := circuit.YX % E.q, Y := circuit.YY % E.q }
  let U : PointAffine := { X := circuit.UX % E.q, Y := circuit.UY % E.q }
  let V : PointAffine := { X := circuit.VX % E.q, Y := circuit.VY % E.q }
  let _U := G.ScalarMul base R
  let _V := G.ScalarMul m R
  let _Y := G.ScalarMul PK R
  let a1 := decide (_U.X = U.X)
  let a2 := decide (_U.Y = U.Y)
  let a3 := decide (_V.X = V.X)
  let a4 := decide (_V.X = V.X)
  let a5 := decide (_Y.X = Y.X)
  let a6 := decide (_Y.X = Y.X)
  let One := G.ScalarMul base 1
  let hOut := G.MiMC [U.X, U.Y, V.X, V.Y, _Y.X, _Y.Y, One.X, One.Y]
  let Two := G.ScalarMul base 2
  let hOut1 := G.MiMC [U.X, U.Y, V.X, V.Y, _Y.X, _Y.Y, Two.X, Two.Y]
  let Three := G.ScalarMul base 3
  let hOut2 := G.MiMC [U.X, U.Y, V.X, V.Y, _Y.X, _Y.Y, Three.X, Three.Y]
  let hBits := api.ToBinary hOut 256
  let hBits1 := api.ToBinary hOut1 256
  let hBits2 := api.ToBinary hOut2 256
  let vBits := api.ToBinary R 256
  let mxBits := api.ToBinary m.X 256
  let myBits := api.ToBinary m.Y 256
  let wBits := List.zipWith api.Xor hBits vBits
  let wBits1 := List.zipWith api.Xor hBits1 mxBits
  let wBits2 := List.zipWith api.Xor hBits2 myBits
  let wb := api.FromBinary E.q wBits
  let a7 := decide (W = wb)
  let wb1 := api.FromBinary E.q wBits1
  let a8 := decide (W1 = wb1)
  let wb2 := api.FromBinary E.q wBits2
  let a9 := decide (W2 = wb2)
  let fit := decide (hOut < 2 ^ 256 ∧ hOut1 < 2 ^ 256 ∧ hOut2 < 2 ^ 256)
  let fit1 := decide (R < 2 ^ 256 ∧ m.X < 2 ^ 256 ∧ m.Y < 2 ^ 256)
  a1 && a2 && a3 && a4 && a5 && a6 && a7 && a8 && a9 && fit && fit1

/-! ## The masks, in the words of the specification -/

/-- The byte string a mask is the digest of: the 32-byte encodings of the
coordinates of `U`, `V`, `Y` and of the marker point `i·g`, in this order. -/
def maskInput {G1Affine G2Affine GT : Type} (E : Env G1Affine G2Affine GT)
    (U V Y : PointAffine) (i : Int) : List Nat :=
  let P := E.ScalarMultiplication E.Base i
  [U.X, U.Y, V.X, V.Y, Y.X, Y.Y, P.X, P.Y].flatMap ElementBytes

/-- The mask with marker point `i·g`, as a number: the MiMC digest of
`maskInput`, a field element. -/
def maskValue {G1Affine G2Affine GT : Type} (E : Env G1Affine G2Affine GT)
    (U V Y : PointAffine) (i : Int) : Nat :=
  E.MiMC (maskInput E U V Y i) % E.q

/-- The candidates of the specification for the key `sk`: the scalar
`mask0 ⊕ W[0]` and the point with the coordinates `mask1 ⊕ W[1]` and
`mask2 ⊕ W[2]` as field elements, for the masks derived from `(U, V, sk·U)`. -/
def Ciphertext.candidates {G1Affine G2Affine GT : Type} (E : Env G1Affine G2Affine GT)
    (cp : Ciphertext) (sk : Int) : Nat × PointAffine :=
  let Y := E.ScalarMultiplication cp.U sk
  let r := maskValue E cp.U cp.V Y 1 ^^^ cp.W.1.natAbs
  let mx := maskValue E cp.U cp.V Y 2 ^^^ cp.W.2.1.natAbs
  let my := maskValue E cp.U cp.V Y 3 ^^^ cp.W.2.2.natAbs
  (r, { X := mx % E.q, Y := my % E.q })

/-! ## The byte string of the consistency prover -/

/-- The byte string `arr` that `(*sigmaProof).ProveSigma` hashes. -/
def sigmaProof.proveTranscript {G1Affine G2Affine GT : Type} [AddCommGroup G1Affine]
    [AddCommGroup G2Affine] (E : Env G1Affine G2Affine GT) (cont : Content G1Affine)
    (pen : PKEETNP) (et : ETP G1Affine G2Affine) (d rv rAlpha rBeta : Int) : List Nat :=
  let v := et.v
  let k := cont.k
  let H := cont.H
  let B := cont.B
  let _H := cont._H
  let _B := cont._B
  let HR_ := et.HR_
  let X_ := et.X_
  let alpha := d * v
  let beta := k * v
  -- extra public inputs on twistededwards
  let teB := E.ScalarMultiplication B v
  let teInd := E.ScalarMultiplication E.Base alpha
  let teInd1 := E.ScalarMultiplication H (-beta)
  let teD := E.Add teInd teInd1
  let teT := E.Add pen.cp.V teInd
  -- extra public inputs on bn254
  let bnB := v • _B
  let bnInd := alpha • E.G1
  let bnInd1 := (-beta) • _H
  let bnD := bnInd + bnInd1
  let bnT := et._V + bnInd
  -- contents for challenge
  let TEB := E.ScalarMultiplication B rv
  let TEInd := E.ScalarMultiplication E.Base rAlpha
  let TEInd1 := E.ScalarMultiplication H (-rBeta)
  let TED := E.Add TEInd TEInd1
  let TET := E.Add pen.cp.V TEInd
  let BNB := rv • _B
  let BNInd := rAlpha • E.G1
  let BNInd1 := (-rBeta) • _H
  let BND := BNInd + BNInd1
  let BNT := et._V + BNInd
  let BNX := rv • HR_
  -- B, V, teB, teD, teT, TEB, TED, TET
  let arr := E.Marshal B ++ E.Marshal pen.cp.V
  let arr := arr ++ E.Marshal teB
  let arr := arr ++ E.Marshal teD
  let arr := arr ++ E.Marshal teT
  let arr := arr ++ E.Marshal TEB
  let arr := arr ++ E.Marshal TED
  let arr := arr ++ E.Marshal TET
  -- _B, _V, bnB, bnD, bnT, BNB, BND, BNT
  let arr := arr ++ E.MarshalG1 _B
  let arr := arr ++ E.MarshalG1 et._V
  let arr := arr ++ E.MarshalG1 bnB
  let arr := arr ++ E.MarshalG1 bnD
  let arr := arr ++ E.MarshalG1 bnT
  let arr := arr ++ E.MarshalG1 BNB
  let arr := arr ++ E.MarshalG1 BND
  let arr := arr ++ E.MarshalG1 BNT
  -- X_, BNX
  let arr := arr ++ E.MarshalG2 X_
  let arr := arr ++ E.MarshalG2 BNX
  -- basic
  let arr := arr ++ E.Marshal E.Base
  let arr := arr ++ E.Marshal H
  let arr := arr ++ E.MarshalG1 E.G1
  let arr := arr ++ E.MarshalG1 _H
  let arr := arr ++ E.MarshalG2 HR_
  arr

/-! ## The random draws and their errors -/

/-- A `rand.Int` draw followed by `if err != nil { panic(err) }`.  The argument
is the result of the draw, `none` standing for the error result; the value is
`none` when the operation aborts. -/
def checkedDraw (x : Option Int) : Option Int := x

/-- A `rand.Int` draw whose error is discarded (`v, _ := rand.Int(...)`).  On the
error result the variable is the nil pointer, which goes on to the library call
that reads the scalar.  `nilScalar` says what such a call does with a nil
scalar: `none` when it panics, otherwise the scalar it computes with. -/
def discardedDraw (nilScalar : Option Int) (x : Option Int) : Option Int :=
  match x with
  | some v => some v
  | none => nilScalar

/-- Go `(*Content).ProveSigma` with its two draws, both with discarded error. -/
def Content.ProveSigma.draws {G1Affine G2Affine GT : Type} [AddCommGroup G1Affine]
    (E : Env G1Affine G2Affine GT) (nilScalar : Option Int) (cont : Content G1Affine)
    (uid : Int) (ru rk : Option Int) : Option (Content G1Affine) :=
  match discardedDraw nilScalar ru with
  | none => none
  | some ru =>
    match discardedDraw nilScalar rk with
    | none => none
    | some rk => some (cont.ProveSigma E uid ru rk)

/-- Go `GetContent` with its draws: `u` and `k` are checked, the error of `u1`
and of the two draws of `ProveSigma` is discarded. -/
def GetContent.draws {G1Affine G2Affine GT : Type} [AddCommGroup G1Affine]
    (E : Env G1Affine G2Affine GT) (nilScalar : Option Int) (uid : Int)
    (u u1 k ru rk : Option Int) : Option (Content G1Affine) :=
  match checkedDraw u with
  | none => none
  | some u =>
    match discardedDraw nilScalar u1 with
    | none => none
    | some u1 =>
      match checkedDraw k with
      | none => none
      | some k =>
        match discardedDraw nilScalar ru with
        | none => none
        | some ru =>
          match discardedDraw nilScalar rk with
          | none => none
          | some rk => some (GetContent E uid u u1 k ru rk)

/-- Go `(*PKEETNP).Enc` with its draw, which is checked. -/
def PKEETNP.Enc.draws {G1Affine G2Affine GT : Type} (E : Env G1Affine G2Affine GT)
    (pkeetnp : PKEETNP) (r : Option Int) : Option PKEETNP :=
  match checkedDraw r with
  | none => none
  | some r => pkeetnp.Enc E r

/-- Go `(*sigmaProof).ProveSigma` with its draws: `d` is checked, the error of
`rv`, `rAlpha` and `rBeta` is discarded. -/
def sigmaProof.ProveSigma.draws {G1Affine G2Affine GT : Type} [AddCommGroup G1Affine]
    [AddCommGroup G2Affine] (E : Env G1Affine G2Affine GT) (nilScalar : Option Int)
    (cont : Content G1Affine) (pen : PKEETNP) (et : ETP G1Affine G2Affine)
    (d rv rAlpha rBeta : Option Int) : Option (sigmaProof G1Affine) :=
  match checkedDraw d with
  | none => none
  | some d =>
    match discardedDraw nilScalar rv with
    | none => none
    | some rv =>
      match discardedDraw nilScalar rAlpha with
      | none => none
      | some rAlpha =>
        match discardedDraw nilScalar rBeta with
        | none => none
        | some rBeta => some (sigmaProof.ProveSigma E cont pen et d rv rAlpha rBeta)

/-! ## batchTrace.go: tracing -/

/-- Go `SimplifiedRecord`. -/
structure SimplifiedRecord (G1Affine G2Affine : Type) where
  HR_ : G2Affine
  Pairs : List (AffinePair G1Affine G2Affine)

/-- Go `MatchingText`. -/
structure MatchingText (G1Affine G2Affine : Type) where
  HR_ : G2Affine
  Pair : AffinePair G1Affine G2Affine

/-- The loop of Go `traceR` from index `i` on; `v i` is the draw of round `i`. -/
def traceR.loop {G1Affine G2Affine : Type} [AddCommGroup G1Affine] [AddCommGroup G2Affine]
    (_M : G1Affine) (v : Nat → Int) :
    Nat → List G2Affine → List (MatchingText G1Affine G2Affine)
  | _, [] => []
  | i, HR_ :: rest =>
    let _V := v i • _M
    let X_ := v i • HR_
    { HR_ := HR_, Pair := { _V := _V, X_ := X_ } } :: traceR.loop _M v (i + 1) rest

/-- Go `traceR`, with the draws `v`. -/
def traceR {G1Affine G2Affine : Type} [AddCommGroup G1Affine] [AddCommGroup G2Affine]
    (_M : G1Affine) (HRS_ : List G2Affine) (v : Nat → Int) :
    List (MatchingText G1Affine G2Affine) :=
  traceR.loop _M v 0 HRS_

/-- The inner loop of Go `traceSP` for round `i`, from the pair `j` on: whether
a pair hits.  `none` is the panic of `mt[i]` out of range. -/
def traceSP.inner {G1Affine G2Affine GT : Type} [DecidableEq GT]
    (E : Env G1Affine G2Affine GT) (mt : List (MatchingText G1Affine G2Affine)) (i : Nat) :
    List (AffinePair G1Affine G2Affine) → Option Bool
  | [] => some false
  | p :: rest =>
    match mt[i]? with
    | none => none
    | some m => if m.Pair.test E p then some true else traceSP.inner E mt i rest

/-- The outer loop of Go `traceSP` from round `i` on, with the result so far. -/
def traceSP.loop {G1Affine G2Affine GT : Type} [DecidableEq GT]
    (E : Env G1Affine G2Affine GT) (mt : List (MatchingText G1Affine G2Affine)) :
    Nat → List (SimplifiedRecord G1Affine G2Affine) → List Nat → Option (List Nat)
  | _, [], res => some res
  | i, sr :: rest, res =>
    match traceSP.inner E mt i sr.Pairs with
    | none => none
    | some true => traceSP.loop E mt (i + 1) rest (res ++ [i])
    | some false => traceSP.loop E mt (i + 1) rest res

/-- Go `traceSP`; `none` is the panic of an index out of range. -/
def traceSP {G1Affine G2Affine GT : Type} [DecidableEq GT] (E : Env G1Affine G2Affine GT)
    (mt : List (MatchingText G1Affine G2Affine))
    (srs : List (SimplifiedRecord G1Affine G2Affine)) : Option (List Nat) :=
  traceSP.loop E mt 0 srs []

/-! ## batchTrace.go: the generated records -/

/-- The Go conversion `int64(x)` of a `uint64`: the value modulo `2^64`, read as
a signed 64-bit integer. -/
def toInt64 (x : Nat) : Int :=
  if x % 2 ^ 64 < 2 ^ 63 then ((x % 2 ^ 64 : Nat) : Int) else ((x % 2 ^ 64 : Nat) : Int) - 2 ^ 64

/-- Go `RandomG1Affine`, with the draw `u`. -/
def RandomG1Affine {G1Affine G2Affine GT : Type} [AddCommGroup G1Affine]
    (E : Env G1Affine G2Affine GT) (u : Int) : G1Affine :=
  u • E.G1

/-- Go `RandomG2Affine`, with the draw `u`. -/
def RandomG2Affine {G1Affine G2Affine GT : Type} [AddCommGroup G2Affine]
    (E : Env G1Affine G2Affine GT) (u : Int) : G2Affine :=
  u • E.G2

/-- The inner loop of Go `generateRecords` for one round, from the pair `j` on,
`n` pairs to go; `num`, `u`, `v` give the draws of the pair `j`.  `none` is the
panic of `rand.Int` on a bound that is not positive. -/
def generateRecords.inner {G1Affine G2Affine GT : Type} [AddCommGroup G1Affine]
    [AddCommGroup G2Affine] (E : Env G1Affine G2Affine GT) (m : G1Affine) (frequency : Nat)
    (HR_ : G2Affine) (num u v : Nat → Int) :
    Nat → Nat → Option (List (AffinePair G1Affine G2Affine))
  | _, 0 => some []
  | j, n + 1 =>
    if toInt64 frequency ≤ 0 then none else
    let _M := if num j = 1 then m else RandomG1Affine E (u j)
    let _V := v j • _M
    let X_ := v j • HR_
    match generateRecords.inner E m frequency HR_ num u v (j + 1) n with
    | none => none
    | some aps => some ({ _V := _V, X_ := X_ } :: aps)

/-- The outer loop of Go `generateRecords`, from the round `i` on, `n` rounds to
go; `hr i` is the draw of `RandomG2Affine` in the round `i`, and `num i`, `u i`,
`v i` give the draws of its pairs. -/
def generateRecords.loop {G1Affine G2Affine GT : Type} [AddCommGroup G1Affine]
    [AddCommGroup G2Affine] (E : Env G1Affine G2Affine GT) (m : G1Affine)
    (avg frequency : Nat) (hr : Nat → Int) (num u v : Nat → Nat → Int) :
    Nat → Nat → Option (List (SimplifiedRecord G1Affine G2Affine))
  | _, 0 => some []
  | i, n + 1 =>
    let HR_ := RandomG2Affine E (hr i)
    match generateRecords.inner E m frequency HR_ (num i) (u i) (v i) 0 avg with
    | none => none
    | some aps =>
      match generateRecords.loop E m avg frequency hr num u v (i + 1) n with
      | none => none
      | some groups => some ({ HR_ := HR_, Pairs := aps } :: groups)

/-- Go `generateRecords`, with the draws.  `avg`, `total`, `frequency` are
`uint64` values.  `none` is a panic (the division by `avg = 0`, or `rand.Int` on
a bound that is not positive); `Except.error` is the returned error.  Slices
are lists: no limit of allocation is modelled. -/
def generateRecords {G1Affine G2Affine GT : Type} [AddCommGroup G1Affine]
    [AddCommGroup G2Affine] (E : Env G1Affine G2Affine GT) (m : G1Affine)
    (avg total frequency : Nat) (hr : Nat → Int) (num u v : Nat → Nat → Int) :
    Option (Except String (List (SimplifiedRecord G1Affine G2Affine))) :=
  if avg = 0 then none else
  if total % avg ≠ 0 then
    some (Except.error ("total (" ++ toString total ++ ") is not a multiple of avg (" ++
      toString avg ++ ")"))
  else
    let rounds := total / avg
    match generateRecords.loop E m avg frequency hr num u v 0 rounds with
    | none => none
    | some groups => some (Except.ok groups)

/-! ## Comp/Hades/hades.go -/

/-- Go `auditString`. -/
structure auditString where
  KG : PointAffine
deriving DecidableEq

/-- The Go value of an `int` expression: the integer modulo `2^64`, read as a
signed 64-bit integer. -/
def wrapInt (x : Int) : Int :=
  (x + 2 ^ 63) % 2 ^ 64 - 2 ^ 63

/-- The loop of Go `GenerateRecords` of `hades.go`, from the index `i` on, `n`
rounds to go, with the slice `ads` so far; `num i`, `nonce i`, `rBeta i` are the
draws of the round `i`.  `none` is the panic of `rand.Int` on a bound that is
not positive. -/
def Hades.GenerateRecords.loop {G1Affine G2Affine GT : Type} (E : Env G1Affine G2Affine GT)
    (w : Int) (beta : Int) (num nonce rBeta : Nat → Int) :
    Nat → Nat → List auditString → Option (List auditString)
  | _, 0, ads => some ads
  | i, n + 1, ads =>
    if wrapInt (w + i) ≤ 0 then none else
    let ho : Int :=
      if num i = 1 then
        let content := BigBytes beta ++ BigBytes (nonce i)
        let hOut := MiMCSum E content
        SetBytes hOut
      else
        let content := BigBytes (rBeta i) ++ BigBytes (nonce i)
        let hOut := MiMCSum E content
        SetBytes hOut
    let kg := E.ScalarMultiplication E.Base ho
    Hades.GenerateRecords.loop E w beta num nonce rBeta (i + 1) n (ads ++ [{ KG := kg }])

/-- Go `GenerateRecords` of `hades.go`, with the draws; the error it returns is
always `nil`.  `none` is a panic: `make` with a negative length, or `rand.Int`
on a bound that is not positive. -/
def Hades.GenerateRecords {G1Affine G2Affine GT : Type} (E : Env G1Affine G2Affine GT)
    (total w : Int) (beta : Int) (num nonce rBeta : Nat → Int) : Option (List auditString) :=
  if total < 0 then none else
  let ads := List.replicate total.toNat ({ KG := { X := 0, Y := 0 } } : auditString)
  Hades.GenerateRecords.loop E w beta num nonce rBeta 0 total.toNat ads

/-- The curve point with the given residue modulo 7 (small instance). -/
def smallPoint (a : ZMod 7) : PointAffine := { X := a.val, Y := 0 }

/-- The residue a point of the small instance stands for. -/
def smallResidue (p : PointAffine) : ZMod 7 := (p.X : ZMod 7)

/-- A small instance: all four groups are the integers modulo 7, the pairing is
multiplication, points are marshalled to their coordinates and the hash
functions are simple sums.  It serves to evaluate the model on concrete
inputs. -/
def smallEnv : Env (ZMod 7) (ZMod 7) (ZMod 7) where
  q := 7
  Order := 7
  Base := smallPoint 1
  Add := fun p p1 => smallPoint (smallResidue p + smallResidue p1)
  Neg := fun p => smallPoint (-smallResidue p)
  ScalarMultiplication := fun p n => smallPoint (n • smallResidue p)
  Marshal := fun p => [p.X, p.Y]
  G1 := 1
  G2 := 1
  MarshalG1 := fun a => [a.val]
  MarshalG2 := fun a => [a.val]
  Pair := fun a b => a * b
  Sum256 := fun arr => [arr.sum % 7]
  MiMC := fun data => data.sum

/-- The small instance of the SNARK backend: a proof is the assignment itself
and verification checks nothing. -/
def smallGroth16 : Groth16 where
  ConstraintSystem := Unit
  ProvingKey := Unit
  VerifyingKey := Unit
  Witness := PKENPCircuit
  Proof := PKENPCircuit
  NewWitness := fun pc => pc
  Public := fun w => w
  Prove := fun _ _ w => w
  Verify := fun _ _ _ => true

/-- What is assumed of the three `Marshal` functions on group elements: the
encoding has one length per group and is injective (a canonical fixed-length
serialisation). -/
structure CanonicalMarshal {G1Affine G2Affine GT : Type} (E : Env G1Affine G2Affine GT)
    {A : Type} (φ : A → PointAffine) : Prop where
  te_len : ∀ a b : A, (E.Marshal (φ a)).length = (E.Marshal (φ b)).length
  te_inj : ∀ a b : A, E.Marshal (φ a) = E.Marshal (φ b) → a = b
  g1_len : ∀ P Q : G1Affine, (E.MarshalG1 P).length = (E.MarshalG1 Q).length
  g1_inj : ∀ P Q : G1Affine, E.MarshalG1 P = E.MarshalG1 Q → P = Q
  g2_len : ∀ P Q : G2Affine, (E.MarshalG2 P).length = (E.MarshalG2 Q).length
  g2_inj : ∀ P Q : G2Affine, E.MarshalG2 P = E.MarshalG2 Q → P = Q

/-- The byte strings `t` and `t0` are different and `Sum256` gives them digests
of the same value: a collision of the hash, as far as the challenge derived
from the digest is concerned. -/
def Collides {G1Affine G2Affine GT : Type} (E : Env G1Affine G2Affine GT)
    (t t0 : List Nat) : Prop :=
  t ≠ t0 ∧ SetBytes (E.Sum256 t) = SetBytes (E.Sum256 t0)

/-- The byte strings `t` and `t0` are different and MiMC relates their digests
`h` and `h0`, as field elements, so that the scalar `r`, masked with `h0` and
unmasked with `h`, is still `r` modulo the group order:
`(h ⊕ h0 ⊕ r) mod Order = r mod Order`.  Equal digests are the simplest case. -/
def MaskRelated {G1Affine G2Affine GT : Type} (E : Env G1Affine G2Affine GT)
    (t t0 : List Nat) (r : Int) : Prop :=
  t ≠ t0 ∧
    ((E.MiMC t % E.q ^^^ (E.MiMC t0 % E.q ^^^ r.natAbs) : Nat) : Int) % E.Order
      = r % E.Order

/-- A commitment of the small instance, for `uid = 3`. -/
def smallContent : Content (ZMod 7) := GetContent smallEnv 3 2 4 5 1 6

/-- A ciphertext record of the small instance whose `V` is `4·M` for the
plaintext of `smallContent`. -/
def smallCipher : PKEETNP :=
  { PK := smallPoint 5, M := smallContent.M, r := 4,
    cp := { U := smallPoint 4, V := smallEnv.ScalarMultiplication smallContent.M 4,
            W := (0, 0, 0) } }

/-- A token of the small instance with `v = 4` for the plaintext of
`smallContent` and the round generator `5`. -/
def smallToken : ETP (ZMod 7) (ZMod 7) :=
  { v := 4, _V := (4 : Int) • smallContent._M, HR_ := 5, X_ := (4 : Int) • (5 : ZMod 7) }

/-- The draws of one round in the small instance. -/
def smallDraws : Draws :=
  { u := 2, u1 := 4, k := 5, ru := 1, rk := 6, s := 3, r := 4, d := 2, rv := 1,
    rAlpha := 5, rBeta := 3 }

/-- The gadgets of the small instance: the native operations of `smallEnv`. -/
def smallGadgets : Gadgets where
  ScalarMul := fun p n => smallEnv.ScalarMultiplication p n
  MiMC := fun xs => smallEnv.MiMC (xs.flatMap ElementBytes) % smallEnv.q

/-- A record of the small instance before encryption: key `3·g`, plaintext `3·g`. -/
def smallPlain : PKEETNP :=
  { PK := smallPoint 3, M := smallPoint 3, r := 0,
    cp := { U := ⟨0, 0⟩, V := ⟨0, 0⟩, W := (0, 0, 0) } }

/-- The assignment `GetCircuit` returns in the small instance after `Enc` of
`smallPlain` with the draw `r = 4`. -/
def smallAssignment : PKENPCircuit :=
  { R := 4, MX := 3, MY := 0, PKX := 3, PKY := 0, UX := 4, UY := 0, VX := 5, VY := 0,
    YX := 5, YY := 0, W := 5, W1 := 1, W2 := 3 }

/-- The ciphertext of `smallPlain` for the draw `r = 4`, held in a record whose
field `M` is another point than the plaintext. -/
def smallMismatch : PKEETNP :=
  { PK := smallPoint 3, M := smallPoint 1, r := 4,
    cp := { U := ⟨4, 0⟩, V := ⟨5, 0⟩, W := (5, 1, 3) } }

/-- A round of the small instance as `Verify` receives it. -/
def smallRound : PKEETVPG (ZMod 7) (ZMod 7) smallGroth16 :=
  { cont := smallContent, cipher := smallCipher, et := smallToken,
    snp := snarkProof.ProveSnark smallGroth16 () () () smallAssignment,
    sigp := sigmaProof.ProveSigma smallEnv smallContent smallCipher smallToken 2 1 5 3 }

/-- The round `smallRound` with other values in the fields that `Verify` does
not read, among them a commitment proof that does not verify. -/
def smallRoundOther : PKEETVPG (ZMod 7) (ZMod 7) smallGroth16 :=
  { cont := { smallContent with M := ⟨0, 0⟩, _M := 0, cint := 0, zu := 0, zk := 0 },
    cipher := { PK := ⟨0, 0⟩, M := ⟨0, 0⟩, r := 0,
                cp := { U := ⟨0, 0⟩, V := smallCipher.cp.V, W := (1, 1, 1) } },
    et := smallToken,
    snp := snarkProof.ProveSnark smallGroth16 () () () smallAssignment,
    sigp := sigmaProof.ProveSigma smallEnv smallContent smallCipher smallToken 2 1 5 3 }

/-- Three stored rounds of the small instance; the rounds `0` and `2` contain a
pair of the target `3`. -/
def smallRecords : List (SimplifiedRecord (ZMod 7) (ZMod 7)) :=
  [{ HR_ := 5, Pairs := [{ _V := (2 : Int) • (3 : ZMod 7), X_ := (2 : Int) • (5 : ZMod 7) },
                         { _V := 1, X_ := 1 }] },
   { HR_ := 3, Pairs := [{ _V := 1, X_ := 2 }] },
   { HR_ := 2, Pairs := [{ _V := 5, X_ := 5 },
                         { _V := (4 : Int) • (3 : ZMod 7), X_ := (4 : Int) • (2 : ZMod 7) }] }]

/-- The matching texts of the small instance for the target `3`, with the draws
`1, 2, 3`. -/
def smallMatching : List (MatchingText (ZMod 7) (ZMod 7)) :=
  traceR (3 : ZMod 7) (smallRecords.map fun sr => sr.HR_) (fun i => (i : Int) + 1)

/-! ## A small instance with a cofactor -/

/-- The curve point with the given residue modulo 14 (instance with cofactor). -/
def cofactorPoint (a : ZMod 14) : PointAffine := { X := a.val, Y := 0 }

/-- The residue a point of the instance with cofactor stands for. -/
def cofactorResidue (p : PointAffine) : ZMod 14 := (p.X : ZMod 14)

/-- A small instance whose curve group is larger than the group of its
generator: the curve points are the integers modulo 14 and the generator `2` has
order 7, so the point `7` has order 2 and lies outside the group of the
generator.  The bn254 groups are the integers modulo 7. -/
def cofactorEnv : Env (ZMod 7) (ZMod 7) (ZMod 7) where
  q := 17
  Order := 7
  Base := cofactorPoint 2
  Add := fun p p1 => cofactorPoint (cofactorResidue p + cofactorResidue p1)
  Neg := fun p => cofactorPoint (-cofactorResidue p)
  ScalarMultiplication := fun p n => cofactorPoint (n • cofactorResidue p)
  Marshal := fun p => [p.X, p.Y]
  G1 := 1
  G2 := 1
  MarshalG1 := fun a => [a.val]
  MarshalG2 := fun a => [a.val]
  Pair := fun a b => a * b
  Sum256 := fun arr => [arr.sum % 5]
  MiMC := fun data => data.sum

/-- A commitment of the instance with cofactor to `uid = 2` with `k = 1`, whose
`H` is the point of order 2, with the proof `ProveSigma` makes for the draws
`ru = 1`, `rk = 1`. -/
def cofactorContent : Content (ZMod 7) :=
  Content.ProveSigma cofactorEnv
    { k := 1, M := cofactorPoint 4, H := cofactorPoint 7, B := cofactorPoint 11,
      _M := 2, _H := 1, _B := 3, cint := 0, zu := 0, zk := 0 } 2 1 1

/-! ## Theorems -/

/-! ### Bytes -/

theorem SetBytes_nil : SetBytes [] = 0 := rfl

theorem SetBytes_snoc (b : List Nat) (x : Nat) : SetBytes (b ++ [x]) = SetBytes b * 256 + x := by
  simp [SetBytes, List.foldl_append]

theorem SetBytes_replicate_zero (z : Nat) : SetBytes (List.replicate z 0) = 0 := by
  induction z with
  | zero => rfl
  | succ z ih => rw [List.replicate_succ', SetBytes_snoc, ih]

theorem SetBytes_append (a b : List Nat) :
    SetBytes (a ++ b) = SetBytes a * 256 ^ b.length + SetBytes b := by
  induction b using List.reverseRecOn with
  | nil => simp [SetBytes_nil]
  | append_singleton b x ih =>
    rw [← List.append_assoc, SetBytes_snoc, SetBytes_snoc, ih]
    simp [pow_succ]
    ring

theorem SetBytes_lt (b : List Nat) (hb : IsBytes b) : SetBytes b < 256 ^ b.length := by
  induction b using List.reverseRecOn with
  | nil => simp [SetBytes_nil]
  | append_singleton b x ih =>
    have hx : x < 256 := hb x (by simp)
    have hb' : IsBytes b := fun y hy => hb y (by simp [hy])
    have := ih hb'
    rw [SetBytes_snoc, List.length_append, List.length_singleton, pow_succ]
    omega

theorem SetBytes_inj (a b : List Nat) (ha : IsBytes a) (hb : IsBytes b)
    (hlen : a.length = b.length) (h : SetBytes a = SetBytes b) : a = b := by
  induction a using List.reverseRecOn generalizing b with
  | nil =>
    cases b with
    | nil => rfl
    | cons y b => simp at hlen
  | append_singleton a x ih =>
    rcases List.eq_nil_or_concat b with hb0 | ⟨b', y, rfl⟩
    · subst hb0; simp at hlen
    · simp only [List.concat_eq_append] at hb hlen h ⊢
      have hx : x < 256 := ha x (by simp)
      have hy : y < 256 := hb y (by simp)
      have ha' : IsBytes a := fun z hz => ha z (by simp [hz])
      have hb' : IsBytes b' := fun z hz => hb z (by simp [hz])
      rw [SetBytes_snoc, SetBytes_snoc] at h
      have hl : a.length = b'.length := by simpa using hlen
      have h1 : SetBytes a = SetBytes b' := by omega
      have h2 : x = y := by omega
      rw [ih b' ha' hb' hl h1, h2]

theorem bytesFuel_isBytes (fuel n : Nat) : IsBytes (bytesFuel fuel n) := by
  induction fuel generalizing n with
  | zero => intro x hx; simp [bytesFuel] at hx
  | succ fuel ih =>
    intro x hx
    unfold bytesFuel at hx
    split at hx
    · simp at hx
    · rcases List.mem_append.mp hx with h | h
      · exact ih _ x h
      · simp at h; omega

theorem SetBytes_bytesFuel (fuel n : Nat) (h : n < 256 ^ fuel) :
    SetBytes (bytesFuel fuel n) = n := by
  induction fuel generalizing n with
  | zero => simp at h; subst h; rfl
  | succ fuel ih =>
    unfold bytesFuel
    split
    · subst_vars; rfl
    · rw [SetBytes_snoc, ih]
      · omega
      · rw [pow_succ] at h; omega

theorem bytesFuel_length_le (fuel n k : Nat) (h : n < 256 ^ k) :
    (bytesFuel fuel n).length ≤ k := by
  induction fuel generalizing n k with
  | zero => simp [bytesFuel]
  | succ fuel ih =>
    unfold bytesFuel
    split
    · simp
    · cases k with
      | zero => simp at h; omega
      | succ k =>
        have := ih (n / 256) k (by rw [pow_succ] at h; omega)
        simp; omega

theorem BigBytes_isBytes (n : Int) : IsBytes (BigBytes n) := bytesFuel_isBytes _ _

theorem SetBytes_BigBytes (n : Int) : SetBytes (BigBytes n) = n.natAbs :=
  SetBytes_bytesFuel _ _ (Nat.lt_pow_self (by norm_num) _)

theorem BigBytes_length_le (n : Int) (k : Nat) (h : n.natAbs < 256 ^ k) :
    (BigBytes n).length ≤ k := bytesFuel_length_le _ _ _ h

/-- Left padding with zeros to 32 bytes. -/
theorem pad_spec (b : List Nat) (hb : IsBytes b) (hlen : b.length ≤ 32) :
    (List.replicate (32 - b.length) 0 ++ b).length = 32 ∧
    IsBytes (List.replicate (32 - b.length) 0 ++ b) ∧
    SetBytes (List.replicate (32 - b.length) 0 ++ b) = SetBytes b := by
  refine ⟨by simp; omega, ?_, ?_⟩
  · intro x hx
    rcases List.mem_append.mp hx with h | h
    · rw [List.mem_replicate] at h; omega
    · exact hb x h
  · rw [SetBytes_append, SetBytes_replicate_zero]; simp

theorem BigIntToFixed32Bytes_eq (n : Int) (h : n.natAbs < 2 ^ 256) :
    BigIntToFixed32Bytes n = some (ElementBytes n.natAbs) := by
  have hl : (BigBytes n).length ≤ 32 := BigBytes_length_le n 32 (by norm_num; exact h)
  have hb : BigBytes ((n.natAbs : Nat) : Int) = BigBytes n := by
    unfold BigBytes; rw [Int.natAbs_ofNat]
  simp only [BigIntToFixed32Bytes, ElementBytes, hl, hb, if_true]

theorem ElementBytes_spec (x : Nat) (h : x < 2 ^ 256) :
    (ElementBytes x).length = 32 ∧ IsBytes (ElementBytes x) ∧ SetBytes (ElementBytes x) = x := by
  have hl : (BigBytes x).length ≤ 32 := BigBytes_length_le x 32 (by norm_num; exact h)
  have := pad_spec (BigBytes x) (BigBytes_isBytes _) hl
  refine ⟨this.1, this.2.1, ?_⟩
  rw [ElementBytes, this.2.2, SetBytes_BigBytes]; rfl

theorem ElementBytes_SetBytes (b : List Nat) (hb : IsBytes b) (hlen : b.length = 32) :
    ElementBytes (SetBytes b) = b := by
  have hlt : SetBytes b < 2 ^ 256 := by
    have := SetBytes_lt b hb
    rw [hlen] at this; norm_num at this ⊢; exact this
  obtain ⟨h1, h2, h3⟩ := ElementBytes_spec (SetBytes b) hlt
  exact SetBytes_inj _ _ h2 hb (by rw [h1, hlen]) h3

/-- Encoding the value of 32 bytes gives the 32 bytes back. -/
theorem BigIntToFixed32Bytes_SetBytes (b : List Nat) (hb : IsBytes b) (hlen : b.length = 32) :
    BigIntToFixed32Bytes ((SetBytes b : Nat) : Int) = some b := by
  have hlt : SetBytes b < 2 ^ 256 := by
    have := SetBytes_lt b hb
    rw [hlen] at this; norm_num at this ⊢; exact this
  rw [BigIntToFixed32Bytes_eq _ (by simpa using hlt), Int.natAbs_ofNat,
    ElementBytes_SetBytes b hb hlen]

theorem xorBytes_length (a b : List Nat) (h : a.length = b.length) :
    (xorBytes a b).length = a.length := by
  simp [xorBytes, h]

theorem xorBytes_isBytes (a b : List Nat) (ha : IsBytes a) (hb : IsBytes b) :
    IsBytes (xorBytes a b) := by
  induction a generalizing b with
  | nil => intro x hx; simp [xorBytes] at hx
  | cons x a ih =>
    cases b with
    | nil => intro y hy; simp [xorBytes] at hy
    | cons y b =>
      intro z hz
      simp only [xorBytes, List.zipWith_cons_cons, List.mem_cons] at hz
      rcases hz with rfl | hz
      · exact Nat.xor_lt_two_pow (n := 8) (ha x (by simp)) (hb y (by simp))
      · exact ih b (fun w hw => ha w (by simp [hw])) (fun w hw => hb w (by simp [hw])) z hz

theorem xorBytes_cancel (a b : List Nat) (h : a.length = b.length) :
    xorBytes a (xorBytes a b) = b := by
  induction a generalizing b with
  | nil => cases b with
    | nil => rfl
    | cons y b => simp at h
  | cons x a ih =>
    cases b with
    | nil => simp at h
    | cons y b =>
      simp only [xorBytes, List.zipWith_cons_cons, Nat.xor_cancel_left, List.cons.injEq, true_and]
      exact ih b (by simpa using h)

/-- The three masks are removed again by the exclusive or of `Dec`. -/
theorem unmask (h b : List Nat) (hh : IsBytes h) (hb : IsBytes b) (hhl : h.length = 32)
    (hbl : b.length = 32) :
    BigIntToFixed32Bytes ((SetBytes (xorBytes h b) : Nat) : Int) = some (xorBytes h b) ∧
      xorBytes h (xorBytes h b) = b :=
  ⟨BigIntToFixed32Bytes_SetBytes _ (xorBytes_isBytes h b hh hb)
      (by rw [xorBytes_length h b (by rw [hhl, hbl]), hhl]),
    xorBytes_cancel h b (by rw [hhl, hbl])⟩

/-- Appending equal blocks gives equal byte strings. -/
theorem append_congr {a b c d : List Nat} (h1 : a = c) (h2 : b = d) : a ++ b = c ++ d := by
  rw [h1, h2]


/-! ### The small instances -/

/-- Reading back the residue of a point of the small instance. -/
theorem smallResidue_smallPoint (a : ZMod 7) : smallResidue (smallPoint a) = a := by
  simp [smallResidue, smallPoint]

/-- The small instance satisfies what is assumed of the curve library. -/
theorem smallEnv_model : CurveModel smallEnv smallPoint 1 where
  base := rfl
  add a b := by simp only [smallEnv, smallResidue_smallPoint]
  neg a := by simp only [smallEnv, smallResidue_smallPoint]
  smul a n := by simp only [smallEnv, smallResidue_smallPoint]
  canon a := ⟨ZMod.val_lt a, Nat.succ_pos 6⟩

/-- The pairing of the small instance, multiplication modulo 7, is bilinear. -/
theorem smallEnv_bilinear : Bilinear smallEnv.Pair where
  smul_left a P Q := smul_mul_assoc a P Q
  smul_right b P Q := mul_smul_comm b P Q

/-- The base point of the small instance has the order `Order = 7`. -/
theorem smallEnv_order (n : Int) : n • (1 : ZMod 7) = 0 ↔ (smallEnv.Order : Int) ∣ n := by
  rw [zsmul_one]
  exact ZMod.intCast_zmod_eq_zero_iff_dvd n 7

/-- The encodings of the small instance are canonical. -/
theorem smallEnv_canonical : CanonicalMarshal smallEnv smallPoint where
  te_len _ _ := rfl
  te_inj a b e := by
    simp only [smallEnv, smallPoint, List.cons.injEq, and_true] at e
    exact ZMod.val_injective 7 e
  g1_len _ _ := rfl
  g1_inj a b e := by
    simp only [smallEnv, List.cons.injEq, and_true] at e
    exact ZMod.val_injective 7 e
  g2_len _ _ := rfl
  g2_inj a b e := by
    simp only [smallEnv, List.cons.injEq, and_true] at e
    exact ZMod.val_injective 7 e

/-! ### The commitment proof (C1) -/

/-- The verifier of the commitment proof rebuilds the announcements `BB`, `_BB`
of the prover whenever the commitment opens to `(uid, k)` on both groups and
the responses are `ru + uid·c`, `rk + k·c` for the stored challenge `c`. -/
theorem Content.verifyTranscript_of_opening {G1Affine G2Affine GT : Type}
    [AddCommGroup G1Affine] (E : Env G1Affine G2Affine GT)
    {A : Type} [AddCommGroup A] {φ : A → PointAffine} {g : A}
    (hE : CurveModel E φ g) (cont : Content G1Affine) (h : A) (uid ru rk : Int)
    (hH : cont.H = φ h) (hB : cont.B = φ (uid • g + cont.k • h))
    (hB1 : cont._B = uid • E.G1 + cont.k • cont._H)
    (hzu : cont.zu = ru + uid * cont.cint) (hzk : cont.zk = rk + cont.k * cont.cint) :
    cont.verifyTranscript E =
      E.Marshal (φ (uid • g + cont.k • h)) ++ E.Marshal (φ (ru • g + rk • h)) ++
        E.MarshalG1 (uid • E.G1 + cont.k • cont._H) ++
        E.MarshalG1 (ru • E.G1 + rk • cont._H) ++ E.Marshal (φ g) ++ E.Marshal (φ h) ++
        E.MarshalG1 E.G1 ++ E.MarshalG1 cont._H := by
  simp only [Content.verifyTranscript, hzu, hzk]
  generalize cont.cint = c
  simp only [hH, hB, hB1, ← hE.base, hE.smul, hE.add, hE.neg]
  have h1 : (ru + uid * c) • g + (rk + cont.k * c) • h + -(c • (uid • g + cont.k • h))
      = ru • g + rk • h := by module
  have h2 : (ru + uid * c) • E.G1 + (rk + cont.k * c) • cont._H
      + -(c • (uid • E.G1 + cont.k • cont._H)) = ru • E.G1 + rk • cont._H := by module
  rw [h1, h2]

/-- A fresh commitment verifies: the recomputed announcements are those of the
prover, so the recomputed challenge is the stored one. -/
theorem GetContent_VerifySigma {G1Affine G2Affine GT : Type} [AddCommGroup G1Affine]
    (E : Env G1Affine G2Affine GT) {A : Type} [AddCommGroup A] {φ : A → PointAffine}
    {g : A} (hE : CurveModel E φ g) (uid u u1 k ru rk : Int) :
    (GetContent E uid u u1 k ru rk).VerifySigma E = true := by
  unfold Content.VerifySigma
  rw [Content.verifyTranscript_of_opening E hE _ (u • g) uid ru rk]
  · simp only [GetContent, Content.ProveSigma, ← hE.base, hE.smul, hE.add, if_true]
  · simp only [GetContent, Content.ProveSigma, ← hE.base, hE.smul]
  · simp only [GetContent, Content.ProveSigma, ← hE.base, hE.smul, hE.add]
  · rfl
  · rfl
  · rfl

/-- The fields of a fresh commitment, in terms of the group of curve points. -/
theorem GetContent_fields {G1Affine G2Affine GT : Type} [AddCommGroup G1Affine]
    (E : Env G1Affine G2Affine GT) {A : Type} [AddCommGroup A] {φ : A → PointAffine}
    {g : A} (hE : CurveModel E φ g) (uid u u1 k ru rk : Int) :
    (GetContent E uid u u1 k ru rk).H = φ (u • g) ∧
      (GetContent E uid u u1 k ru rk).B = φ (uid • g + k • u • g) ∧
      (GetContent E uid u u1 k ru rk)._H = u1 • E.G1 := by
  refine ⟨?_, ?_, rfl⟩
  · simp only [GetContent, Content.ProveSigma, ← hE.base, hE.smul]
  · simp only [GetContent, Content.ProveSigma, ← hE.base, hE.smul, hE.add]

/-- C1: for every `uid` and every outcome of the draws `u`, `u1`, `k`, `ru`,
`rk`, the content returned by `GetContent` passes `VerifySigma`: the
announcements the verifier recomputes, `zu·g + zk·H − cint·B` and
`zu·G1 + zk·_H − cint·_B`, are the prover's `BB = ru·g + rk·H` and
`_BB = ru·G1 + rk·_H`, so the recomputed challenge is the stored one. -/
theorem C1_commitment_complete {G1Affine G2Affine GT : Type} [AddCommGroup G1Affine]
    (E : Env G1Affine G2Affine GT) {A : Type} [AddCommGroup A] (φ : A → PointAffine)
    (g : A) (hE : CurveModel E φ g) (uid u u1 k ru rk : Int) :
    E.Add (E.Add (E.ScalarMultiplication E.Base (GetContent E uid u u1 k ru rk).zu)
          (E.ScalarMultiplication (GetContent E uid u u1 k ru rk).H
            (GetContent E uid u u1 k ru rk).zk))
        (E.Neg (E.ScalarMultiplication (GetContent E uid u u1 k ru rk).B
          (GetContent E uid u u1 k ru rk).cint))
        = E.Add (E.ScalarMultiplication E.Base ru)
          (E.ScalarMultiplication (GetContent E uid u u1 k ru rk).H rk) ∧
      (GetContent E uid u u1 k ru rk).zu • E.G1
          + (GetContent E uid u u1 k ru rk).zk • (GetContent E uid u u1 k ru rk)._H
          + -((GetContent E uid u u1 k ru rk).cint • (GetContent E uid u u1 k ru rk)._B)
        = ru • E.G1 + rk • (GetContent E uid u u1 k ru rk)._H ∧
      (GetContent E uid u u1 k ru rk).VerifySigma E = true := by
  refine ⟨?_, ?_, GetContent_VerifySigma E hE uid u u1 k ru rk⟩
  · simp only [GetContent, Content.ProveSigma]
    generalize ((SetBytes (E.Sum256 _) : Nat) : Int) = c
    simp only [← hE.base, hE.smul, hE.add, hE.neg]
    congr 1
    module
  · simp only [GetContent, Content.ProveSigma]
    generalize ((SetBytes (E.Sum256 _) : Nat) : Int) = c
    module

/-- C1 at the small instance, for `uid = 3`. -/
theorem C1_commitment_complete_witness :
    CurveModel smallEnv smallPoint 1 ∧
      (smallEnv.Add (smallEnv.Add
            (smallEnv.ScalarMultiplication smallEnv.Base (GetContent smallEnv 3 2 4 5 1 6).zu)
            (smallEnv.ScalarMultiplication (GetContent smallEnv 3 2 4 5 1 6).H
              (GetContent smallEnv 3 2 4 5 1 6).zk))
          (smallEnv.Neg (smallEnv.ScalarMultiplication (GetContent smallEnv 3 2 4 5 1 6).B
            (GetContent smallEnv 3 2 4 5 1 6).cint))
          = smallEnv.Add (smallEnv.ScalarMultiplication smallEnv.Base 1)
            (smallEnv.ScalarMultiplication (GetContent smallEnv 3 2 4 5 1 6).H 6) ∧
        (GetContent smallEnv 3 2 4 5 1 6).zu • smallEnv.G1
            + (GetContent smallEnv 3 2 4 5 1 6).zk • (GetContent smallEnv 3 2 4 5 1 6)._H
            + -((GetContent smallEnv 3 2 4 5 1 6).cint • (GetContent smallEnv 3 2 4 5 1 6)._B)
          = (1 : Int) • smallEnv.G1 + (6 : Int) • (GetContent smallEnv 3 2 4 5 1 6)._H ∧
        (GetContent smallEnv 3 2 4 5 1 6).VerifySigma smallEnv = true) :=
  ⟨smallEnv_model, C1_commitment_complete smallEnv smallPoint 1 smallEnv_model 3 2 4 5 1 6⟩


/-! ### Encryption and decryption (C2) -/

/-- A hash block is 32 bytes long. -/
theorem hashBlock_spec {G1Affine G2Affine GT : Type} (E : Env G1Affine G2Affine GT)
    (hq0 : 0 < E.q) (hq : E.q ≤ 2 ^ 256) (pref : List Nat) (i : Int) :
    (hashBlock E pref i).length = 32 ∧ IsBytes (hashBlock E pref i) := by
  have hlt : E.MiMC (pref ++ (ElementBytes (E.ScalarMultiplication E.Base i).X ++
      ElementBytes (E.ScalarMultiplication E.Base i).Y)) % E.q < 2 ^ 256 :=
    lt_of_lt_of_le (Nat.mod_lt _ hq0) hq
  have := ElementBytes_spec _ hlt
  exact ⟨this.1, this.2.1⟩

/-- What `Enc` stores, for a draw `r` below `2^256`. -/
theorem PKEETNP.Enc_spec {G1Affine G2Affine GT : Type} (E : Env G1Affine G2Affine GT)
    (pkeetnp : PKEETNP) (r : Int) (hr : r.natAbs < 2 ^ 256) :
    ∃ pe, pkeetnp.Enc E r = some pe ∧ pe.PK = pkeetnp.PK ∧ pe.M = pkeetnp.M ∧ pe.r = r ∧
      pe.cp.U = E.ScalarMultiplication E.Base r ∧
      pe.cp.V = E.ScalarMultiplication pkeetnp.M r := by
  have hfix : BigIntToFixed32Bytes r = some (ElementBytes r.natAbs) :=
    BigIntToFixed32Bytes_eq r hr
  simp only [PKEETNP.Enc, hfix]
  exact ⟨_, rfl, rfl, rfl, rfl, rfl, rfl⟩

/-- Decrypting what `Enc` produced, with the matching secret key, returns the
plaintext. -/
theorem Ciphertext.Dec_Enc {G1Affine G2Affine GT : Type} (E : Env G1Affine G2Affine GT)
    {A : Type} [AddCommGroup A] {φ : A → PointAffine} {g : A} (hE : CurveModel E φ g)
    (hq : E.q ≤ 2 ^ 256) (hOrder : E.Order ≤ 2 ^ 256) (sk : Int) (pkeetnp : PKEETNP)
    (r : Int) (hPK : pkeetnp.PK = E.ScalarMultiplication E.Base sk)
    (hMX : pkeetnp.M.X < E.q) (hMY : pkeetnp.M.Y < E.q) (hr0 : 0 ≤ r) (hr : r < E.Order)
    (pe : PKEETNP) (hpe : pkeetnp.Enc E r = some pe) :
    pe.cp.Dec E sk = some (pkeetnp.M, true) := by
  have hq0 : 0 < E.q := by omega
  have hrabs : r.natAbs < 2 ^ 256 := by omega
  have hfix : BigIntToFixed32Bytes r = some (ElementBytes r.natAbs) :=
    BigIntToFixed32Bytes_eq r hrabs
  obtain ⟨hrl, hrb, hrs⟩ := ElementBytes_spec r.natAbs hrabs
  obtain ⟨hxl, hxb, hxs⟩ := ElementBytes_spec pkeetnp.M.X (by omega)
  obtain ⟨hyl, hyb, hys⟩ := ElementBytes_spec pkeetnp.M.Y (by omega)
  have hY : E.ScalarMultiplication (E.ScalarMultiplication E.Base r) sk
      = E.ScalarMultiplication pkeetnp.PK r := by
    rw [hPK, ← hE.base, hE.smul, hE.smul, hE.smul, hE.smul, smul_comm]
  simp only [PKEETNP.Enc, hfix, Option.some.injEq] at hpe
  subst hpe
  simp only [Ciphertext.Dec, hY]
  generalize hashPrefix (E.ScalarMultiplication E.Base r)
    (E.ScalarMultiplication pkeetnp.M r) (E.ScalarMultiplication pkeetnp.PK r) = pref
  obtain ⟨h0l, h0b⟩ := hashBlock_spec E hq0 hq pref 1
  obtain ⟨h1l, h1b⟩ := hashBlock_spec E hq0 hq pref 2
  obtain ⟨h2l, h2b⟩ := hashBlock_spec E hq0 hq pref 3
  obtain ⟨w0, c0⟩ := unmask _ _ h0b hrb h0l hrl
  obtain ⟨w1, c1⟩ := unmask _ _ h1b hxb h1l hxl
  obtain ⟨w2, c2⟩ := unmask _ _ h2b hyb h2l hyl
  simp only [w0, w1, w2, c0, c1, c2, hrs, hxs, hys, Nat.mod_eq_of_lt hMX,
    Nat.mod_eq_of_lt hMY, Int.natAbs_of_nonneg hr0, and_self, if_true]

/-- C2: decrypting what `Enc` produced, with the secret key `sk` of the public
key `PK = sk·g` it was produced under, returns the plaintext and `true`, for
every plaintext with canonical coordinates and every `r` below the curve
order. -/
theorem C2_enc_dec_roundtrip {G1Affine G2Affine GT : Type} (E : Env G1Affine G2Affine GT)
    {A : Type} [AddCommGroup A] (φ : A → PointAffine) (g : A) (hE : CurveModel E φ g)
    (hq : E.q ≤ 2 ^ 256) (hOrder : E.Order ≤ 2 ^ 256) (sk : Int) (pkeetnp : PKEETNP)
    (r : Int) (hPK : pkeetnp.PK = E.ScalarMultiplication E.Base sk)
    (hMX : pkeetnp.M.X < E.q) (hMY : pkeetnp.M.Y < E.q) (hr0 : 0 ≤ r) (hr : r < E.Order) :
    ∃ pe, pkeetnp.Enc E r = some pe ∧ pe.cp.Dec E sk = some (pkeetnp.M, true) := by
  obtain ⟨pe, hpe, _⟩ := PKEETNP.Enc_spec E pkeetnp r (by omega)
  exact ⟨pe, hpe, Ciphertext.Dec_Enc E hE hq hOrder sk pkeetnp r hPK hMX hMY hr0 hr pe hpe⟩

/-- C2 at the small instance: key `3`, plaintext `(5, 6)`, draw `r = 4`. -/
theorem C2_enc_dec_roundtrip_witness :
    CurveModel smallEnv smallPoint 1 ∧ smallEnv.q ≤ 2 ^ 256 ∧ smallEnv.Order ≤ 2 ^ 256 ∧
      (smallPoint 3 = smallEnv.ScalarMultiplication smallEnv.Base 3) ∧
      (5 < smallEnv.q) ∧ (6 < smallEnv.q) ∧ ((0 : Int) ≤ 4) ∧ ((4 : Int) < smallEnv.Order) ∧
      ∃ pe, PKEETNP.Enc smallEnv
          { PK := smallPoint 3, M := ⟨5, 6⟩, r := 0,
            cp := { U := ⟨0, 0⟩, V := ⟨0, 0⟩, W := (0, 0, 0) } } 4 = some pe ∧
        pe.cp.Dec smallEnv 3 = some (⟨5, 6⟩, true) :=
  ⟨smallEnv_model, by decide, by decide, by decide, by decide, by decide, by decide,
    by decide,
    C2_enc_dec_roundtrip smallEnv smallPoint 1 smallEnv_model (by decide) (by decide) 3
      { PK := smallPoint 3, M := ⟨5, 6⟩, r := 0,
        cp := { U := ⟨0, 0⟩, V := ⟨0, 0⟩, W := (0, 0, 0) } } 4 (by decide) (by decide)
      (by decide) (by decide) (by decide)⟩


/-! ### The consistency proof (C3) and the pipeline (C4) -/

/-- The verifier of the consistency proof rebuilds the byte string of the
prover when the proof fields and responses are those `ProveSigma` computes
for some challenge `c` and the commitment, ciphertext and token fit together. -/
theorem sigmaProof.verifyTranscript_of_consistent {G1Affine G2Affine GT : Type}
    [AddCommGroup G1Affine] [AddCommGroup G2Affine] (E : Env G1Affine G2Affine GT)
    {A : Type} [AddCommGroup A] {φ : A → PointAffine} {g : A} (hE : CurveModel E φ g)
    (m h : A) (k v d rv rAlpha rBeta c : Int) (_M _H : G1Affine) (HR_ : G2Affine) :
    sigmaProof.verifyTranscript E
      { teB := E.ScalarMultiplication (φ (m + k • h)) v,
        teD := E.Add (E.ScalarMultiplication E.Base (d * v))
          (E.ScalarMultiplication (φ h) (-(k * v))),
        bnB := v • (_M + k • _H),
        bnD := (d * v) • E.G1 + (-(k * v)) • _H,
        cint := c, zv := rv + v * c, zAlpha := rAlpha + d * v * c,
        zBeta := rBeta + k * v * c }
      (φ (m + k • h)) (φ (v • m)) (φ h) (_M + k • _H) (v • _M) _H (v • HR_) HR_ =
    E.Marshal (φ (m + k • h)) ++ E.Marshal (φ (v • m)) ++
      E.Marshal (E.ScalarMultiplication (φ (m + k • h)) v) ++
      E.Marshal (E.Add (E.ScalarMultiplication E.Base (d * v))
          (E.ScalarMultiplication (φ h) (-(k * v)))) ++
      E.Marshal (E.Add (φ (v • m)) (E.ScalarMultiplication E.Base (d * v))) ++
      E.Marshal (E.ScalarMultiplication (φ (m + k • h)) rv) ++
      E.Marshal (E.Add (E.ScalarMultiplication E.Base rAlpha)
          (E.ScalarMultiplication (φ h) (-rBeta))) ++
      E.Marshal (E.Add (φ (v • m)) (E.ScalarMultiplication E.Base rAlpha)) ++
      E.MarshalG1 (_M + k • _H) ++ E.MarshalG1 (v • _M) ++
      E.MarshalG1 (v • (_M + k • _H)) ++
      E.MarshalG1 ((d * v) • E.G1 + (-(k * v)) • _H) ++
      E.MarshalG1 (v • _M + (d * v) • E.G1) ++
      E.MarshalG1 (rv • (_M + k • _H)) ++
      E.MarshalG1 (rAlpha • E.G1 + (-rBeta) • _H) ++
      E.MarshalG1 (v • _M + rAlpha • E.G1) ++
      E.MarshalG2 (v • HR_) ++ E.MarshalG2 (rv • HR_) ++
      E.Marshal E.Base ++ E.Marshal (φ h) ++ E.MarshalG1 E.G1 ++ E.MarshalG1 _H ++
      E.MarshalG2 HR_ := by
  simp only [sigmaProof.verifyTranscript, ← hE.base, hE.smul, hE.add, hE.neg]
  repeat (first | with_reducible rfl | apply append_congr)
  all_goals first
    | (refine congrArg E.MarshalG1 ?_; module)
    | (refine congrArg E.MarshalG2 ?_; module)
    | (refine congrArg (fun x => E.Marshal (φ x)) ?_; module)

/-- A consistency proof for a commitment, a ciphertext and a token that fit
together is accepted. -/
theorem sigmaProof.VerifySigma_ProveSigma {G1Affine G2Affine GT : Type}
    [AddCommGroup G1Affine] [AddCommGroup G2Affine] (E : Env G1Affine G2Affine GT)
    {A : Type} [AddCommGroup A] {φ : A → PointAffine} {g : A} (hE : CurveModel E φ g)
    (cont : Content G1Affine)
    (pen : PKEETNP) (et : ETP G1Affine G2Affine) (m h : A) (d rv rAlpha rBeta : Int)
    (hM : cont.M = φ m) (hH : cont.H = φ h)
    (hB : cont.B = E.Add cont.M (E.ScalarMultiplication cont.H cont.k))
    (hB1 : cont._B = cont._M + cont.k • cont._H)
    (hV : pen.cp.V = E.ScalarMultiplication cont.M et.v)
    (hV1 : et._V = et.v • cont._M) (hX : et.X_ = et.v • et.HR_) :
    (sigmaProof.ProveSigma E cont pen et d rv rAlpha rBeta).VerifySigma E cont.B pen.cp.V
      cont.H cont._B et._V cont._H et.X_ et.HR_ = true := by
  have hB' : cont.B = φ (m + cont.k • h) := by rw [hB, hM, hH, hE.smul, hE.add]
  have hV' : pen.cp.V = φ (et.v • m) := by rw [hV, hM, hE.smul]
  have key := sigmaProof.verifyTranscript_of_consistent E hE m h cont.k et.v d rv rAlpha rBeta
    (sigmaProof.ProveSigma E cont pen et d rv rAlpha rBeta).cint cont._M cont._H et.HR_
  rw [← hB', ← hV', ← hH, ← hB1, ← hV1, ← hX] at key
  have hc : ((SetBytes (E.Sum256 ((sigmaProof.ProveSigma E cont pen et d rv rAlpha
      rBeta).verifyTranscript E cont.B pen.cp.V cont.H cont._B et._V cont._H et.X_
      et.HR_)) : Nat) : Int) = (sigmaProof.ProveSigma E cont pen et d rv rAlpha rBeta).cint :=
    congrArg (fun t => ((SetBytes (E.Sum256 t) : Nat) : Int)) key
  simp only [sigmaProof.VerifySigma, hc, if_true]

/-- C3: a consistency proof written by `ProveSigma` for a commitment, a
ciphertext and a token that fit together (`B = M + k·H`, `_B = _M + k·_H`,
`V = v·M`, `_V = v·_M`, `X_ = v·HR_`, with `M` and `H` curve points) is
accepted by `VerifySigma`, for every outcome of the draws `d`, `rv`, `rAlpha`,
`rBeta`. -/
theorem C3_consistency_complete {G1Affine G2Affine GT : Type} [AddCommGroup G1Affine]
    [AddCommGroup G2Affine] (E : Env G1Affine G2Affine GT) {A : Type} [AddCommGroup A]
    (φ : A → PointAffine) (g : A) (hE : CurveModel E φ g) (cont : Content G1Affine)
    (pen : PKEETNP) (et : ETP G1Affine G2Affine) (m h : A) (d rv rAlpha rBeta : Int)
    (hM : cont.M = φ m) (hH : cont.H = φ h)
    (hB : cont.B = E.Add cont.M (E.ScalarMultiplication cont.H cont.k))
    (hB1 : cont._B = cont._M + cont.k • cont._H)
    (hV : pen.cp.V = E.ScalarMultiplication cont.M et.v)
    (hV1 : et._V = et.v • cont._M) (hX : et.X_ = et.v • et.HR_) :
    (sigmaProof.ProveSigma E cont pen et d rv rAlpha rBeta).VerifySigma E cont.B pen.cp.V
      cont.H cont._B et._V cont._H et.X_ et.HR_ = true :=
  sigmaProof.VerifySigma_ProveSigma E hE cont pen et m h d rv rAlpha rBeta hM hH hB hB1 hV
    hV1 hX

/-- C3 at the small instance, for `smallContent`, `smallCipher`, `smallToken`. -/
theorem C3_consistency_complete_witness :
    CurveModel smallEnv smallPoint 1 ∧ smallContent.M = smallPoint 3 ∧
      smallContent.H = smallPoint 2 ∧
      smallContent.B = smallEnv.Add smallContent.M
        (smallEnv.ScalarMultiplication smallContent.H smallContent.k) ∧
      smallContent._B = smallContent._M + smallContent.k • smallContent._H ∧
      smallCipher.cp.V = smallEnv.ScalarMultiplication smallContent.M smallToken.v ∧
      smallToken._V = smallToken.v • smallContent._M ∧
      smallToken.X_ = smallToken.v • smallToken.HR_ ∧
      (sigmaProof.ProveSigma smallEnv smallContent smallCipher smallToken 2 1 5 3).VerifySigma
        smallEnv smallContent.B smallCipher.cp.V smallContent.H smallContent._B smallToken._V
        smallContent._H smallToken.X_ smallToken.HR_ = true :=
  ⟨smallEnv_model, by decide, by decide, by decide, by decide, by decide, by decide,
    by decide,
    C3_consistency_complete smallEnv smallPoint 1 smallEnv_model smallContent smallCipher
      smallToken 3 2 2 1 5 3 (by decide) (by decide) (by decide) (by decide) (by decide)
      (by decide) (by decide)⟩

/-- C4: in the pipeline of `testPkeetVPG`, for every `uid`, `sk` and every
outcome of the draws, the round reaches `Verify`, `Verify` returns true whenever
the SNARK check does, and `PKEETNP.Dec(sk)` returns `(uid·g, true)`. -/
theorem C4_end_to_end {G1Affine G2Affine GT : Type} [AddCommGroup G1Affine]
    [AddCommGroup G2Affine] (E : Env G1Affine G2Affine GT) (Z : Groth16)
    {A : Type} [AddCommGroup A] (φ : A → PointAffine) (g : A) (hE : CurveModel E φ g)
    (hq : E.q ≤ 2 ^ 256) (hOrder : E.Order ≤ 2 ^ 256)
    (sccs : Z.ConstraintSystem) (spk : Z.ProvingKey) (svk : Z.VerifyingKey)
    (uid sk : Int) (dr : Draws) (hr0 : 0 ≤ dr.r) (hr : dr.r < E.Order) :
    ∃ pvpg, testPkeetVPG E Z sccs spk svk uid sk dr = some pvpg ∧
      (pvpg.snp.VerifySnark = true → pvpg.Verify E = true) ∧
      pvpg.cipher.Dec E sk = some (E.ScalarMultiplication E.Base uid, true) := by
  have hrabs : dr.r.natAbs < 2 ^ 256 := by omega
  have hMeq : (GetContent E uid dr.u dr.u1 dr.k dr.ru dr.rk).M
      = E.ScalarMultiplication E.Base uid := rfl
  have hMφ : E.ScalarMultiplication E.Base uid = φ (uid • g) := by rw [← hE.base, hE.smul]
  obtain ⟨pe, hpe, hPK, hM, hr', hU, hV⟩ := PKEETNP.Enc_spec E
    { PK := E.ScalarMultiplication E.Base sk,
      M := (GetContent E uid dr.u dr.u1 dr.k dr.ru dr.rk).M, r := 0,
      cp := { U := ⟨0, 0⟩, V := ⟨0, 0⟩, W := (0, 0, 0) } } dr.r hrabs
  have hdec := Ciphertext.Dec_Enc E hE hq hOrder sk _ dr.r rfl
    (by rw [hMeq, hMφ]; exact (hE.canon _).1) (by rw [hMeq, hMφ]; exact (hE.canon _).2)
    hr0 hr pe hpe
  have hfix : BigIntToFixed32Bytes pe.r = some (ElementBytes dr.r.natAbs) := by
    rw [hr']; exact BigIntToFixed32Bytes_eq dr.r hrabs
  simp only [testPkeetVPG, GetContent_VerifySigma E hE, Bool.not_true, Bool.false_eq_true,
    if_false, hpe, PKEETNP.GetCircuit, hfix]
  refine ⟨_, rfl, ?_, ?_⟩
  · intro hs
    show (snarkProof.VerifySnark _ && sigmaProof.VerifySigma E _ _ _ _ _ _ _ _ _) = true
    refine Bool.and_eq_true_iff.mpr ⟨hs, ?_⟩
    exact sigmaProof.VerifySigma_ProveSigma E hE _ pe _ (uid • g) (dr.u • g) _ _ _ _
      (by rw [hMeq, hMφ]) (by simp only [GetContent, Content.ProveSigma, ← hE.base, hE.smul])
      rfl rfl (by rw [hV, ← hr']) rfl rfl
  · simp only [PKEETNP.Dec, hdec, hM, and_self, if_true, hMeq]

/-- C4 at the small instance, for `uid = 3`, `sk = 5` and `smallDraws`. -/
theorem C4_end_to_end_witness :
    CurveModel smallEnv smallPoint 1 ∧ smallEnv.q ≤ 2 ^ 256 ∧ smallEnv.Order ≤ 2 ^ 256 ∧
      0 ≤ smallDraws.r ∧ smallDraws.r < smallEnv.Order ∧
      ∃ pvpg, testPkeetVPG smallEnv smallGroth16 () () () 3 5 smallDraws = some pvpg ∧
        (pvpg.snp.VerifySnark = true → pvpg.Verify smallEnv = true) ∧
        pvpg.cipher.Dec smallEnv 5
          = some (smallEnv.ScalarMultiplication smallEnv.Base 3, true) :=
  ⟨smallEnv_model, by decide, by decide, by decide, by decide,
    C4_end_to_end smallEnv smallGroth16 smallPoint 1 smallEnv_model (by decide) (by decide)
      () () () 3 5 smallDraws (by decide) (by decide)⟩


/-! ### The equality test (C5, C6, C7) and `Verify` (C8) -/

/-- C5: tokens `(v1·_M, v1·HR_)` and `(v2·_M, v2·HR_)` of the same plaintext
point and round generator pass `ETP.Test` (it returns `nil`) and
`AffinePair.test`, for every `_M`, `HR_`, `v1`, `v2`, by bilinearity. -/
theorem C5_test_accepts_equal {G1Affine G2Affine GT : Type} [AddCommGroup G1Affine]
    [AddCommGroup G2Affine] [AddCommGroup GT] [DecidableEq GT]
    (E : Env G1Affine G2Affine GT) (hP : Bilinear E.Pair) (_M : G1Affine) (HR_ : G2Affine)
    (v1 v2 : Int) :
    ETP.Test E { v := v1, _V := v1 • _M, HR_ := HR_, X_ := v1 • HR_ }
        { v := v2, _V := v2 • _M, HR_ := HR_, X_ := v2 • HR_ } = Except.ok () ∧
      AffinePair.test E { _V := v1 • _M, X_ := v1 • HR_ }
        { _V := v2 • _M, X_ := v2 • HR_ } = true := by
  have h : E.Pair (v1 • _M) (v2 • HR_) = E.Pair (v2 • _M) (v1 • HR_) := by
    rw [hP.smul_left, hP.smul_right, hP.smul_left, hP.smul_right, smul_comm]
  simp only [ETP.Test, AffinePair.test, h, if_true, and_self]

/-- C5 at the small instance: plaintext `3`, round generator `4`, scalars `2` and `5`. -/
theorem C5_test_accepts_equal_witness :
    Bilinear smallEnv.Pair ∧
      (ETP.Test smallEnv
          { v := 2, _V := (2 : Int) • (3 : ZMod 7), HR_ := 4, X_ := (2 : Int) • (4 : ZMod 7) }
          { v := 5, _V := (5 : Int) • (3 : ZMod 7), HR_ := 4, X_ := (5 : Int) • (4 : ZMod 7) }
          = Except.ok () ∧
        AffinePair.test smallEnv
          { _V := (2 : Int) • (3 : ZMod 7), X_ := (2 : Int) • (4 : ZMod 7) }
          { _V := (5 : Int) • (3 : ZMod 7), X_ := (5 : Int) • (4 : ZMod 7) } = true) :=
  ⟨smallEnv_bilinear, C5_test_accepts_equal smallEnv smallEnv_bilinear 3 4 2 5⟩

/-- C6 fails as stated: with the draw `v1 = 0` the tokens of the different
plaintext points `1` and `2` under the round generator `1` pass `ETP.Test`. -/
theorem C6_counterexample :
    (1 : ZMod 7) ≠ 2 ∧
      ETP.Test smallEnv
        { v := 0, _V := (0 : Int) • (1 : ZMod 7), HR_ := 1, X_ := (0 : Int) • (1 : ZMod 7) }
        { v := 3, _V := (3 : Int) • (2 : ZMod 7), HR_ := 1, X_ := (3 : Int) • (1 : ZMod 7) }
        = Except.ok () := by
  refine ⟨by decide, ?_⟩
  have h : smallEnv.Pair ((0 : Int) • (1 : ZMod 7)) ((3 : Int) • (1 : ZMod 7))
      = smallEnv.Pair ((3 : Int) • (2 : ZMod 7)) ((0 : Int) • (1 : ZMod 7)) := by decide
  simp only [ETP.Test, h, if_true]

/-- C6, amended: for `_M1 ≠ _M2`, tokens `(v_i·_Mi, v_i·HR_)` of the same round
generator are told apart by `ETP.Test` (it returns the "not equal" error)
provided multiplication by `v1·v2` is injective on the target group (neither
scalar is a multiple of the group order) and the pairing with `HR_` is
injective (`HR_` is not the identity). -/
theorem C6_test_rejects_different {G1Affine G2Affine GT : Type} [AddCommGroup G1Affine]
    [AddCommGroup G2Affine] [AddCommGroup GT] [DecidableEq GT]
    (E : Env G1Affine G2Affine GT) (hP : Bilinear E.Pair) (_M1 _M2 : G1Affine)
    (HR_ : G2Affine) (v1 v2 : Int) (hne : _M1 ≠ _M2)
    (hv : ∀ s t : GT, (v1 * v2) • s = (v1 * v2) • t → s = t)
    (hHR : ∀ P Q : G1Affine, E.Pair P HR_ = E.Pair Q HR_ → P = Q) :
    ETP.Test E { v := v1, _V := v1 • _M1, HR_ := HR_, X_ := v1 • HR_ }
      { v := v2, _V := v2 • _M2, HR_ := HR_, X_ := v2 • HR_ } = Except.error "not equal" := by
  have h : E.Pair (v1 • _M1) (v2 • HR_) ≠ E.Pair (v2 • _M2) (v1 • HR_) := by
    rw [hP.smul_left, hP.smul_right, hP.smul_left, hP.smul_right, smul_smul, smul_smul,
      mul_comm v2 v1]
    exact fun e => hne (hHR _ _ (hv _ _ e))
  simp only [ETP.Test, h, if_false]

/-- C6, amended, at the small instance: plaintexts `1` and `2`, round generator `4`, scalars `2` and `3`. -/
theorem C6_test_rejects_different_witness :
    Bilinear smallEnv.Pair ∧ (1 : ZMod 7) ≠ 2 ∧
      (∀ s t : ZMod 7, ((2 : Int) * 3) • s = ((2 : Int) * 3) • t → s = t) ∧
      (∀ P Q : ZMod 7, smallEnv.Pair P 4 = smallEnv.Pair Q 4 → P = Q) ∧
      ETP.Test smallEnv
        { v := 2, _V := (2 : Int) • (1 : ZMod 7), HR_ := 4, X_ := (2 : Int) • (4 : ZMod 7) }
        { v := 3, _V := (3 : Int) • (2 : ZMod 7), HR_ := 4, X_ := (3 : Int) • (4 : ZMod 7) }
        = Except.error "not equal" :=
  ⟨smallEnv_bilinear, by decide, by decide, by decide,
    C6_test_rejects_different smallEnv smallEnv_bilinear 1 2 4 2 3 (by decide) (by decide)
      (by decide)⟩

/-- C7: the equality test is symmetric: for all tokens `a` and `b`, whatever
their fields, `a.Test(b)` returns `nil` exactly when `b.Test(a)` does. -/
theorem C7_test_symmetric {G1Affine G2Affine GT : Type} [DecidableEq GT]
    (E : Env G1Affine G2Affine GT) (a b : ETP G1Affine G2Affine) :
    ETP.Test E a b = Except.ok () ↔ ETP.Test E b a = Except.ok () := by
  unfold ETP.Test
  by_cases h : E.Pair a._V b.X_ = E.Pair b._V a.X_
  · simp only [h, if_true]
  · have h' : ¬ E.Pair b._V a.X_ = E.Pair a._V b.X_ := fun e => h e.symm
    simp only [h, h', if_false]

/-- C8: `Verify` returns true exactly when both `VerifySnark` and the
consistency check `VerifySigma` on `(B, V, H, _B, _V, _H, X_, HR_)` return
true; when either is false, `Verify` is false. -/
theorem C8_verify_conjunction {G1Affine G2Affine GT : Type} [AddCommGroup G1Affine]
    [AddCommGroup G2Affine] {Z : Groth16} (E : Env G1Affine G2Affine GT)
    (pvpg : PKEETVPG G1Affine G2Affine Z) :
    (pvpg.Verify E = true ↔
        pvpg.snp.VerifySnark = true ∧
          pvpg.sigp.VerifySigma E pvpg.cont.B pvpg.cipher.cp.V pvpg.cont.H pvpg.cont._B
            pvpg.et._V pvpg.cont._H pvpg.et.X_ pvpg.et.HR_ = true) ∧
      (pvpg.snp.VerifySnark = false ∨
          pvpg.sigp.VerifySigma E pvpg.cont.B pvpg.cipher.cp.V pvpg.cont.H pvpg.cont._B
            pvpg.et._V pvpg.cont._H pvpg.et.X_ pvpg.et.HR_ = false →
        pvpg.Verify E = false) := by
  unfold PKEETVPG.Verify
  constructor
  · exact Bool.and_eq_true_iff
  · rintro (h | h) <;> simp [h]


/-! ### Replacing an argument of the consistency check -/

/-- When the stored challenge is the digest of `t0`, a byte string `t` other
than `t0` is accepted only if the hash collides on `t` and `t0`. -/
theorem false_or_collides {G1Affine G2Affine GT : Type} (E : Env G1Affine G2Affine GT)
    (cint : Int) (t0 t : List Nat)
    (hacc : ((SetBytes (E.Sum256 t0) : Nat) : Int) = cint) (hne : t ≠ t0) :
    ¬ ((SetBytes (E.Sum256 t) : Nat) : Int) = cint ∨ Collides E t t0 := by
  by_cases e : ((SetBytes (E.Sum256 t) : Nat) : Int) = cint
  · exact Or.inr ⟨hne, by exact_mod_cast e.trans hacc.symm⟩
  · exact Or.inl e

/-- The stored challenge of an accepted consistency proof is the digest of the
byte string the verifier rebuilds. -/
theorem sigmaProof.cint_of_accepted {G1Affine G2Affine GT : Type}
    [AddCommGroup G1Affine] [AddCommGroup G2Affine] (E : Env G1Affine G2Affine GT)
    (sigp : sigmaProof G1Affine) (B V H : PointAffine) (_B _V _H : G1Affine)
    (X_ HR_ : G2Affine) (hacc : sigp.VerifySigma E B V H _B _V _H X_ HR_ = true) :
    ((SetBytes (E.Sum256 (sigp.verifyTranscript E B V H _B _V _H X_ HR_)) : Nat) : Int)
      = sigp.cint := by
  by_contra hn
  simp only [sigmaProof.VerifySigma, hn, if_false] at hacc
  exact Bool.false_ne_true hacc

/-- For a consistency proof produced by `ProveSigma` on inputs that fit
together, replacing one of the arguments `B`, `V` (by another curve point),
`_B`, `_V` (by another point of G1) or `X_` (by another point of G2) changes the
byte string that `VerifySigma` hashes; the check then returns false when the
hash does not collide on the changed and the honest byte string. -/
theorem sigmaProof.VerifySigma_replaced {G1Affine G2Affine GT : Type} [AddCommGroup G1Affine]
    [AddCommGroup G2Affine] (E : Env G1Affine G2Affine GT) {A : Type} [AddCommGroup A]
    (φ : A → PointAffine) (g : A) (hE : CurveModel E φ g) (hC : CanonicalMarshal E φ)
    (cont : Content G1Affine) (pen : PKEETNP) (et : ETP G1Affine G2Affine) (m h : A)
    (d rv rAlpha rBeta : Int) (sigp : sigmaProof G1Affine)
    (hsigp : sigp = sigmaProof.ProveSigma E cont pen et d rv rAlpha rBeta)
    (hM : cont.M = φ m) (hH : cont.H = φ h)
    (hB : cont.B = E.Add cont.M (E.ScalarMultiplication cont.H cont.k))
    (hB1 : cont._B = cont._M + cont.k • cont._H)
    (hV : pen.cp.V = E.ScalarMultiplication cont.M et.v)
    (hV1 : et._V = et.v • cont._M) (hX : et.X_ = et.v • et.HR_) :
    (∀ b : A, φ b ≠ cont.B →
        ¬ Collides E
          (sigp.verifyTranscript E (φ b) pen.cp.V cont.H cont._B et._V cont._H et.X_ et.HR_)
          (sigp.verifyTranscript E cont.B pen.cp.V cont.H cont._B et._V cont._H et.X_ et.HR_) →
        sigp.VerifySigma E (φ b) pen.cp.V cont.H cont._B et._V cont._H et.X_ et.HR_ = false) ∧
      (∀ b : A, φ b ≠ pen.cp.V →
        ¬ Collides E
          (sigp.verifyTranscript E cont.B (φ b) cont.H cont._B et._V cont._H et.X_ et.HR_)
          (sigp.verifyTranscript E cont.B pen.cp.V cont.H cont._B et._V cont._H et.X_ et.HR_) →
        sigp.VerifySigma E cont.B (φ b) cont.H cont._B et._V cont._H et.X_ et.HR_ = false) ∧
      (∀ P : G1Affine, P ≠ cont._B →
        ¬ Collides E
          (sigp.verifyTranscript E cont.B pen.cp.V cont.H P et._V cont._H et.X_ et.HR_)
          (sigp.verifyTranscript E cont.B pen.cp.V cont.H cont._B et._V cont._H et.X_ et.HR_) →
        sigp.VerifySigma E cont.B pen.cp.V cont.H P et._V cont._H et.X_ et.HR_ = false) ∧
      (∀ P : G1Affine, P ≠ et._V →
        ¬ Collides E
          (sigp.verifyTranscript E cont.B pen.cp.V cont.H cont._B P cont._H et.X_ et.HR_)
          (sigp.verifyTranscript E cont.B pen.cp.V cont.H cont._B et._V cont._H et.X_ et.HR_) →
        sigp.VerifySigma E cont.B pen.cp.V cont.H cont._B P cont._H et.X_ et.HR_ = false) ∧
      (∀ Q : G2Affine, Q ≠ et.X_ →
        ¬ Collides E
          (sigp.verifyTranscript E cont.B pen.cp.V cont.H cont._B et._V cont._H Q et.HR_)
          (sigp.verifyTranscript E cont.B pen.cp.V cont.H cont._B et._V cont._H et.X_
            et.HR_) →
        sigp.VerifySigma E cont.B pen.cp.V cont.H cont._B et._V cont._H Q et.HR_ = false) := by
  have hB' : cont.B = φ (m + cont.k • h) := by rw [hB, hM, hH, hE.smul, hE.add]
  have hV' : pen.cp.V = φ (et.v • m) := by rw [hV, hM, hE.smul]
  have hacc := sigmaProof.VerifySigma_ProveSigma E hE cont pen et m h d rv rAlpha rBeta
    hM hH hB hB1 hV hV1 hX
  rw [← hsigp] at hacc
  have hacc' := sigmaProof.cint_of_accepted E sigp _ _ _ _ _ _ _ _ hacc
  have key : ∀ t, t ≠ sigp.verifyTranscript E cont.B pen.cp.V cont.H cont._B et._V cont._H
      et.X_ et.HR_ →
      ¬ Collides E t (sigp.verifyTranscript E cont.B pen.cp.V cont.H cont._B et._V cont._H
          et.X_ et.HR_) →
      (if ((SetBytes (E.Sum256 t) : Nat) : Int) = sigp.cint then true else false)
        = false := by
    intro t hne
    intro hnc
    rcases false_or_collides E sigp.cint _ t hacc' hne with hn | hc
    · exact if_neg hn
    · exact absurd hc hnc
  refine ⟨?_, ?_, ?_, ?_, ?_⟩
  · intro b hb
    refine key _ fun e => hb ?_
    simp only [sigmaProof.verifyTranscript, List.append_assoc] at e
    rw [hB'] at e ⊢
    rw [hC.te_inj _ _ (List.append_inj_left e (hC.te_len _ _))]
  · intro b hb
    refine key _ fun e => hb ?_
    simp only [sigmaProof.verifyTranscript, List.append_assoc] at e
    replace e := List.append_cancel_left e
    rw [hV'] at e ⊢
    rw [hC.te_inj _ _ (List.append_inj_left e (hC.te_len _ _))]
  · intro P hP
    refine key _ fun e => hP ?_
    simp only [sigmaProof.verifyTranscript, List.append_assoc] at e
    iterate 8 replace e := List.append_cancel_left e
    exact hC.g1_inj _ _ (List.append_inj_left e (hC.g1_len _ _))
  · intro P hP
    refine key _ fun e => hP ?_
    simp only [sigmaProof.verifyTranscript, List.append_assoc] at e
    iterate 9 replace e := List.append_cancel_left e
    exact hC.g1_inj _ _ (List.append_inj_left e (hC.g1_len _ _))
  · intro Q hQ
    refine key _ fun e => hQ ?_
    simp only [sigmaProof.verifyTranscript, List.append_assoc] at e
    iterate 16 replace e := List.append_cancel_left e
    exact hC.g2_inj _ _ (List.append_inj_left e (hC.g2_len _ _))


/-! ### Sensitivity of the commitment proof (C10) -/

/-- The stored challenge of an accepted commitment proof is the digest of the
byte string the verifier rebuilds. -/
theorem Content.cint_of_verified {G1Affine G2Affine GT : Type} [AddCommGroup G1Affine]
    (E : Env G1Affine G2Affine GT) (c0 : Content G1Affine)
    (hacc : c0.VerifySigma E = true) :
    ((SetBytes (E.Sum256 (c0.verifyTranscript E)) : Nat) : Int) = c0.cint := by
  by_contra hn
  have hn' : ¬ c0.cint = ((SetBytes (E.Sum256 (c0.verifyTranscript E)) : Nat) : Int) :=
    fun e => hn e.symm
  simp only [Content.VerifySigma, hn', if_false] at hacc
  exact Bool.false_ne_true hacc

/-- Against an accepted commitment proof with the same stored challenge, a
content is accepted exactly when it rebuilds the same byte string or the hash
collides on the two byte strings. -/
theorem Content.VerifySigma_eq_true_iff {G1Affine G2Affine GT : Type}
    [AddCommGroup G1Affine] (E : Env G1Affine G2Affine GT) (c0 c1 : Content G1Affine)
    (hacc : c0.VerifySigma E = true) (hcint : c1.cint = c0.cint) :
    c1.VerifySigma E = true ↔
      c1.verifyTranscript E = c0.verifyTranscript E ∨
        Collides E (c1.verifyTranscript E) (c0.verifyTranscript E) := by
  have hacc' := Content.cint_of_verified E c0 hacc
  constructor
  · intro ht
    have h1 := Content.cint_of_verified E c1 ht
    by_cases e : c1.verifyTranscript E = c0.verifyTranscript E
    · exact Or.inl e
    · refine Or.inr ⟨e, ?_⟩
      exact_mod_cast h1.trans (hcint.trans hacc'.symm)
  · rintro (e | ⟨_, e⟩)
    · simp only [Content.VerifySigma, hcint, e, hacc', if_true]
    · simp only [Content.VerifySigma, hcint, e, hacc', if_true]

/-- A content that changes the byte string of an accepted one, with the same
stored challenge, is rejected unless the hash collides. -/
theorem Content.VerifySigma_false_or_collides {G1Affine G2Affine GT : Type}
    [AddCommGroup G1Affine] (E : Env G1Affine G2Affine GT) (c0 c1 : Content G1Affine)
    (hacc : c0.VerifySigma E = true) (hcint : c1.cint = c0.cint)
    (hne : c1.verifyTranscript E ≠ c0.verifyTranscript E) :
    c1.VerifySigma E = false ∨
      Collides E (c1.verifyTranscript E) (c0.verifyTranscript E) := by
  by_cases ht : c1.VerifySigma E = true
  · rcases (Content.VerifySigma_eq_true_iff E c0 c1 hacc hcint).mp ht with e | hc
    · exact absurd e hne
    · exact Or.inr hc
  · exact Or.inl (by simpa using ht)

set_option maxRecDepth 100000 in
/-- C10 fails as stated: in the small instance the fresh content for
`uid = 3` still passes `VerifySigma` after its field `k`, `M` or `_M` is changed,
and after `zu` or `zk` is changed by the group order 7. -/
theorem C10_counterexample :
    smallContent.VerifySigma smallEnv = true ∧
      ({ smallContent with k := smallContent.k + 1 }).k ≠ smallContent.k ∧
      ({ smallContent with k := smallContent.k + 1 }).VerifySigma smallEnv = true ∧
      ({ smallContent with M := smallPoint 0 }).M ≠ smallContent.M ∧
      ({ smallContent with M := smallPoint 0 }).VerifySigma smallEnv = true ∧
      ({ smallContent with _M := 0 })._M ≠ smallContent._M ∧
      ({ smallContent with _M := 0 }).VerifySigma smallEnv = true ∧
      ({ smallContent with zu := smallContent.zu + 7 }).zu ≠ smallContent.zu ∧
      ({ smallContent with zu := smallContent.zu + 7 }).VerifySigma smallEnv = true ∧
      ({ smallContent with zk := smallContent.zk + 7 }).zk ≠ smallContent.zk ∧
      ({ smallContent with zk := smallContent.zk + 7 }).VerifySigma smallEnv = true :=
  ⟨by decide, by decide, by decide, by decide, by decide, by decide, by decide, by decide,
    by decide, by decide, by decide⟩

/-- C10, amended: for a content `c0` freshly produced by `GetContent`,
`VerifySigma` does not read `k`, `M`, `_M`, so changing them leaves the result
true; changing `H` or `B` to another curve point, or `_H` or `_B` to another
point of G1, makes it return false unless the hash gives the changed byte
string the digest of the original one; after a change of `zu` (or `zk`) it
returns true exactly when the change moves neither `zu·g` nor `zu·G1` (neither
`zk·H` nor `zk·_H`) or the hash collides in that way; changing `cint` by a value
that moves neither `cint·B` nor `cint·_B` makes it return false.  The `Marshal`
encodings are taken canonical; nothing is stated for the other changes of
`cint`. -/
theorem C10_commitment_sensitivity {G1Affine G2Affine GT : Type} [AddCommGroup G1Affine]
    (E : Env G1Affine G2Affine GT) {A : Type} [AddCommGroup A] (φ : A → PointAffine)
    (g : A) (hE : CurveModel E φ g) (hC : CanonicalMarshal E φ) (uid u u1 k ru rk : Int)
    (c0 : Content G1Affine) (hc0 : c0 = GetContent E uid u u1 k ru rk) :
    (∀ (k1 : Int) (M1 : PointAffine) (_M1 : G1Affine),
        ({ c0 with k := k1, M := M1, _M := _M1 }).VerifySigma E = true) ∧
      (∀ b : A, φ b ≠ c0.B →
        ({ c0 with B := φ b }).VerifySigma E = false ∨
        Collides E (({ c0 with B := φ b }).verifyTranscript E) (c0.verifyTranscript E)) ∧
      (∀ b : A, φ b ≠ c0.H →
        ({ c0 with H := φ b }).VerifySigma E = false ∨
        Collides E (({ c0 with H := φ b }).verifyTranscript E) (c0.verifyTranscript E)) ∧
      (∀ P : G1Affine, P ≠ c0._B →
        ({ c0 with _B := P }).VerifySigma E = false ∨
        Collides E (({ c0 with _B := P }).verifyTranscript E) (c0.verifyTranscript E)) ∧
      (∀ P : G1Affine, P ≠ c0._H →
        ({ c0 with _H := P }).VerifySigma E = false ∨
        Collides E (({ c0 with _H := P }).verifyTranscript E) (c0.verifyTranscript E)) ∧
      (∀ z : Int, ({ c0 with zu := z }).VerifySigma E = true ↔
        ((z - c0.zu) • g = 0 ∧ (z - c0.zu) • E.G1 = 0) ∨
        Collides E (({ c0 with zu := z }).verifyTranscript E) (c0.verifyTranscript E)) ∧
      (∀ z : Int, ({ c0 with zk := z }).VerifySigma E = true ↔
        ((z - c0.zk) • (u • g) = 0 ∧ (z - c0.zk) • c0._H = 0) ∨
        Collides E (({ c0 with zk := z }).verifyTranscript E) (c0.verifyTranscript E)) ∧
      (∀ c : Int, c ≠ c0.cint → (c - c0.cint) • (uid • g + k • u • g) = 0 →
        (c - c0.cint) • c0._B = 0 → ({ c0 with cint := c }).VerifySigma E = false) := by
  have hacc : c0.VerifySigma E = true := by
    rw [hc0]; exact GetContent_VerifySigma E hE uid u u1 k ru rk
  obtain ⟨hH, hB, hH1⟩ := GetContent_fields E hE uid u u1 k ru rk
  rw [← hc0] at hH hB hH1
  refine ⟨?_, ?_, ?_, ?_, ?_, ?_, ?_, ?_⟩
  · intro k1 M1 _M1
    exact hacc
  · intro b hb
    refine Content.VerifySigma_false_or_collides E c0 { c0 with B := φ b } hacc rfl ?_
    intro e
    simp only [Content.verifyTranscript, List.append_assoc] at e
    rw [hB] at e hb
    exact hb (by rw [hC.te_inj _ _ (List.append_inj_left e (hC.te_len _ _))])
  · intro b hb
    refine Content.VerifySigma_false_or_collides E c0 { c0 with H := φ b } hacc rfl ?_
    intro e
    simp only [Content.verifyTranscript, List.append_assoc] at e
    replace e := List.append_cancel_left e
    rw [hB, hH] at e
    simp only [← hE.base, hE.smul, hE.add, hE.neg] at e
    replace e := (List.append_inj e (hC.te_len _ _)).2
    iterate 3 replace e := List.append_cancel_left e
    rw [hH] at hb
    exact hb (by rw [hC.te_inj _ _ (List.append_inj_left e (hC.te_len _ _))])
  · intro P hP
    refine Content.VerifySigma_false_or_collides E c0 { c0 with _B := P } hacc rfl ?_
    intro e
    simp only [Content.verifyTranscript, List.append_assoc] at e
    iterate 2 replace e := List.append_cancel_left e
    exact hP (hC.g1_inj _ _ (List.append_inj_left e (hC.g1_len _ _)))
  · intro P hP
    refine Content.VerifySigma_false_or_collides E c0 { c0 with _H := P } hacc rfl ?_
    intro e
    simp only [Content.verifyTranscript, List.append_assoc] at e
    iterate 3 replace e := List.append_cancel_left e
    replace e := (List.append_inj e (hC.g1_len _ _)).2
    iterate 3 replace e := List.append_cancel_left e
    exact hP (hC.g1_inj _ _ e)
  · intro z
    rw [Content.VerifySigma_eq_true_iff E c0 { c0 with zu := z } hacc rfl]
    refine or_congr_left ?_
    simp only [Content.verifyTranscript, List.append_assoc]
    rw [hB, hH]
    simp only [← hE.base, hE.smul, hE.add, hE.neg]
    constructor
    · intro e
      replace e := List.append_cancel_left e
      obtain ⟨e1, e⟩ := List.append_inj e (hC.te_len _ _)
      replace e := List.append_cancel_left e
      have e2 := List.append_inj_left e (hC.g1_len _ _)
      have a1 := hC.te_inj _ _ e1
      have a2 := hC.g1_inj _ _ e2
      constructor
      · rw [sub_smul, sub_eq_zero]
        simpa using a1
      · rw [sub_smul, sub_eq_zero]
        simpa using a2
    · rintro ⟨a1, a2⟩
      rw [sub_smul, sub_eq_zero] at a1 a2
      rw [a1, a2]
  · intro z
    rw [Content.VerifySigma_eq_true_iff E c0 { c0 with zk := z } hacc rfl]
    refine or_congr_left ?_
    simp only [Content.verifyTranscript, List.append_assoc]
    rw [hB, hH]
    simp only [← hE.base, hE.smul, hE.add, hE.neg]
    constructor
    · intro e
      replace e := List.append_cancel_left e
      obtain ⟨e1, e⟩ := List.append_inj e (hC.te_len _ _)
      replace e := List.append_cancel_left e
      have e2 := List.append_inj_left e (hC.g1_len _ _)
      have a1 := hC.te_inj _ _ e1
      have a2 := hC.g1_inj _ _ e2
      constructor
      · rw [sub_smul, sub_eq_zero]
        simpa using a1
      · rw [sub_smul, sub_eq_zero]
        simpa using a2
    · rintro ⟨a1, a2⟩
      rw [sub_smul, sub_eq_zero] at a1 a2
      rw [a1, a2]
  · intro c hc a1 a2
    rw [sub_smul, sub_eq_zero] at a1 a2
    have ht : ({ c0 with cint := c }).verifyTranscript E = c0.verifyTranscript E := by
      simp only [Content.verifyTranscript]
      rw [hB]
      simp only [← hE.base, hE.smul, hE.add, hE.neg]
      rw [a1, a2]
    have hacc' := Content.cint_of_verified E c0 hacc
    simp only [Content.VerifySigma, ht, hacc', hc, if_false]

/-- C10, amended, at the small instance, for `uid = 3`. -/
theorem C10_commitment_sensitivity_witness :
    CurveModel smallEnv smallPoint 1 ∧ CanonicalMarshal smallEnv smallPoint ∧
      smallContent = GetContent smallEnv 3 2 4 5 1 6 ∧
      ∀ (k1 : Int) (M1 : PointAffine) (_M1 : ZMod 7),
        ({ smallContent with k := k1, M := M1, _M := _M1 }).VerifySigma smallEnv = true :=
  ⟨smallEnv_model, smallEnv_canonical, rfl,
    (C10_commitment_sensitivity smallEnv smallPoint 1 smallEnv_model smallEnv_canonical
      3 2 4 5 1 6 smallContent rfl).1⟩


/-! ### Exclusive or on bytes and on bits -/

/-- The exclusive or acts on the high part and on the low byte separately. -/
theorem xor_snoc (a b x y : Nat) (hx : x < 256) (hy : y < 256) :
    (a * 256 + x) ^^^ (b * 256 + y) = (a ^^^ b) * 256 + (x ^^^ y) := by
  have hxy : x ^^^ y < 2 ^ 8 := Nat.xor_lt_two_pow (n := 8) hx hy
  apply Nat.eq_of_testBit_eq
  intro i
  have e1 : a * 256 + x = 2 ^ 8 * a + x := by ring
  have e2 : b * 256 + y = 2 ^ 8 * b + y := by ring
  have e3 : (a ^^^ b) * 256 + (x ^^^ y) = 2 ^ 8 * (a ^^^ b) + (x ^^^ y) := by ring
  rw [e1, e2, e3, Nat.testBit_xor, Nat.testBit_mul_pow_two_add _ hx,
    Nat.testBit_mul_pow_two_add _ hy, Nat.testBit_mul_pow_two_add _ hxy]
  split <;> simp [Nat.testBit_xor]

/-- The value of a bytewise exclusive or is the exclusive or of the values. -/
theorem SetBytes_xorBytes (a b : List Nat) (ha : IsBytes a) (hb : IsBytes b)
    (hlen : a.length = b.length) :
    SetBytes (xorBytes a b) = SetBytes a ^^^ SetBytes b := by
  induction a using List.reverseRecOn generalizing b with
  | nil =>
    cases b with
    | nil => rfl
    | cons y b => simp at hlen
  | append_singleton a x ih =>
    rcases List.eq_nil_or_concat b with hb0 | ⟨b', y, rfl⟩
    · subst hb0; simp at hlen
    · simp only [List.concat_eq_append] at hb hlen ⊢
      have hx : x < 256 := ha x (by simp)
      have hy : y < 256 := hb y (by simp)
      have ha' : IsBytes a := fun z hz => ha z (by simp [hz])
      have hb' : IsBytes b' := fun z hz => hb z (by simp [hz])
      have hl : a.length = b'.length := by simpa using hlen
      have hz : xorBytes (a ++ [x]) (b' ++ [y]) = xorBytes a b' ++ [x ^^^ y] := by
        simp [xorBytes, List.zipWith_append, hl]
      rw [hz, SetBytes_snoc, SetBytes_snoc, SetBytes_snoc, ih b' ha' hb' hl,
        xor_snoc _ _ _ _ hx hy]

/-- The bitwise exclusive or of two decompositions recomposes to the exclusive
or of the two numbers, cut to the number of bits. -/
theorem bits_xor (n x y : Nat) :
    (List.zipWith api.Xor (api.ToBinary x n) (api.ToBinary y n)).foldr
      (fun b acc => b + 2 * acc) 0 = (x ^^^ y) % 2 ^ n := by
  induction n generalizing x y with
  | zero => simp [api.ToBinary, Nat.mod_one]
  | succ n ih =>
    have hb : api.Xor (x % 2) (y % 2) = (x ^^^ y) % 2 := by
      rw [Nat.xor_mod_two_eq]
      unfold api.Xor
      rcases Nat.mod_two_eq_zero_or_one x with h | h <;>
        rcases Nat.mod_two_eq_zero_or_one y with h1 | h1 <;> simp [h, h1, Nat.add_mod]
    simp only [api.ToBinary, List.zipWith_cons_cons, List.foldr_cons, ih, hb]
    rw [pow_succ', Nat.mod_mul, Nat.xor_div_two]

/-- The bytes of a number do not start with a zero byte. -/
theorem bytesFuel_head (fuel n : Nat) (h : n < 256 ^ fuel) :
    (bytesFuel fuel n).head? ≠ some 0 := by
  induction fuel generalizing n with
  | zero => simp [bytesFuel]
  | succ fuel ih =>
    unfold bytesFuel
    split
    · simp
    · rename_i hn
      have hlt : n / 256 < 256 ^ fuel := by rw [pow_succ] at h; omega
      have := ih (n / 256) hlt
      cases hl : bytesFuel fuel (n / 256) with
      | nil =>
        have hv := SetBytes_bytesFuel fuel (n / 256) hlt
        rw [hl, SetBytes_nil] at hv
        simp; omega
      | cons z l =>
        rw [hl] at this
        simpa using this

theorem BigBytes_head (n : Int) : (BigBytes n).head? ≠ some 0 :=
  bytesFuel_head _ _ (Nat.lt_pow_self (by norm_num) _)

/-- The value of the exclusive or of two 32-byte encodings. -/
theorem SetBytes_xor_ElementBytes (a b : Nat) (ha : a < 2 ^ 256) (hb : b < 2 ^ 256) :
    SetBytes (xorBytes (ElementBytes a) (ElementBytes b)) = a ^^^ b ∧ a ^^^ b < 2 ^ 256 := by
  obtain ⟨al, ab, as⟩ := ElementBytes_spec a ha
  obtain ⟨bl, bb, bs⟩ := ElementBytes_spec b hb
  rw [SetBytes_xorBytes _ _ ab bb (by rw [al, bl]), as, bs]
  exact ⟨rfl, Nat.xor_lt_two_pow ha hb⟩

/-- The in-circuit recombination of the exclusive or of two 256-bit values. -/
theorem FromBinary_xor (q a b : Nat) (ha : a < 2 ^ 256) (hb : b < 2 ^ 256) :
    api.FromBinary q (List.zipWith api.Xor (api.ToBinary a 256) (api.ToBinary b 256))
      = (a ^^^ b) % q := by
  unfold api.FromBinary
  rw [bits_xor, Nat.mod_eq_of_lt (Nat.xor_lt_two_pow ha hb)]

/-- The field element a variable holds when a natural number is assigned. -/
theorem toNat_emod (n q : Nat) : (((n : Nat) : Int) % ((q : Nat) : Int)).toNat = n % q := by
  rw [← Int.natCast_mod, Int.toNat_natCast]

/-- A point is its two coordinates. -/
theorem point_eta (p : PointAffine) : ({ X := p.X, Y := p.Y } : PointAffine) = p := rfl

/-! ### The fixed-width encoding (C16) -/

/-- The fixed-width encoding of a number below `2^256`. -/
theorem BigIntToFixed32Bytes_spec (n : Int) (h0 : 0 ≤ n) (h : n < 2 ^ 256) :
    ∃ b, BigIntToFixed32Bytes n = some b ∧ b.length = 32 ∧ IsBytes b ∧
      b = List.replicate (32 - (BigBytes n).length) 0 ++ BigBytes n ∧
      IsBytes (BigBytes n) ∧ (BigBytes n).head? ≠ some 0 ∧
      ((SetBytes (BigBytes n) : Nat) : Int) = n ∧ ((SetBytes b : Nat) : Int) = n := by
  have habs : n.natAbs < 2 ^ 256 := by omega
  have hl : (BigBytes n).length ≤ 32 := BigBytes_length_le n 32 (by norm_num; exact habs)
  obtain ⟨p1, p2, p3⟩ := pad_spec (BigBytes n) (BigBytes_isBytes n) hl
  have hv : ((SetBytes (BigBytes n) : Nat) : Int) = n := by
    rw [SetBytes_BigBytes]; exact Int.natAbs_of_nonneg h0
  refine ⟨_, ?_, p1, p2, rfl, BigBytes_isBytes n, BigBytes_head n, hv, ?_⟩
  · simp only [BigIntToFixed32Bytes, hl, if_true]
  · rw [p3]; exact hv

/-- C16: for every integer `n` with `0 ≤ n < 2^256`, `BigIntToFixed32Bytes`
returns (does not panic) exactly 32 bytes, which are zero bytes followed by
the minimal big-endian bytes of `n` (bytes of value `n` that do not start with
a zero byte), and decoding the 32 bytes as a big-endian integer returns `n`. -/
theorem C16_fixed_width_encoding (n : Int) (h0 : 0 ≤ n) (h : n < 2 ^ 256) :
    ∃ b, BigIntToFixed32Bytes n = some b ∧ b.length = 32 ∧ IsBytes b ∧
      b = List.replicate (32 - (BigBytes n).length) 0 ++ BigBytes n ∧
      IsBytes (BigBytes n) ∧ (BigBytes n).head? ≠ some 0 ∧
      ((SetBytes (BigBytes n) : Nat) : Int) = n ∧ ((SetBytes b : Nat) : Int) = n :=
  BigIntToFixed32Bytes_spec n h0 h

/-- C16 at `n = 258`: thirty zero bytes followed by `1, 2`. -/
theorem C16_fixed_width_encoding_witness :
    (0 : Int) ≤ 258 ∧ (258 : Int) < 2 ^ 256 ∧
      ∃ b, BigIntToFixed32Bytes 258 = some b ∧ b.length = 32 ∧ IsBytes b ∧
        b = List.replicate (32 - (BigBytes 258).length) 0 ++ BigBytes 258 ∧
        IsBytes (BigBytes 258) ∧ (BigBytes 258).head? ≠ some 0 ∧
        ((SetBytes (BigBytes 258) : Nat) : Int) = 258 ∧ ((SetBytes b : Nat) : Int) = 258 :=
  ⟨by decide, by norm_num, C16_fixed_width_encoding 258 (by decide) (by norm_num)⟩

/-! ### The masks of `Enc` and `Dec` (C17) -/

/-- A hash block of the source is the 32-byte encoding of the mask of the
specification: the hashed byte string is the flat concatenation. -/
theorem hashBlock_eq_mask {G1Affine G2Affine GT : Type} (E : Env G1Affine G2Affine GT)
    (U V Y : PointAffine) (i : Int) :
    hashBlock E (hashPrefix U V Y) i = ElementBytes (maskValue E U V Y i) := by
  simp only [hashBlock, hashPrefix, MiMCSum, maskValue, maskInput, List.flatMap_cons,
    List.flatMap_nil, List.append_nil, List.append_assoc]

/-- The mask is a field element, so its encoding has 32 bytes. -/
theorem maskValue_spec {G1Affine G2Affine GT : Type} (E : Env G1Affine G2Affine GT)
    (hq0 : 0 < E.q) (hq : E.q ≤ 2 ^ 256) (U V Y : PointAffine) (i : Int) :
    maskValue E U V Y i < E.q ∧ (ElementBytes (maskValue E U V Y i)).length = 32 ∧
      IsBytes (ElementBytes (maskValue E U V Y i)) ∧
      SetBytes (ElementBytes (maskValue E U V Y i)) = maskValue E U V Y i := by
  have hlt : maskValue E U V Y i < E.q := Nat.mod_lt _ hq0
  exact ⟨hlt, ElementBytes_spec _ (lt_of_lt_of_le hlt hq)⟩

/-- What `Enc` stores in `W`, for a draw `r` below `2^256`. -/
theorem PKEETNP.Enc_W {G1Affine G2Affine GT : Type} (E : Env G1Affine G2Affine GT)
    (pkeetnp : PKEETNP) (r : Int) (hr : r.natAbs < 2 ^ 256) :
    ∃ pe, pkeetnp.Enc E r = some pe ∧ pe.PK = pkeetnp.PK ∧ pe.M = pkeetnp.M ∧ pe.r = r ∧
      pe.cp.U = E.ScalarMultiplication E.Base r ∧
      pe.cp.V = E.ScalarMultiplication pkeetnp.M r ∧
      pe.cp.W.1 = SetBytes (xorBytes
        (ElementBytes (maskValue E pe.cp.U pe.cp.V (E.ScalarMultiplication pkeetnp.PK r) 1))
        (ElementBytes r.natAbs)) ∧
      pe.cp.W.2.1 = SetBytes (xorBytes
        (ElementBytes (maskValue E pe.cp.U pe.cp.V (E.ScalarMultiplication pkeetnp.PK r) 2))
        (ElementBytes pkeetnp.M.X)) ∧
      pe.cp.W.2.2 = SetBytes (xorBytes
        (ElementBytes (maskValue E pe.cp.U pe.cp.V (E.ScalarMultiplication pkeetnp.PK r) 3))
        (ElementBytes pkeetnp.M.Y)) := by
  have hfix : BigIntToFixed32Bytes r = some (ElementBytes r.natAbs) :=
    BigIntToFixed32Bytes_eq r hr
  simp only [PKEETNP.Enc, hfix, hashBlock_eq_mask]
  exact ⟨_, rfl, rfl, rfl, rfl, rfl, rfl, rfl, rfl, rfl⟩

/-- C17: for a draw `r` with `0 ≤ r < Order`, `Enc` returns a record whose
stored `r` is the draw, so `0 ≤ r < Order`, with `cp.U = r·g`, `cp.V = r·M`, and
for `i = 0, 1, 2` the integer `cp.W[i]` is the big-endian value of the bytewise
exclusive or of the 32 bytes of the mask
`MiMC(U.X ‖ U.Y ‖ V.X ‖ V.Y ‖ Y.X ‖ Y.Y ‖ ((i+1)·g).X ‖ ((i+1)·g).Y)`, where
`Y = r·PK`, with the 32-byte encoding of `r`, `M.X`, `M.Y` respectively; the
encoding of `r` is the one `BigIntToFixed32Bytes` returns. -/
theorem C17_enc_postcondition {G1Affine G2Affine GT : Type} (E : Env G1Affine G2Affine GT)
    (hOrder : E.Order ≤ 2 ^ 256) (pkeetnp : PKEETNP) (r : Int) (hr0 : 0 ≤ r)
    (hr : r < E.Order) :
    ∃ pe, pkeetnp.Enc E r = some pe ∧ pe.PK = pkeetnp.PK ∧ pe.M = pkeetnp.M ∧
      0 ≤ pe.r ∧ pe.r < E.Order ∧
      pe.cp.U = E.ScalarMultiplication E.Base pe.r ∧
      pe.cp.V = E.ScalarMultiplication pe.M pe.r ∧
      BigIntToFixed32Bytes pe.r = some (ElementBytes pe.r.natAbs) ∧
      pe.cp.W.1 = SetBytes (xorBytes
        (ElementBytes (maskValue E pe.cp.U pe.cp.V (E.ScalarMultiplication pe.PK pe.r) 1))
        (ElementBytes pe.r.natAbs)) ∧
      pe.cp.W.2.1 = SetBytes (xorBytes
        (ElementBytes (maskValue E pe.cp.U pe.cp.V (E.ScalarMultiplication pe.PK pe.r) 2))
        (ElementBytes pe.M.X)) ∧
      pe.cp.W.2.2 = SetBytes (xorBytes
        (ElementBytes (maskValue E pe.cp.U pe.cp.V (E.ScalarMultiplication pe.PK pe.r) 3))
        (ElementBytes pe.M.Y)) := by
  have hrabs : r.natAbs < 2 ^ 256 := by omega
  obtain ⟨pe, h1, h2, h3, h4, h5, h6, h7, h8, h9⟩ := PKEETNP.Enc_W E pkeetnp r hrabs
  refine ⟨pe, h1, h2, h3, ?_, ?_, ?_, ?_, ?_, ?_, ?_, ?_⟩
  · rw [h4]; exact hr0
  · rw [h4]; exact hr
  · rw [h4]; exact h5
  · rw [h4, h3]; exact h6
  · rw [h4]; exact BigIntToFixed32Bytes_eq r hrabs
  · rw [h4, h2]; exact h7
  · rw [h4, h2, h3]; exact h8
  · rw [h4, h2, h3]; exact h9

/-- C17 at the small instance: key `3·g`, plaintext `3·g`, draw `r = 4`. -/
theorem C17_enc_postcondition_witness :
    smallEnv.Order ≤ 2 ^ 256 ∧ (0 : Int) ≤ 4 ∧ (4 : Int) < smallEnv.Order ∧
    ∃ pe, smallPlain.Enc smallEnv 4 = some pe ∧ pe.PK = smallPlain.PK ∧ pe.M = smallPlain.M ∧
      0 ≤ pe.r ∧ pe.r < smallEnv.Order ∧
      pe.cp.U = smallEnv.ScalarMultiplication smallEnv.Base pe.r ∧
      pe.cp.V = smallEnv.ScalarMultiplication pe.M pe.r ∧
      BigIntToFixed32Bytes pe.r = some (ElementBytes pe.r.natAbs) ∧
      pe.cp.W.1 = SetBytes (xorBytes
        (ElementBytes (maskValue smallEnv pe.cp.U pe.cp.V
          (smallEnv.ScalarMultiplication pe.PK pe.r) 1))
        (ElementBytes pe.r.natAbs)) ∧
      pe.cp.W.2.1 = SetBytes (xorBytes
        (ElementBytes (maskValue smallEnv pe.cp.U pe.cp.V
          (smallEnv.ScalarMultiplication pe.PK pe.r) 2))
        (ElementBytes pe.M.X)) ∧
      pe.cp.W.2.2 = SetBytes (xorBytes
        (ElementBytes (maskValue smallEnv pe.cp.U pe.cp.V
          (smallEnv.ScalarMultiplication pe.PK pe.r) 3))
        (ElementBytes pe.M.Y)) :=
  ⟨by decide, by decide, by decide,
    C17_enc_postcondition smallEnv (by decide) smallPlain 4 (by decide) (by decide)⟩

/-- `Dec` in terms of the candidates of the specification. -/
theorem Ciphertext.Dec_eq_candidates {G1Affine G2Affine GT : Type}
    (E : Env G1Affine G2Affine GT) (hq0 : 0 < E.q) (hq : E.q ≤ 2 ^ 256) (cp : Ciphertext)
    (sk : Int) (hW : cp.W.1.natAbs < 2 ^ 256) (hW1 : cp.W.2.1.natAbs < 2 ^ 256)
    (hW2 : cp.W.2.2.natAbs < 2 ^ 256) :
    cp.Dec E sk =
      if cp.U = E.ScalarMultiplication E.Base ((cp.candidates E sk).1 : Int) ∧
          cp.V = E.ScalarMultiplication (cp.candidates E sk).2 ((cp.candidates E sk).1 : Int)
      then some ((cp.candidates E sk).2, true) else some ({ X := 0, Y := 0 }, false) := by
  obtain ⟨_, m0l, m0b, m0s⟩ := maskValue_spec E hq0 hq cp.U cp.V (E.ScalarMultiplication cp.U sk) 1
  obtain ⟨_, m1l, m1b, m1s⟩ := maskValue_spec E hq0 hq cp.U cp.V (E.ScalarMultiplication cp.U sk) 2
  obtain ⟨_, m2l, m2b, m2s⟩ := maskValue_spec E hq0 hq cp.U cp.V (E.ScalarMultiplication cp.U sk) 3
  obtain ⟨w0l, w0b, w0s⟩ := ElementBytes_spec _ hW
  obtain ⟨w1l, w1b, w1s⟩ := ElementBytes_spec _ hW1
  obtain ⟨w2l, w2b, w2s⟩ := ElementBytes_spec _ hW2
  simp only [Ciphertext.Dec, Ciphertext.candidates, hashBlock_eq_mask,
    BigIntToFixed32Bytes_eq _ hW, BigIntToFixed32Bytes_eq _ hW1, BigIntToFixed32Bytes_eq _ hW2,
    SetBytes_xorBytes _ _ m0b w0b (by rw [m0l, w0l]),
    SetBytes_xorBytes _ _ m1b w1b (by rw [m1l, w1l]),
    SetBytes_xorBytes _ _ m2b w2b (by rw [m2l, w2l]),
    m0s, m1s, m2s, w0s, w1s, w2s]

/-! ### What a failed decryption returns (C20) -/

/-- When `Ciphertext.Dec` returns `false`, the point is the zero value. -/
theorem Ciphertext.Dec_false {G1Affine G2Affine GT : Type} (E : Env G1Affine G2Affine GT)
    (cp : Ciphertext) (sk : Int) (p : PointAffine) (h : cp.Dec E sk = some (p, false)) :
    p = { X := 0, Y := 0 } := by
  unfold Ciphertext.Dec at h
  split at h
  · simp only [] at h
    split at h
    · simp at h
    · simp only [Option.some.injEq, Prod.mk.injEq, and_true] at h
      exact h.symm
  · simp at h

/-- The two ways in which `PKEETNP.Dec` returns `false`. -/
theorem PKEETNP.Dec_false_cases {G1Affine G2Affine GT : Type} (E : Env G1Affine G2Affine GT)
    (pkeetnp : PKEETNP) (sk : Int) (p : PointAffine)
    (h : pkeetnp.Dec E sk = some (p, false)) :
    (pkeetnp.cp.Dec E sk = some ({ X := 0, Y := 0 }, false) ∧ p = { X := 0, Y := 0 }) ∨
      (pkeetnp.cp.Dec E sk = some (p, true) ∧ p ≠ pkeetnp.M) := by
  unfold PKEETNP.Dec at h
  split at h
  · simp at h
  · rename_i m res hd
    split at h
    · simp at h
    · rename_i hn
      simp only [Option.some.injEq, Prod.mk.injEq, and_true] at h
      subst h
      cases res with
      | false =>
        have := Ciphertext.Dec_false E _ sk m hd
        subst this
        exact Or.inl ⟨hd, rfl⟩
      | true =>
        refine Or.inr ⟨hd, fun e => hn ⟨rfl, e⟩⟩

set_option maxRecDepth 100000 in
/-- C20 fails as stated: in the small instance the ciphertext that `Enc`
produces for the plaintext `3·g` and the draw `4`, held in a record whose field
`M` is `1·g`, decrypts under the key `3` to the plaintext `(3, 0)` together with
`false`: the point returned is the recovered candidate, not the zero value. -/
theorem C20_counterexample :
    (smallPlain.Enc smallEnv 4).map (fun pe => pe.cp) = some smallMismatch.cp ∧
      smallMismatch.cp.Dec smallEnv 3 = some (⟨3, 0⟩, true) ∧
      smallMismatch.Dec smallEnv 3 = some (⟨3, 0⟩, false) ∧
      (⟨3, 0⟩ : PointAffine) ≠ ⟨0, 0⟩ := by
  decide

/-- C20, amended: whenever `PKEETNP.Dec` returns `false`, either
`Ciphertext.Dec` failed and the point returned is the zero value, or
`Ciphertext.Dec` succeeded and the point returned is the recovered plaintext,
which differs from the stored `M`. -/
theorem C20_failed_decryption_point {G1Affine G2Affine GT : Type}
    (E : Env G1Affine G2Affine GT) (pkeetnp : PKEETNP) (sk : Int) (p : PointAffine)
    (h : pkeetnp.Dec E sk = some (p, false)) :
    (pkeetnp.cp.Dec E sk = some ({ X := 0, Y := 0 }, false) ∧ p = { X := 0, Y := 0 }) ∨
      (pkeetnp.cp.Dec E sk = some (p, true) ∧ p ≠ pkeetnp.M) :=
  PKEETNP.Dec_false_cases E pkeetnp sk p h

set_option maxRecDepth 100000 in
/-- C20, amended, at the small instance: both ways of returning `false`, for
the wrong key `4` and for the right key `3` with another stored `M`. -/
theorem C20_failed_decryption_point_witness :
    (smallMismatch.Dec smallEnv 4 = some (⟨0, 0⟩, false) ∧
      ((smallMismatch.cp.Dec smallEnv 4 = some ({ X := 0, Y := 0 }, false) ∧
          (⟨0, 0⟩ : PointAffine) = { X := 0, Y := 0 }) ∨
        (smallMismatch.cp.Dec smallEnv 4 = some (⟨0, 0⟩, true) ∧
          (⟨0, 0⟩ : PointAffine) ≠ smallMismatch.M))) ∧
    (smallMismatch.Dec smallEnv 3 = some (⟨3, 0⟩, false) ∧
      ((smallMismatch.cp.Dec smallEnv 3 = some ({ X := 0, Y := 0 }, false) ∧
          (⟨3, 0⟩ : PointAffine) = { X := 0, Y := 0 }) ∨
        (smallMismatch.cp.Dec smallEnv 3 = some (⟨3, 0⟩, true) ∧
          (⟨3, 0⟩ : PointAffine) ≠ smallMismatch.M))) :=
  ⟨⟨by decide, C20_failed_decryption_point smallEnv smallMismatch 4 ⟨0, 0⟩ (by decide)⟩,
    ⟨by decide, C20_failed_decryption_point smallEnv smallMismatch 3 ⟨3, 0⟩ (by decide)⟩⟩

/-! ### Decryption with another key (C11) -/

/-- Decrypting what `Enc` produced returns the plaintext for every key that
rebuilds the point `Y = r·PK` from `U`. -/
theorem Ciphertext.Dec_Enc_of_Y {G1Affine G2Affine GT : Type} (E : Env G1Affine G2Affine GT)
    (hq0 : 0 < E.q) (hq : E.q ≤ 2 ^ 256) (sk1 : Int) (pkeetnp : PKEETNP) (r : Int)
    (hMX : pkeetnp.M.X < E.q) (hMY : pkeetnp.M.Y < E.q) (hr0 : 0 ≤ r)
    (hrabs : r.natAbs < 2 ^ 256)
    (hY : E.ScalarMultiplication (E.ScalarMultiplication E.Base r) sk1
      = E.ScalarMultiplication pkeetnp.PK r)
    (pe : PKEETNP) (hpe : pkeetnp.Enc E r = some pe) :
    pe.cp.Dec E sk1 = some (pkeetnp.M, true) := by
  have hfix : BigIntToFixed32Bytes r = some (ElementBytes r.natAbs) :=
    BigIntToFixed32Bytes_eq r hrabs
  obtain ⟨hrl, hrb, hrs⟩ := ElementBytes_spec r.natAbs hrabs
  obtain ⟨hxl, hxb, hxs⟩ := ElementBytes_spec pkeetnp.M.X (by omega)
  obtain ⟨hyl, hyb, hys⟩ := ElementBytes_spec pkeetnp.M.Y (by omega)
  simp only [PKEETNP.Enc, hfix, Option.some.injEq] at hpe
  subst hpe
  simp only [Ciphertext.Dec, hY]
  generalize hashPrefix (E.ScalarMultiplication E.Base r)
    (E.ScalarMultiplication pkeetnp.M r) (E.ScalarMultiplication pkeetnp.PK r) = pref
  obtain ⟨h0l, h0b⟩ := hashBlock_spec E hq0 hq pref 1
  obtain ⟨h1l, h1b⟩ := hashBlock_spec E hq0 hq pref 2
  obtain ⟨h2l, h2b⟩ := hashBlock_spec E hq0 hq pref 3
  obtain ⟨w0, c0⟩ := unmask _ _ h0b hrb h0l hrl
  obtain ⟨w1, c1⟩ := unmask _ _ h1b hxb h1l hxl
  obtain ⟨w2, c2⟩ := unmask _ _ h2b hyb h2l hyl
  simp only [w0, w1, w2, c0, c1, c2, hrs, hxs, hys, Nat.mod_eq_of_lt hMX,
    Nat.mod_eq_of_lt hMY, Int.natAbs_of_nonneg hr0, and_self, if_true]

/-- `PKEETNP.Dec` after `Ciphertext.Dec` returned the stored plaintext. -/
theorem PKEETNP.Dec_of_true {G1Affine G2Affine GT : Type} (E : Env G1Affine G2Affine GT)
    (pkeetnp : PKEETNP) (sk : Int) (h : pkeetnp.cp.Dec E sk = some (pkeetnp.M, true)) :
    pkeetnp.Dec E sk = some (pkeetnp.M, true) := by
  simp only [PKEETNP.Dec, h, and_self, if_true]

/-- `PKEETNP.Dec` after `Ciphertext.Dec` returned `false`. -/
theorem PKEETNP.Dec_of_false {G1Affine G2Affine GT : Type} (E : Env G1Affine G2Affine GT)
    (pkeetnp : PKEETNP) (sk : Int) (p : PointAffine)
    (h : pkeetnp.cp.Dec E sk = some (p, false)) :
    pkeetnp.Dec E sk = some (p, false) := by
  simp [PKEETNP.Dec, h]

/-- The scalar candidate of `Dec` under any key, for a ciphertext of `Enc`: the
draw `r`, masked by `Enc` and unmasked with the mask of the key. -/
theorem PKEETNP.Enc_candidate {G1Affine G2Affine GT : Type} (E : Env G1Affine G2Affine GT)
    (hq0 : 0 < E.q) (hq : E.q ≤ 2 ^ 256) (sk1 : Int) (pkeetnp : PKEETNP) (r : Int)
    (hMX : pkeetnp.M.X < E.q) (hMY : pkeetnp.M.Y < E.q)
    (hrabs : r.natAbs < 2 ^ 256) (pe : PKEETNP) (hpe : pkeetnp.Enc E r = some pe) :
    pe.cp.W.1.natAbs < 2 ^ 256 ∧ pe.cp.W.2.1.natAbs < 2 ^ 256 ∧
      pe.cp.W.2.2.natAbs < 2 ^ 256 ∧
      pe.cp.U = E.ScalarMultiplication E.Base r ∧
      (pe.cp.candidates E sk1).1 =
        maskValue E (E.ScalarMultiplication E.Base r) (E.ScalarMultiplication pkeetnp.M r)
          (E.ScalarMultiplication (E.ScalarMultiplication E.Base r) sk1) 1 ^^^
        (maskValue E (E.ScalarMultiplication E.Base r) (E.ScalarMultiplication pkeetnp.M r)
          (E.ScalarMultiplication pkeetnp.PK r) 1 ^^^ r.natAbs) := by
  obtain ⟨pe1, h1, -, -, -, hU, hV, hW0, hW1, hW2⟩ := PKEETNP.Enc_W E pkeetnp r hrabs
  rw [hpe, Option.some.injEq] at h1
  subst h1
  have hm : ∀ i, maskValue E pe.cp.U pe.cp.V (E.ScalarMultiplication pkeetnp.PK r) i
      < 2 ^ 256 := fun i => lt_of_lt_of_le (Nat.mod_lt _ hq0) hq
  obtain ⟨e0, b0⟩ := SetBytes_xor_ElementBytes _ _ (hm 1) hrabs
  obtain ⟨e1, b1⟩ := SetBytes_xor_ElementBytes _ _ (hm 2) (lt_of_lt_of_le hMX hq)
  obtain ⟨e2, b2⟩ := SetBytes_xor_ElementBytes _ _ (hm 3) (lt_of_lt_of_le hMY hq)
  rw [e0] at hW0
  rw [e1] at hW1
  rw [e2] at hW2
  refine ⟨?_, ?_, ?_, hU, ?_⟩
  · rw [hW0, Int.natAbs_ofNat]; exact b0
  · rw [hW1, Int.natAbs_ofNat]; exact b1
  · rw [hW2, Int.natAbs_ofNat]; exact b2
  · simp only [Ciphertext.candidates, hW0, Int.natAbs_ofNat, hU, hV]

/-- Decrypting a ciphertext of `Enc` with the key `sk + 1`: accepted when `r·g`
is the identity, rejected when the scalar candidate does not rebuild `U`. -/
theorem Ciphertext.Dec_Enc_succ {G1Affine G2Affine GT : Type} (E : Env G1Affine G2Affine GT)
    {A : Type} [AddCommGroup A] {φ : A → PointAffine} {g : A} (hE : CurveModel E φ g)
    (hq : E.q ≤ 2 ^ 256) (hOrder : E.Order ≤ 2 ^ 256) (sk : Int) (pkeetnp : PKEETNP)
    (r : Int) (hPK : pkeetnp.PK = E.ScalarMultiplication E.Base sk)
    (hMX : pkeetnp.M.X < E.q) (hMY : pkeetnp.M.Y < E.q) (hr0 : 0 ≤ r) (hr : r < E.Order) :
    ∃ pe, pkeetnp.Enc E r = some pe ∧
      (r • g = 0 →
        pe.cp.Dec E (sk + 1) = some (pkeetnp.M, true) ∧
          pe.Dec E (sk + 1) = some (pkeetnp.M, true)) ∧
      (E.ScalarMultiplication E.Base
          ((maskValue E (E.ScalarMultiplication E.Base r) (E.ScalarMultiplication pkeetnp.M r)
              (E.ScalarMultiplication (E.ScalarMultiplication E.Base r) (sk + 1)) 1 ^^^
            (maskValue E (E.ScalarMultiplication E.Base r)
              (E.ScalarMultiplication pkeetnp.M r)
              (E.ScalarMultiplication pkeetnp.PK r) 1 ^^^ r.natAbs) : Nat) : Int)
          ≠ E.ScalarMultiplication E.Base r →
        pe.cp.Dec E (sk + 1) = some ({ X := 0, Y := 0 }, false) ∧
          pe.Dec E (sk + 1) = some ({ X := 0, Y := 0 }, false)) := by
  have hq0 : 0 < E.q := by omega
  have hrabs : r.natAbs < 2 ^ 256 := by omega
  obtain ⟨pe, hpe, -, hM, -⟩ := PKEETNP.Enc_spec E pkeetnp r hrabs
  refine ⟨pe, hpe, ?_, ?_⟩
  · intro h0
    have hY : E.ScalarMultiplication (E.ScalarMultiplication E.Base r) (sk + 1)
        = E.ScalarMultiplication pkeetnp.PK r := by
      rw [hPK, ← hE.base, hE.smul, hE.smul, hE.smul, hE.smul, h0, smul_comm r sk g, h0,
        smul_zero, smul_zero]
    have hd := Ciphertext.Dec_Enc_of_Y E hq0 hq (sk + 1) pkeetnp r hMX hMY hr0 hrabs hY pe hpe
    rw [← hM] at hd
    refine ⟨by rw [← hM]; exact hd, ?_⟩
    rw [← hM]
    exact PKEETNP.Dec_of_true E pe (sk + 1) hd
  · intro hne
    obtain ⟨hW, hW1, hW2, hU, hc⟩ :=
      PKEETNP.Enc_candidate E hq0 hq (sk + 1) pkeetnp r hMX hMY hrabs pe hpe
    have hd := Ciphertext.Dec_eq_candidates E hq0 hq pe.cp (sk + 1) hW hW1 hW2
    rw [if_neg] at hd
    · exact ⟨hd, PKEETNP.Dec_of_false E pe (sk + 1) _ hd⟩
    · rintro ⟨h1, -⟩
      rw [hc, hU] at h1
      exact hne h1.symm

/-- The 32-byte encoding is injective on numbers below `2^256`. -/
theorem ElementBytes_inj (x y : Nat) (hx : x < 2 ^ 256) (hy : y < 2 ^ 256)
    (h : ElementBytes x = ElementBytes y) : x = y := by
  rw [← (ElementBytes_spec x hx).2.2, ← (ElementBytes_spec y hy).2.2, h]

/-- Another point `Y` with canonical coordinates gives another mask input. -/
theorem maskInput_ne {G1Affine G2Affine GT : Type} (E : Env G1Affine G2Affine GT)
    (U V Y Y1 : PointAffine) (i : Int) (hX : Y.X < 2 ^ 256) (hY : Y.Y < 2 ^ 256)
    (hX1 : Y1.X < 2 ^ 256) (hY1 : Y1.Y < 2 ^ 256) (hne : Y1 ≠ Y) :
    maskInput E U V Y1 i ≠ maskInput E U V Y i := by
  intro e
  simp only [maskInput, List.flatMap_cons, List.flatMap_nil, List.append_nil] at e
  iterate 4 replace e := List.append_cancel_left e
  have lx := (ElementBytes_spec _ hX).1
  have lx1 := (ElementBytes_spec _ hX1).1
  have ly := (ElementBytes_spec _ hY).1
  have ly1 := (ElementBytes_spec _ hY1).1
  obtain ⟨e1, e2⟩ := List.append_inj e (by rw [lx, lx1])
  obtain ⟨e3, -⟩ := List.append_inj e2 (by rw [ly, ly1])
  apply hne
  have a := ElementBytes_inj _ _ hX1 hX e1
  have b := ElementBytes_inj _ _ hY1 hY e3
  cases Y1
  cases Y
  simp only [PointAffine.mk.injEq]
  exact ⟨a, b⟩

/-- Two multiples of a point of order `Order` are equal exactly when the scalars
are congruent modulo `Order`. -/
theorem smul_eq_iff_emod {A : Type} [AddCommGroup A] (g : A) (Order : Int)
    (hord : ∀ n : Int, n • g = 0 ↔ Order ∣ n) (a b : Int) :
    a • g = b • g ↔ a % Order = b % Order := by
  rw [← sub_eq_zero, ← sub_smul, hord]
  constructor
  · intro h
    exact Int.emod_eq_emod_iff_emod_sub_eq_zero.mpr (Int.emod_eq_zero_of_dvd h)
  · intro h
    exact Int.dvd_of_emod_eq_zero (Int.emod_eq_emod_iff_emod_sub_eq_zero.mp h)

/-- Decrypting a ciphertext of `Enc` with the key `sk + 1`: accepted for the draw
`r = 0`; for another draw the key rebuilds another point than `Y = r·PK`, every
mask is the digest of another byte string than at encryption, and `Dec`
rejects unless MiMC relates the digests of the two byte strings of the first
mask. -/
theorem Ciphertext.Dec_Enc_wrong_key {G1Affine G2Affine GT : Type}
    (E : Env G1Affine G2Affine GT) {A : Type} [AddCommGroup A] {φ : A → PointAffine} {g : A}
    (hE : CurveModel E φ g) (hφ : Function.Injective φ)
    (hord : ∀ n : Int, n • g = 0 ↔ (E.Order : Int) ∣ n) (hq : E.q ≤ 2 ^ 256)
    (hOrder : E.Order ≤ 2 ^ 256) (sk : Int) (pkeetnp : PKEETNP) (r : Int)
    (hPK : pkeetnp.PK = E.ScalarMultiplication E.Base sk)
    (hMX : pkeetnp.M.X < E.q) (hMY : pkeetnp.M.Y < E.q) (hr0 : 0 ≤ r) (hr : r < E.Order) :
    ∃ pe, pkeetnp.Enc E r = some pe ∧
      (r = 0 →
        pe.cp.Dec E (sk + 1) = some (pkeetnp.M, true) ∧
          pe.Dec E (sk + 1) = some (pkeetnp.M, true)) ∧
      (r ≠ 0 →
        E.ScalarMultiplication pe.cp.U (sk + 1) ≠ E.ScalarMultiplication pkeetnp.PK r ∧
        (∀ i : Int,
          maskInput E pe.cp.U pe.cp.V (E.ScalarMultiplication pe.cp.U (sk + 1)) i ≠
            maskInput E pe.cp.U pe.cp.V (E.ScalarMultiplication pkeetnp.PK r) i) ∧
        ((pe.cp.Dec E (sk + 1) = some ({ X := 0, Y := 0 }, false) ∧
            pe.Dec E (sk + 1) = some ({ X := 0, Y := 0 }, false)) ∨
          MaskRelated E
            (maskInput E pe.cp.U pe.cp.V (E.ScalarMultiplication pe.cp.U (sk + 1)) 1)
            (maskInput E pe.cp.U pe.cp.V (E.ScalarMultiplication pkeetnp.PK r) 1) r)) := by
  have hq0 : 0 < E.q := by omega
  have hrabs : r.natAbs < 2 ^ 256 := by omega
  obtain ⟨pe, hpe, hacc, hrej⟩ :=
    Ciphertext.Dec_Enc_succ E hE hq hOrder sk pkeetnp r hPK hMX hMY hr0 hr
  obtain ⟨pe1, h1, -, -, -, hU, hV, -⟩ := PKEETNP.Enc_W E pkeetnp r hrabs
  rw [hpe, Option.some.injEq] at h1
  subst h1
  refine ⟨pe, hpe, fun h0 => hacc (by rw [h0, zero_smul]), fun hr1 => ?_⟩
  have hne : r • g ≠ 0 := by
    intro e
    have hd := (hord r).mp e
    have := Int.eq_zero_of_dvd_of_nonneg_of_lt hr0 hr hd
    exact hr1 this
  have hY : E.ScalarMultiplication pe.cp.U (sk + 1) ≠ E.ScalarMultiplication pkeetnp.PK r := by
    rw [hU, hPK, ← hE.base, hE.smul, hE.smul, hE.smul, hE.smul]
    intro e
    have e1 := hφ e
    rw [add_smul, one_smul, smul_comm r sk g] at e1
    exact hne (by simpa using e1)
  have hin : ∀ i : Int,
      maskInput E pe.cp.U pe.cp.V (E.ScalarMultiplication pe.cp.U (sk + 1)) i ≠
        maskInput E pe.cp.U pe.cp.V (E.ScalarMultiplication pkeetnp.PK r) i := by
    intro i
    have c1 : (E.ScalarMultiplication pkeetnp.PK r).X < 2 ^ 256 ∧
        (E.ScalarMultiplication pkeetnp.PK r).Y < 2 ^ 256 := by
      rw [hPK, ← hE.base, hE.smul, hE.smul]
      have := hE.canon (r • sk • g)
      omega
    have c2 : (E.ScalarMultiplication pe.cp.U (sk + 1)).X < 2 ^ 256 ∧
        (E.ScalarMultiplication pe.cp.U (sk + 1)).Y < 2 ^ 256 := by
      rw [hU, ← hE.base, hE.smul, hE.smul]
      have := hE.canon ((sk + 1) • r • g)
      omega
    exact maskInput_ne E _ _ _ _ i c1.1 c1.2 c2.1 c2.2 hY
  refine ⟨hY, hin, ?_⟩
  by_cases hev :
      ((E.MiMC (maskInput E pe.cp.U pe.cp.V (E.ScalarMultiplication pe.cp.U (sk + 1)) 1) % E.q ^^^
        (E.MiMC (maskInput E pe.cp.U pe.cp.V (E.ScalarMultiplication pkeetnp.PK r) 1) % E.q ^^^
          r.natAbs) : Nat) : Int) % E.Order = r % E.Order
  · exact Or.inr ⟨hin 1, hev⟩
  · have key : ∀ n : Int, E.ScalarMultiplication E.Base n = E.ScalarMultiplication E.Base r →
        n % E.Order = r % E.Order := by
      intro n e
      rw [← hE.base, hE.smul, hE.smul] at e
      exact (smul_eq_iff_emod g E.Order hord _ _).mp (hφ e)
    refine Or.inl (hrej fun e => hev ?_)
    rw [hU, hV]
    exact key _ e

set_option maxRecDepth 100000 in
/-- C11 fails as stated: in the small instance, with the secret key `3`, the
public key `3·g` and the plaintext `3·g`, the ciphertext that `Enc` produces
for the draw `r = 0` decrypts under the key `3 + 1` to the plaintext together
with `true`, for `Ciphertext.Dec` and for `PKEETNP.Dec`. -/
theorem C11_counterexample :
    smallPlain.PK = smallEnv.ScalarMultiplication smallEnv.Base 3 ∧
      (smallPlain.Enc smallEnv 0).isSome = true ∧
      (smallPlain.Enc smallEnv 0).bind (fun pe => pe.cp.Dec smallEnv (3 + 1))
        = some (smallPlain.M, true) ∧
      (smallPlain.Enc smallEnv 0).bind (fun pe => pe.Dec smallEnv (3 + 1))
        = some (smallPlain.M, true) := by
  decide

/-- C11, amended: for `PK = sk·g`, a plaintext with canonical coordinates and a
draw `0 ≤ r < Order`, decrypting the ciphertext of `Enc` with `sk + 1` returns
the plaintext and `true` for the draw `r = 0`.  For a draw `r ≠ 0` the key
`sk + 1` rebuilds a point `(sk+1)·U` other than `Y = r·PK`, each mask is the MiMC
digest of a byte string other than the one at encryption, and decryption
returns the zero-value point and `false` unless MiMC relates the digests `h1`
and `h` of the two byte strings of the first mask by
`(h1 ⊕ h ⊕ r) mod Order = r` (as it does when the two digests are equal); both
for `Ciphertext.Dec` and for `PKEETNP.Dec`.  The base point `g` has the order
`Order`. -/
theorem C11_wrong_key_decryption {G1Affine G2Affine GT : Type}
    (E : Env G1Affine G2Affine GT) {A : Type} [AddCommGroup A] (φ : A → PointAffine) (g : A)
    (hE : CurveModel E φ g) (hφ : Function.Injective φ)
    (hord : ∀ n : Int, n • g = 0 ↔ (E.Order : Int) ∣ n) (hq : E.q ≤ 2 ^ 256)
    (hOrder : E.Order ≤ 2 ^ 256) (sk : Int) (pkeetnp : PKEETNP) (r : Int)
    (hPK : pkeetnp.PK = E.ScalarMultiplication E.Base sk)
    (hMX : pkeetnp.M.X < E.q) (hMY : pkeetnp.M.Y < E.q) (hr0 : 0 ≤ r) (hr : r < E.Order) :
    ∃ pe, pkeetnp.Enc E r = some pe ∧
      (r = 0 →
        pe.cp.Dec E (sk + 1) = some (pkeetnp.M, true) ∧
          pe.Dec E (sk + 1) = some (pkeetnp.M, true)) ∧
      (r ≠ 0 →
        E.ScalarMultiplication pe.cp.U (sk + 1) ≠ E.ScalarMultiplication pkeetnp.PK r ∧
        (∀ i : Int,
          maskInput E pe.cp.U pe.cp.V (E.ScalarMultiplication pe.cp.U (sk + 1)) i ≠
            maskInput E pe.cp.U pe.cp.V (E.ScalarMultiplication pkeetnp.PK r) i) ∧
        ((pe.cp.Dec E (sk + 1) = some ({ X := 0, Y := 0 }, false) ∧
            pe.Dec E (sk + 1) = some ({ X := 0, Y := 0 }, false)) ∨
          MaskRelated E
            (maskInput E pe.cp.U pe.cp.V (E.ScalarMultiplication pe.cp.U (sk + 1)) 1)
            (maskInput E pe.cp.U pe.cp.V (E.ScalarMultiplication pkeetnp.PK r) 1) r)) :=
  Ciphertext.Dec_Enc_wrong_key E hE hφ hord hq hOrder sk pkeetnp r hPK hMX hMY hr0 hr

set_option maxRecDepth 100000 in
/-- C11, amended, at the small instance with the key `3`: the draw `r = 0` is
accepted under the key `4`; for the draw `r = 4` the key `4` rebuilds another
point than `Y` and is rejected. -/
theorem C11_wrong_key_decryption_witness :
    CurveModel smallEnv smallPoint 1 ∧ Function.Injective smallPoint ∧
      (∀ n : Int, n • (1 : ZMod 7) = 0 ↔ (smallEnv.Order : Int) ∣ n) ∧
      smallEnv.q ≤ 2 ^ 256 ∧ smallEnv.Order ≤ 2 ^ 256 ∧
      smallPlain.PK = smallEnv.ScalarMultiplication smallEnv.Base 3 ∧
      smallPlain.M.X < smallEnv.q ∧ smallPlain.M.Y < smallEnv.q ∧
      ((0 : Int) ≤ 0 ∧ (0 : Int) < smallEnv.Order ∧
        ∃ pe, smallPlain.Enc smallEnv 0 = some pe ∧
          pe.cp.Dec smallEnv (3 + 1) = some (smallPlain.M, true) ∧
          pe.Dec smallEnv (3 + 1) = some (smallPlain.M, true)) ∧
      ((0 : Int) ≤ 4 ∧ (4 : Int) < smallEnv.Order ∧ (4 : Int) ≠ 0 ∧
        ∃ pe, smallPlain.Enc smallEnv 4 = some pe ∧
          smallEnv.ScalarMultiplication pe.cp.U (3 + 1) ≠
            smallEnv.ScalarMultiplication smallPlain.PK 4 ∧
          (∀ i : Int,
            maskInput smallEnv pe.cp.U pe.cp.V (smallEnv.ScalarMultiplication pe.cp.U (3 + 1)) i ≠
              maskInput smallEnv pe.cp.U pe.cp.V
                (smallEnv.ScalarMultiplication smallPlain.PK 4) i) ∧
          ((pe.cp.Dec smallEnv (3 + 1) = some ({ X := 0, Y := 0 }, false) ∧
              pe.Dec smallEnv (3 + 1) = some ({ X := 0, Y := 0 }, false)) ∨
            MaskRelated smallEnv
              (maskInput smallEnv pe.cp.U pe.cp.V
                (smallEnv.ScalarMultiplication pe.cp.U (3 + 1)) 1)
              (maskInput smallEnv pe.cp.U pe.cp.V
                (smallEnv.ScalarMultiplication smallPlain.PK 4) 1) 4)) ∧
      (smallPlain.Enc smallEnv 4).bind (fun pe => pe.cp.Dec smallEnv (3 + 1))
        = some ({ X := 0, Y := 0 }, false) :=
  ⟨smallEnv_model, Function.LeftInverse.injective smallResidue_smallPoint, smallEnv_order,
    by decide, by decide, by decide, by decide, by decide,
    ⟨by decide, by decide,
      (C11_wrong_key_decryption smallEnv smallPoint 1 smallEnv_model
        (Function.LeftInverse.injective smallResidue_smallPoint) smallEnv_order (by decide)
        (by decide) 3 smallPlain 0 (by decide) (by decide) (by decide) (by decide)
        (by decide)).imp
        fun _ h => ⟨h.1, h.2.1 rfl⟩⟩,
    ⟨by decide, by decide, by decide,
      (C11_wrong_key_decryption smallEnv smallPoint 1 smallEnv_model
        (Function.LeftInverse.injective smallResidue_smallPoint) smallEnv_order (by decide)
        (by decide) 3 smallPlain 4 (by decide) (by decide) (by decide) (by decide)
        (by decide)).imp
        fun _ h => ⟨h.1, h.2.2 (by decide)⟩⟩,
    by decide⟩

/-! ### The circuit (C13, C14, C15) -/

/-- The gadgets of the small instance satisfy what is assumed of the gadgets. -/
theorem smallGadgets_model : GadgetModel smallEnv smallGadgets smallPoint where
  scalarMul _ _ _ := rfl
  mimc _ _ := rfl

/-- A scalar variable holds a value below the modulus. -/
theorem scalar_lt (q : Nat) (hq0 : 0 < q) (x : Int) : (x % (q : Int)).toNat < q := by
  have h1 : 0 ≤ x % (q : Int) := Int.emod_nonneg _ (by omega)
  have h2 : x % (q : Int) < q := Int.emod_lt_of_pos _ (by omega)
  omega

/-- The two assertions on `U` force both coordinates. -/
theorem PKENPCircuit.Define_U {G1Affine G2Affine GT : Type} (E : Env G1Affine G2Affine GT)
    (G : Gadgets) {A : Type} [AddCommGroup A] {φ : A → PointAffine} {g : A}
    (hE : CurveModel E φ g) (hG : GadgetModel E G φ) (hq0 : 0 < E.q)
    (circuit : PKENPCircuit) (h : circuit.Define E G = true) :
    ({ X := circuit.UX % E.q, Y := circuit.UY % E.q } : PointAffine) =
      E.ScalarMultiplication E.Base (((circuit.R % E.q).toNat : Nat) : Int) := by
  simp only [PKENPCircuit.Define, Bool.and_eq_true, decide_eq_true_eq] at h
  obtain ⟨⟨⟨⟨⟨⟨⟨⟨⟨⟨a1, a2⟩, -⟩, -⟩, -⟩, -⟩, -⟩, -⟩, -⟩, -⟩, -⟩ := h
  rw [← hE.base, hG.scalarMul g _ (scalar_lt E.q hq0 circuit.R)] at a1 a2
  rw [← hE.base, ← a1, ← a2]

/-- C14: every assignment that satisfies all assertions of `Define` has
`(UX, UY) = R·base`, both coordinates included, for the field elements the
variables hold. -/
theorem C14_circuit_sound_U {G1Affine G2Affine GT : Type} (E : Env G1Affine G2Affine GT)
    (G : Gadgets) {A : Type} [AddCommGroup A] (φ : A → PointAffine) (g : A)
    (hE : CurveModel E φ g) (hG : GadgetModel E G φ) (hq0 : 0 < E.q)
    (circuit : PKENPCircuit) (h : circuit.Define E G = true) :
    ({ X := circuit.UX % E.q, Y := circuit.UY % E.q } : PointAffine) =
      E.ScalarMultiplication E.Base (((circuit.R % E.q).toNat : Nat) : Int) :=
  PKENPCircuit.Define_U E G hE hG hq0 circuit h

set_option maxRecDepth 100000 in
/-- C14 at the small instance, for the assignment `smallAssignment`. -/
theorem C14_circuit_sound_U_witness :
    CurveModel smallEnv smallPoint 1 ∧ GadgetModel smallEnv smallGadgets smallPoint ∧
      0 < smallEnv.q ∧ smallAssignment.Define smallEnv smallGadgets = true ∧
      ({ X := smallAssignment.UX % smallEnv.q, Y := smallAssignment.UY % smallEnv.q } :
          PointAffine) =
        smallEnv.ScalarMultiplication smallEnv.Base
          (((smallAssignment.R % smallEnv.q).toNat : Nat) : Int) :=
  ⟨smallEnv_model, smallGadgets_model, by decide, by decide,
    C14_circuit_sound_U smallEnv smallGadgets smallPoint 1 smallEnv_model smallGadgets_model
      (by decide) smallAssignment (by decide)⟩

/-- `Define` does not read the variable `YY`. -/
theorem PKENPCircuit.Define_YY {G1Affine G2Affine GT : Type} (E : Env G1Affine G2Affine GT)
    (G : Gadgets) (circuit : PKENPCircuit) (y : Nat) :
    ({ circuit with YY := y }).Define E G = circuit.Define E G := rfl

/-- Next to every satisfying assignment there is one that differs in the public
`YY` only and whose public `Y` is not the point `R·PK` of the circuit. -/
theorem PKENPCircuit.Define_Y_free {G1Affine G2Affine GT : Type}
    (E : Env G1Affine G2Affine GT) (G : Gadgets) (hq : 2 ≤ E.q) (circuit : PKENPCircuit)
    (h : circuit.Define E G = true) :
    ∃ y, ({ circuit with YY := y }).Define E G = true ∧
      ({ X := circuit.YX % E.q, Y := y % E.q } : PointAffine) ≠
        G.ScalarMul { X := circuit.PKX % E.q, Y := circuit.PKY % E.q }
          (circuit.R % E.q).toNat := by
  by_cases h0 : (G.ScalarMul { X := circuit.PKX % E.q, Y := circuit.PKY % E.q }
      (circuit.R % E.q).toNat).Y = 0
  · refine ⟨1, by rw [PKENPCircuit.Define_YY]; exact h, fun e => ?_⟩
    have e1 : 1 % E.q = 0 := (congrArg PointAffine.Y e).trans h0
    rw [Nat.mod_eq_of_lt (show 1 < E.q by omega)] at e1
    exact absurd e1 (by decide)
  · refine ⟨0, by rw [PKENPCircuit.Define_YY]; exact h, fun e => ?_⟩
    have e1 : 0 % E.q = _ := congrArg PointAffine.Y e
    rw [Nat.zero_mod] at e1
    exact h0 e1.symm

/-- The in-circuit hash block is the mask of the specification. -/
theorem GadgetModel.mimc_mask {G1Affine G2Affine GT : Type} {E : Env G1Affine G2Affine GT}
    {G : Gadgets} {A : Type} [AddCommGroup A] {φ : A → PointAffine} {g : A}
    (hE : CurveModel E φ g) (hG : GadgetModel E G φ) (u v y : A) (i : Int) :
    G.MiMC [(φ u).X, (φ u).Y, (φ v).X, (φ v).Y, (φ y).X, (φ y).Y,
        (E.ScalarMultiplication E.Base i).X, (E.ScalarMultiplication E.Base i).Y]
      = maskValue E (φ u) (φ v) (φ y) i := by
  rw [hG.mimc]
  · rfl
  · have hi : E.ScalarMultiplication E.Base i = φ (i • g) := by rw [← hE.base, hE.smul]
    intro x hx
    simp only [List.mem_cons, List.mem_singleton, List.not_mem_nil, or_false, hi] at hx
    rcases hx with rfl | rfl | rfl | rfl | rfl | rfl | rfl | rfl
    · exact (hE.canon u).1
    · exact (hE.canon u).2
    · exact (hE.canon v).1
    · exact (hE.canon v).2
    · exact (hE.canon y).1
    · exact (hE.canon y).2
    · exact (hE.canon _).1
    · exact (hE.canon _).2

/-- The assignment of `GetCircuit` after `Enc` satisfies `Define`. -/
theorem PKENPCircuit.Define_GetCircuit {G1Affine G2Affine GT : Type}
    (E : Env G1Affine G2Affine GT) (G : Gadgets) {A : Type} [AddCommGroup A]
    {φ : A → PointAffine} {g : A} (hE : CurveModel E φ g) (hG : GadgetModel E G φ)
    (hq3 : 3 < E.q) (hq : E.q ≤ 2 ^ 256) (hOq : E.Order ≤ E.q) (pkeetnp : PKEETNP) (a b : A)
    (hPK : pkeetnp.PK = φ a) (hM : pkeetnp.M = φ b) (r : Int) (hr0 : 0 ≤ r)
    (hr : r < E.Order) :
    ∃ pe pc, pkeetnp.Enc E r = some pe ∧ pe.GetCircuit E = some pc ∧
      pc.Define E G = true ∧
      G.ScalarMul E.Base r.natAbs = pe.cp.U ∧ G.ScalarMul pkeetnp.M r.natAbs = pe.cp.V ∧
      G.ScalarMul pkeetnp.PK r.natAbs = E.ScalarMultiplication pkeetnp.PK r ∧
      (∀ i : Nat, i < E.q →
        G.MiMC [pe.cp.U.X, pe.cp.U.Y, pe.cp.V.X, pe.cp.V.Y,
            (G.ScalarMul pkeetnp.PK r.natAbs).X, (G.ScalarMul pkeetnp.PK r.natAbs).Y,
            (G.ScalarMul E.Base i).X, (G.ScalarMul E.Base i).Y] =
          SetBytes (hashBlock E
            (hashPrefix pe.cp.U pe.cp.V (E.ScalarMultiplication pkeetnp.PK r)) i)) ∧
      api.FromBinary E.q (List.zipWith api.Xor
          (api.ToBinary (SetBytes (hashBlock E
            (hashPrefix pe.cp.U pe.cp.V (E.ScalarMultiplication pkeetnp.PK r)) 1)) 256)
          (api.ToBinary r.natAbs 256)) = (pe.cp.W.1 % E.q).toNat ∧
      api.FromBinary E.q (List.zipWith api.Xor
          (api.ToBinary (SetBytes (hashBlock E
            (hashPrefix pe.cp.U pe.cp.V (E.ScalarMultiplication pkeetnp.PK r)) 2)) 256)
          (api.ToBinary pkeetnp.M.X 256)) = (pe.cp.W.2.1 % E.q).toNat ∧
      api.FromBinary E.q (List.zipWith api.Xor
          (api.ToBinary (SetBytes (hashBlock E
            (hashPrefix pe.cp.U pe.cp.V (E.ScalarMultiplication pkeetnp.PK r)) 3)) 256)
          (api.ToBinary pkeetnp.M.Y 256)) = (pe.cp.W.2.2 % E.q).toNat := by
  have hq0 : 0 < E.q := by omega
  have hrq : r.natAbs < E.q := by omega
  have hrabs : r.natAbs < 2 ^ 256 := by omega
  have hrcast : ((r.natAbs : Nat) : Int) = r := Int.natAbs_of_nonneg hr0
  have hfix : BigIntToFixed32Bytes r = some (ElementBytes r.natAbs) :=
    BigIntToFixed32Bytes_eq r hrabs
  obtain ⟨-, -, rs⟩ := ElementBytes_spec r.natAbs hrabs
  obtain ⟨pe, hpe, h2, h3, h4, h5, h6, h7, h8, h9⟩ := PKEETNP.Enc_W E pkeetnp r hrabs
  have hU : pe.cp.U = φ (r • g) := by rw [h5, ← hE.base, hE.smul]
  have hV : pe.cp.V = φ (r • b) := by rw [h6, hM, hE.smul]
  have hY : E.ScalarMultiplication pkeetnp.PK r = φ (r • a) := by rw [hPK, hE.smul]
  have cX : ∀ x, (φ x).X % E.q = (φ x).X := fun x => Nat.mod_eq_of_lt (hE.canon x).1
  have cY : ∀ x, (φ x).Y % E.q = (φ x).Y := fun x => Nat.mod_eq_of_lt (hE.canon x).2
  have c2 : ∀ x, (φ x).X < 2 ^ 256 ∧ (φ x).Y < 2 ^ 256 := fun x =>
    ⟨lt_of_lt_of_le (hE.canon x).1 hq, lt_of_lt_of_le (hE.canon x).2 hq⟩
  have hm : ∀ i, maskValue E (φ (r • g)) (φ (r • b)) (φ (r • a)) i < 2 ^ 256 := fun i =>
    lt_of_lt_of_le (Nat.mod_lt _ hq0) hq
  have sU : G.ScalarMul E.Base r.natAbs = φ (r • g) := by
    rw [← hE.base, hG.scalarMul g _ hrq, hrcast, hE.smul]
  have sV : G.ScalarMul (φ b) r.natAbs = φ (r • b) := by
    rw [hG.scalarMul b _ hrq, hrcast, hE.smul]
  have sY : G.ScalarMul (φ a) r.natAbs = φ (r • a) := by
    rw [hG.scalarMul a _ hrq, hrcast, hE.smul]
  have s1 : G.ScalarMul E.Base 1 = E.ScalarMultiplication E.Base 1 := by
    rw [← hE.base, hG.scalarMul g 1 (by omega)]; rfl
  have s2 : G.ScalarMul E.Base 2 = E.ScalarMultiplication E.Base 2 := by
    rw [← hE.base, hG.scalarMul g 2 (by omega)]; rfl
  have s3 : G.ScalarMul E.Base 3 = E.ScalarMultiplication E.Base 3 := by
    rw [← hE.base, hG.scalarMul g 3 (by omega)]; rfl
  rw [hU, hV, hY] at h7 h8 h9
  rw [(SetBytes_xor_ElementBytes _ _ (hm 1) hrabs).1] at h7
  rw [hM, (SetBytes_xor_ElementBytes _ _ (hm 2) (c2 b).1).1] at h8
  rw [hM, (SetBytes_xor_ElementBytes _ _ (hm 3) (c2 b).2).1] at h9
  have hgc : pe.GetCircuit E = some
      { R := SetBytes (ElementBytes r.natAbs), MX := pe.M.X, MY := pe.M.Y,
        PKX := pe.PK.X, PKY := pe.PK.Y, UX := pe.cp.U.X, UY := pe.cp.U.Y,
        VX := pe.cp.V.X, VY := pe.cp.V.Y,
        YX := (E.ScalarMultiplication pe.PK pe.r).X,
        YY := (E.ScalarMultiplication pe.PK pe.r).Y,
        W := pe.cp.W.1, W1 := pe.cp.W.2.1, W2 := pe.cp.W.2.2 } := by
    simp only [PKEETNP.GetCircuit, h4, hfix]
  have hb : ∀ i : Int, SetBytes (hashBlock E (hashPrefix (φ (r • g)) (φ (r • b)) (φ (r • a))) i)
      = maskValue E (φ (r • g)) (φ (r • b)) (φ (r • a)) i := fun i => by
    rw [hashBlock_eq_mask, (ElementBytes_spec _ (hm i)).2.2]
  refine ⟨pe, _, hpe, hgc, ?_, ?_, ?_, ?_, ?_, ?_, ?_, ?_⟩
  · simp only [PKENPCircuit.Define, h2, h3, h4, hPK, hM, hU, hV, hY, h7, h8, h9, rs, toNat_emod,
      Nat.mod_eq_of_lt hrq, cX, cY, point_eta, sU, sV, sY, s1, s2, s3,
      GadgetModel.mimc_mask hE hG, FromBinary_xor _ _ _ (hm _) hrabs,
      FromBinary_xor _ _ _ (hm _) (c2 b).1, FromBinary_xor _ _ _ (hm _) (c2 b).2,
      hE.smul, hm, hrabs, (c2 b).1, (c2 b).2, and_self, decide_True, Bool.and_self]
  · rw [sU, hU]
  · rw [hM, sV, hV]
  · rw [hPK, sY, hE.smul]
  · intro i hi
    rw [hU, hV, hY, hPK, sY, hb, ← hE.base, hG.scalarMul g i hi, hE.base]
    exact GadgetModel.mimc_mask hE hG _ _ _ _
  · rw [hU, hV, hY, hb, h7, toNat_emod, FromBinary_xor _ _ _ (hm _) hrabs]
  · rw [hU, hV, hY, hb, h8, toNat_emod, hM, FromBinary_xor _ _ _ (hm _) (c2 b).1]
  · rw [hU, hV, hY, hb, h9, toNat_emod, hM, FromBinary_xor _ _ _ (hm _) (c2 b).2]

/-- C13 does not hold for the public `Y`: the assertions of `Define` compare the
`X` coordinate of `R·PK` with `YX` twice and never read `YY`, so next to every
satisfying assignment there is one that differs in the public `YY` only, still
satisfies every assertion, and whose public `(YX, YY)` is not the point `R·PK`
that the circuit derives. -/
theorem C13_public_Y_not_forced {G1Affine G2Affine GT : Type}
    (E : Env G1Affine G2Affine GT) (G : Gadgets) (hq : 2 ≤ E.q) (circuit : PKENPCircuit)
    (h : circuit.Define E G = true) :
    ∃ y, ({ circuit with YY := y }).Define E G = true ∧
      ({ X := circuit.YX % E.q, Y := y % E.q } : PointAffine) ≠
        G.ScalarMul { X := circuit.PKX % E.q, Y := circuit.PKY % E.q }
          (circuit.R % E.q).toNat :=
  PKENPCircuit.Define_Y_free E G hq circuit h

set_option maxRecDepth 100000 in
/-- C13 at the small instance: `smallAssignment` is the assignment of
`GetCircuit` after `Enc` with the draw `4` and satisfies `Define`; with the
public `YY` changed from `0` to `1` it still does, although `(5, 1)` is not the
point `4·PK = (5, 0)`. -/
theorem C13_public_Y_not_forced_witness :
    2 ≤ smallEnv.q ∧
      (smallPlain.Enc smallEnv 4).bind (fun pe => pe.GetCircuit smallEnv)
        = some smallAssignment ∧
      smallAssignment.Define smallEnv smallGadgets = true ∧
      ({ smallAssignment with YY := 1 }).Define smallEnv smallGadgets = true ∧
      smallGadgets.ScalarMul ⟨3, 0⟩ 4 = ⟨5, 0⟩ ∧
      ∃ y, ({ smallAssignment with YY := y }).Define smallEnv smallGadgets = true ∧
        ({ X := smallAssignment.YX % smallEnv.q, Y := y % smallEnv.q } : PointAffine) ≠
          smallGadgets.ScalarMul
            { X := smallAssignment.PKX % smallEnv.q, Y := smallAssignment.PKY % smallEnv.q }
            (smallAssignment.R % smallEnv.q).toNat :=
  ⟨by decide, by decide, by decide, by decide, by decide,
    C13_public_Y_not_forced smallEnv smallGadgets (by decide) smallAssignment (by decide)⟩

/-- C15: for a public key and a plaintext that are curve points and a draw
`0 ≤ r < Order`, `Enc` returns, `GetCircuit` returns an assignment, and the
assignment satisfies every assertion of `Define`; the in-circuit points are
`U`, `V` and `Y = r·PK` of `Enc`, every in-circuit hash block over
`(U.X, U.Y, V.X, V.Y, Y.X, Y.Y, (i·g).X, (i·g).Y)` is the value of the native
hash block, and the 256-bit recombinations of the bitwise exclusive or are the
field elements of `W`, `W1`, `W2`. -/
theorem C15_circuit_complete {G1Affine G2Affine GT : Type}
    (E : Env G1Affine G2Affine GT) (G : Gadgets) {A : Type} [AddCommGroup A]
    (φ : A → PointAffine) (g : A) (hE : CurveModel E φ g) (hG : GadgetModel E G φ)
    (hq3 : 3 < E.q) (hq : E.q ≤ 2 ^ 256) (hOq : E.Order ≤ E.q) (pkeetnp : PKEETNP) (a b : A)
    (hPK : pkeetnp.PK = φ a) (hM : pkeetnp.M = φ b) (r : Int) (hr0 : 0 ≤ r)
    (hr : r < E.Order) :
    ∃ pe pc, pkeetnp.Enc E r = some pe ∧ pe.GetCircuit E = some pc ∧
      pc.Define E G = true ∧
      G.ScalarMul E.Base r.natAbs = pe.cp.U ∧ G.ScalarMul pkeetnp.M r.natAbs = pe.cp.V ∧
      G.ScalarMul pkeetnp.PK r.natAbs = E.ScalarMultiplication pkeetnp.PK r ∧
      (∀ i : Nat, i < E.q →
        G.MiMC [pe.cp.U.X, pe.cp.U.Y, pe.cp.V.X, pe.cp.V.Y,
            (G.ScalarMul pkeetnp.PK r.natAbs).X, (G.ScalarMul pkeetnp.PK r.natAbs).Y,
            (G.ScalarMul E.Base i).X, (G.ScalarMul E.Base i).Y] =
          SetBytes (hashBlock E
            (hashPrefix pe.cp.U pe.cp.V (E.ScalarMultiplication pkeetnp.PK r)) i)) ∧
      api.FromBinary E.q (List.zipWith api.Xor
          (api.ToBinary (SetBytes (hashBlock E
            (hashPrefix pe.cp.U pe.cp.V (E.ScalarMultiplication pkeetnp.PK r)) 1)) 256)
          (api.ToBinary r.natAbs 256)) = (pe.cp.W.1 % E.q).toNat ∧
      api.FromBinary E.q (List.zipWith api.Xor
          (api.ToBinary (SetBytes (hashBlock E
            (hashPrefix pe.cp.U pe.cp.V (E.ScalarMultiplication pkeetnp.PK r)) 2)) 256)
          (api.ToBinary pkeetnp.M.X 256)) = (pe.cp.W.2.1 % E.q).toNat ∧
      api.FromBinary E.q (List.zipWith api.Xor
          (api.ToBinary (SetBytes (hashBlock E
            (hashPrefix pe.cp.U pe.cp.V (E.ScalarMultiplication pkeetnp.PK r)) 3)) 256)
          (api.ToBinary pkeetnp.M.Y 256)) = (pe.cp.W.2.2 % E.q).toNat :=
  PKENPCircuit.Define_GetCircuit E G hE hG hq3 hq hOq pkeetnp a b hPK hM r hr0 hr

/-- C15 at the small instance: key `3·g`, plaintext `3·g`, draw `r = 4`. -/
theorem C15_circuit_complete_witness :
    CurveModel smallEnv smallPoint 1 ∧ GadgetModel smallEnv smallGadgets smallPoint ∧
      3 < smallEnv.q ∧ smallEnv.q ≤ 2 ^ 256 ∧ smallEnv.Order ≤ smallEnv.q ∧
      smallPlain.PK = smallPoint 3 ∧ smallPlain.M = smallPoint 3 ∧ (0 : Int) ≤ 4 ∧
      (4 : Int) < smallEnv.Order ∧
      ∃ pe pc, smallPlain.Enc smallEnv 4 = some pe ∧ pe.GetCircuit smallEnv = some pc ∧
        pc.Define smallEnv smallGadgets = true :=
  ⟨smallEnv_model, smallGadgets_model, by decide, by decide, by decide, rfl, rfl, by decide,
    by decide,
    (C15_circuit_complete smallEnv smallGadgets smallPoint 1 smallEnv_model smallGadgets_model
      (by decide) (by decide) (by decide) smallPlain 3 3 rfl rfl 4 (by decide)
      (by decide)).imp fun _ h => h.imp fun _ h1 => ⟨h1.1, h1.2.1, h1.2.2.1⟩⟩

/-! ### The dual commitment (C18) and its verification rule (C19) -/

/-- The points of a fresh commitment, as `GetContent` computes them. -/
theorem GetContent_points {G1Affine G2Affine GT : Type} [AddCommGroup G1Affine]
    (E : Env G1Affine G2Affine GT) (uid u u1 k ru rk : Int) :
    (GetContent E uid u u1 k ru rk).k = k ∧
      (GetContent E uid u u1 k ru rk).M = E.ScalarMultiplication E.Base uid ∧
      (GetContent E uid u u1 k ru rk)._M = uid • E.G1 ∧
      (GetContent E uid u u1 k ru rk).H = E.ScalarMultiplication E.Base u ∧
      (GetContent E uid u u1 k ru rk)._H = u1 • E.G1 ∧
      (GetContent E uid u u1 k ru rk).B =
        E.Add (GetContent E uid u u1 k ru rk).M
          (E.ScalarMultiplication (GetContent E uid u u1 k ru rk).H
            (GetContent E uid u u1 k ru rk).k) ∧
      (GetContent E uid u u1 k ru rk)._B =
        (GetContent E uid u u1 k ru rk)._M +
          (GetContent E uid u u1 k ru rk).k • (GetContent E uid u u1 k ru rk)._H :=
  ⟨rfl, rfl, rfl, rfl, rfl, rfl, rfl⟩

/-- C18: for every `uid` and every outcome of the draws, the content returned
by `GetContent` stores the drawn `k` and has `M = uid·g`, `_M = uid·G1`,
`H = u·g`, `_H = u1·G1` for the two separately drawn scalars `u`, `u1`, and
`B = M + k·H`, `_B = _M + k·_H` with the stored `k` on both groups. -/
theorem C18_dual_commitment {G1Affine G2Affine GT : Type} [AddCommGroup G1Affine]
    (E : Env G1Affine G2Affine GT) (uid u u1 k ru rk : Int) :
    (GetContent E uid u u1 k ru rk).k = k ∧
      (GetContent E uid u u1 k ru rk).M = E.ScalarMultiplication E.Base uid ∧
      (GetContent E uid u u1 k ru rk)._M = uid • E.G1 ∧
      (GetContent E uid u u1 k ru rk).H = E.ScalarMultiplication E.Base u ∧
      (GetContent E uid u u1 k ru rk)._H = u1 • E.G1 ∧
      (GetContent E uid u u1 k ru rk).B =
        E.Add (GetContent E uid u u1 k ru rk).M
          (E.ScalarMultiplication (GetContent E uid u u1 k ru rk).H
            (GetContent E uid u u1 k ru rk).k) ∧
      (GetContent E uid u u1 k ru rk)._B =
        (GetContent E uid u u1 k ru rk)._M +
          (GetContent E uid u u1 k ru rk).k • (GetContent E uid u u1 k ru rk)._H :=
  GetContent_points E uid u u1 k ru rk

/-- A test that returns `true` in one branch and `false` in the other. -/
theorem ite_bool_rule (p : Prop) [Decidable p] :
    ((if p then true else false) = true ↔ p) ∧ ((if p then true else false) = false ↔ ¬ p) := by
  by_cases h : p <;> simp [h]

/-- The rule of `VerifySigma`, with the hashed byte string written out. -/
theorem Content.VerifySigma_rule {G1Affine G2Affine GT : Type} [AddCommGroup G1Affine]
    (E : Env G1Affine G2Affine GT) (cont : Content G1Affine) :
    (cont.VerifySigma E = true ↔
      cont.cint = ((SetBytes (E.Sum256 (
        E.Marshal cont.B ++
        E.Marshal (E.Add (E.Add (E.ScalarMultiplication E.Base cont.zu)
            (E.ScalarMultiplication cont.H cont.zk))
          (E.Neg (E.ScalarMultiplication cont.B cont.cint))) ++
        E.MarshalG1 cont._B ++
        E.MarshalG1 (cont.zu • E.G1 + cont.zk • cont._H + -(cont.cint • cont._B)) ++
        E.Marshal E.Base ++ E.Marshal cont.H ++ E.MarshalG1 E.G1 ++
        E.MarshalG1 cont._H)) : Nat) : Int)) ∧
    (cont.VerifySigma E = false ↔
      cont.cint ≠ ((SetBytes (E.Sum256 (
        E.Marshal cont.B ++
        E.Marshal (E.Add (E.Add (E.ScalarMultiplication E.Base cont.zu)
            (E.ScalarMultiplication cont.H cont.zk))
          (E.Neg (E.ScalarMultiplication cont.B cont.cint))) ++
        E.MarshalG1 cont._B ++
        E.MarshalG1 (cont.zu • E.G1 + cont.zk • cont._H + -(cont.cint • cont._B)) ++
        E.Marshal E.Base ++ E.Marshal cont.H ++ E.MarshalG1 E.G1 ++
        E.MarshalG1 cont._H)) : Nat) : Int)) := by
  exact ite_bool_rule _

/-- C19: for every content, honest or not, `VerifySigma` returns `true` if and
only if the stored `cint` is the big-endian integer of the digest of
`B ‖ (zu·g + zk·H − cint·B) ‖ _B ‖ (zu·G1 + zk·_H − cint·_B) ‖ g ‖ H ‖ G1 ‖ _H`,
concatenated in this order, and returns `false` if and only if it is not. -/
theorem C19_commitment_verification_rule {G1Affine G2Affine GT : Type}
    [AddCommGroup G1Affine] (E : Env G1Affine G2Affine GT) (cont : Content G1Affine) :
    (cont.VerifySigma E = true ↔
      cont.cint = ((SetBytes (E.Sum256 (
        E.Marshal cont.B ++
        E.Marshal (E.Add (E.Add (E.ScalarMultiplication E.Base cont.zu)
            (E.ScalarMultiplication cont.H cont.zk))
          (E.Neg (E.ScalarMultiplication cont.B cont.cint))) ++
        E.MarshalG1 cont._B ++
        E.MarshalG1 (cont.zu • E.G1 + cont.zk • cont._H + -(cont.cint • cont._B)) ++
        E.Marshal E.Base ++ E.Marshal cont.H ++ E.MarshalG1 E.G1 ++
        E.MarshalG1 cont._H)) : Nat) : Int)) ∧
    (cont.VerifySigma E = false ↔
      cont.cint ≠ ((SetBytes (E.Sum256 (
        E.Marshal cont.B ++
        E.Marshal (E.Add (E.Add (E.ScalarMultiplication E.Base cont.zu)
            (E.ScalarMultiplication cont.H cont.zk))
          (E.Neg (E.ScalarMultiplication cont.B cont.cint))) ++
        E.MarshalG1 cont._B ++
        E.MarshalG1 (cont.zu • E.G1 + cont.zk • cont._H + -(cont.cint • cont._B)) ++
        E.Marshal E.Base ++ E.Marshal cont.H ++ E.MarshalG1 E.G1 ++
        E.MarshalG1 cont._H)) : Nat) : Int)) :=
  Content.VerifySigma_rule E cont


/-! ### The equality test (C21, C26), `Verify` (C24) and `PKEETNP.Dec` (C27) -/

/-- The two results of `Test`. -/
theorem ETP.Test_rule {G1Affine G2Affine GT : Type} [DecidableEq GT]
    (E : Env G1Affine G2Affine GT) (a b : ETP G1Affine G2Affine) :
    (ETP.Test E a b = Except.ok () ↔ E.Pair a._V b.X_ = E.Pair b._V a.X_) ∧
      (¬ E.Pair a._V b.X_ = E.Pair b._V a.X_ → ETP.Test E a b = Except.error "not equal") := by
  unfold ETP.Test
  by_cases h : E.Pair a._V b.X_ = E.Pair b._V a.X_
  · simp only [h, if_true, not_true_eq_false, false_implies, and_self]
  · rw [if_neg h]
    exact ⟨⟨fun e => (by cases e), fun e => absurd e h⟩, fun _ => rfl⟩

/-- C21: for all tokens `a` and `b`, `a.Test(b)` returns `nil` if and only if
`pair(a._V, b.X_) = pair(b._V, a.X_)` in the target group, and returns the
error "not equal" otherwise. -/
theorem C21_test_definition {G1Affine G2Affine GT : Type} [DecidableEq GT]
    (E : Env G1Affine G2Affine GT) (a b : ETP G1Affine G2Affine) :
    (ETP.Test E a b = Except.ok () ↔ E.Pair a._V b.X_ = E.Pair b._V a.X_) ∧
      (¬ E.Pair a._V b.X_ = E.Pair b._V a.X_ → ETP.Test E a b = Except.error "not equal") :=
  ETP.Test_rule E a b

/-- `Test` reads `_V` and `X_` only. -/
theorem ETP.Test_congr {G1Affine G2Affine GT : Type} [DecidableEq GT]
    (E : Env G1Affine G2Affine GT) (a b a1 b1 : ETP G1Affine G2Affine)
    (ha : a1._V = a._V) (ha1 : a1.X_ = a.X_) (hb : b1._V = b._V) (hb1 : b1.X_ = b.X_) :
    ETP.Test E a1 b1 = ETP.Test E a b := by
  simp only [ETP.Test, ha, ha1, hb, hb1]

/-- C26: the result of `a.Test(b)` depends only on `a._V`, `a.X_`, `b._V` and
`b.X_`: tokens that agree with `a` and `b` on these fields give the same
result, whatever their `HR_` and `v`; in particular the result does not change
when the fields `HR_` and `v` of either token are overwritten. -/
theorem C26_test_ignores_generator {G1Affine G2Affine GT : Type} [DecidableEq GT]
    (E : Env G1Affine G2Affine GT) (a b a1 b1 : ETP G1Affine G2Affine)
    (ha : a1._V = a._V) (ha1 : a1.X_ = a.X_) (hb : b1._V = b._V) (hb1 : b1.X_ = b.X_) :
    ETP.Test E a1 b1 = ETP.Test E a b ∧
      ∀ (h h1 : G2Affine) (n n1 : Int),
        ETP.Test E { a with HR_ := h, v := n } { b with HR_ := h1, v := n1 } = ETP.Test E a b :=
  ⟨ETP.Test_congr E a b a1 b1 ha ha1 hb hb1, fun _ _ _ _ => rfl⟩

/-- C26 at the small instance: a token of the round generator `5` and a token
of the round generator `3` are compared, and judged equal. -/
theorem C26_test_ignores_generator_witness :
    ({ v := 2, _V := 6, HR_ := 3, X_ := 6 } : ETP (ZMod 7) (ZMod 7))._V
        = ({ v := 4, _V := 6, HR_ := 5, X_ := 6 } : ETP (ZMod 7) (ZMod 7))._V ∧
      ({ v := 2, _V := 6, HR_ := 3, X_ := 6 } : ETP (ZMod 7) (ZMod 7)).X_
        = ({ v := 4, _V := 6, HR_ := 5, X_ := 6 } : ETP (ZMod 7) (ZMod 7)).X_ ∧
      smallToken._V = smallToken._V ∧ smallToken.X_ = smallToken.X_ ∧
      ({ v := 2, _V := 6, HR_ := 3, X_ := 6 } : ETP (ZMod 7) (ZMod 7)).HR_ ≠ smallToken.HR_ ∧
      ETP.Test smallEnv ({ v := 2, _V := 6, HR_ := 3, X_ := 6 } : ETP (ZMod 7) (ZMod 7))
          smallToken
        = ETP.Test smallEnv ({ v := 4, _V := 6, HR_ := 5, X_ := 6 } : ETP (ZMod 7) (ZMod 7))
          smallToken :=
  ⟨rfl, rfl, rfl, rfl, by decide,
    (C26_test_ignores_generator smallEnv { v := 4, _V := 6, HR_ := 5, X_ := 6 } smallToken
      { v := 2, _V := 6, HR_ := 3, X_ := 6 } smallToken rfl rfl rfl rfl).1⟩

/-- `Verify` reads the two proofs and the eight arguments of `VerifySigma` only. -/
theorem PKEETVPG.Verify_congr {G1Affine G2Affine GT : Type} [AddCommGroup G1Affine]
    [AddCommGroup G2Affine] {Z : Groth16} (E : Env G1Affine G2Affine GT)
    (p p1 : PKEETVPG G1Affine G2Affine Z) (hsnp : p1.snp = p.snp) (hsigp : p1.sigp = p.sigp)
    (hB : p1.cont.B = p.cont.B) (hH : p1.cont.H = p.cont.H) (hB1 : p1.cont._B = p.cont._B)
    (hH1 : p1.cont._H = p.cont._H) (hV : p1.cipher.cp.V = p.cipher.cp.V)
    (hV1 : p1.et._V = p.et._V) (hX : p1.et.X_ = p.et.X_) (hHR : p1.et.HR_ = p.et.HR_) :
    p1.Verify E = p.Verify E := by
  simp only [PKEETVPG.Verify, hsnp, hsigp, hB, hH, hB1, hH1, hV, hV1, hX, hHR]

/-- C24: two `PKEETVPG` values that agree on `snp`, `sigp`, `cont.B`, `cont.H`,
`cont._B`, `cont._H`, `cipher.cp.V`, `et._V`, `et.X_` and `et.HR_` give the same
`Verify` result, whatever their other fields are (`cipher.cp.U`, `cipher.cp.W`,
`cipher.PK`, `cipher.M`, `cont.M`, `cont._M`, `cont.cint`, `cont.zu`, `cont.zk`). -/
theorem C24_verify_reads_proof_inputs {G1Affine G2Affine GT : Type} [AddCommGroup G1Affine]
    [AddCommGroup G2Affine] {Z : Groth16} (E : Env G1Affine G2Affine GT)
    (p p1 : PKEETVPG G1Affine G2Affine Z) (hsnp : p1.snp = p.snp) (hsigp : p1.sigp = p.sigp)
    (hB : p1.cont.B = p.cont.B) (hH : p1.cont.H = p.cont.H) (hB1 : p1.cont._B = p.cont._B)
    (hH1 : p1.cont._H = p.cont._H) (hV : p1.cipher.cp.V = p.cipher.cp.V)
    (hV1 : p1.et._V = p.et._V) (hX : p1.et.X_ = p.et.X_) (hHR : p1.et.HR_ = p.et.HR_) :
    p1.Verify E = p.Verify E :=
  PKEETVPG.Verify_congr E p p1 hsnp hsigp hB hH hB1 hH1 hV hV1 hX hHR

set_option maxRecDepth 100000 in
/-- C24 at the small instance: `smallRoundOther` differs from `smallRound` in
the fields that `Verify` does not read; its commitment proof does not verify
and its ciphertext is not the one of the SNARK assignment, and `Verify` accepts
it as it accepts `smallRound`. -/
theorem C24_verify_reads_proof_inputs_witness :
    smallRoundOther.snp = smallRound.snp ∧ smallRoundOther.sigp = smallRound.sigp ∧
      smallRoundOther.cont.B = smallRound.cont.B ∧ smallRoundOther.cont.H = smallRound.cont.H ∧
      smallRoundOther.cont._B = smallRound.cont._B ∧
      smallRoundOther.cont._H = smallRound.cont._H ∧
      smallRoundOther.cipher.cp.V = smallRound.cipher.cp.V ∧
      smallRoundOther.et._V = smallRound.et._V ∧ smallRoundOther.et.X_ = smallRound.et.X_ ∧
      smallRoundOther.et.HR_ = smallRound.et.HR_ ∧
      smallRound.cont.VerifySigma smallEnv = true ∧
      smallRoundOther.cont.VerifySigma smallEnv = false ∧
      smallRoundOther.cipher.cp.U ≠ smallRound.cipher.cp.U ∧
      smallRound.Verify smallEnv = true ∧
      smallRoundOther.Verify smallEnv = smallRound.Verify smallEnv :=
  ⟨rfl, rfl, rfl, rfl, rfl, rfl, rfl, rfl, rfl, rfl, by decide, by decide, by decide, by decide,
    C24_verify_reads_proof_inputs smallEnv smallRound smallRoundOther rfl rfl rfl rfl rfl rfl
      rfl rfl rfl rfl⟩

/-- When `PKEETNP.Dec` returns `true`. -/
theorem PKEETNP.Dec_true_iff {G1Affine G2Affine GT : Type} (E : Env G1Affine G2Affine GT)
    (pkeetnp : PKEETNP) (sk : Int) (p : PointAffine) :
    pkeetnp.Dec E sk = some (p, true) ↔
      (pkeetnp.cp.Dec E sk = some (p, true) ∧ p = pkeetnp.M) := by
  unfold PKEETNP.Dec
  constructor
  · intro h
    split at h
    · simp at h
    · rename_i m res hd
      split at h
      · rename_i hc
        simp only [Option.some.injEq, Prod.mk.injEq, and_true] at h
        subst h
        obtain ⟨h1, h2⟩ := hc
        subst h1
        exact ⟨hd, h2⟩
      · simp at h
  · rintro ⟨h1, h2⟩
    simp only [h1, h2, and_self, if_true]

/-- C27: `PKEETNP.Dec(sk)` returns a point `p` with `ok = true` if and only if
`Ciphertext.Dec(sk)` returns `(p, true)` and `p` equals the stored plaintext
field `M`; the point returned with `true` is the one `Ciphertext.Dec` returned. -/
theorem C27_dec_true_rule {G1Affine G2Affine GT : Type} (E : Env G1Affine G2Affine GT)
    (pkeetnp : PKEETNP) (sk : Int) (p : PointAffine) :
    pkeetnp.Dec E sk = some (p, true) ↔
      (pkeetnp.cp.Dec E sk = some (p, true) ∧ p = pkeetnp.M) :=
  PKEETNP.Dec_true_iff E pkeetnp sk p

/-! ### The draw `r = 0` (C28) -/

/-- For the draw `r = 0` the points `U` and `V` are the identity and every key
decrypts. -/
theorem Ciphertext.Dec_Enc_zero {G1Affine G2Affine GT : Type} (E : Env G1Affine G2Affine GT)
    {A : Type} [AddCommGroup A] {φ : A → PointAffine} {g : A} (hE : CurveModel E φ g)
    (hq : E.q ≤ 2 ^ 256) (pkeetnp : PKEETNP) (a b : A) (hPK : pkeetnp.PK = φ a)
    (hM : pkeetnp.M = φ b) :
    ∃ pe, pkeetnp.Enc E 0 = some pe ∧ pe.cp.U = φ 0 ∧ pe.cp.V = φ 0 ∧
      ∀ sk1 : Int, pe.cp.Dec E sk1 = some (pkeetnp.M, true) := by
  have hMX : pkeetnp.M.X < E.q := by rw [hM]; exact (hE.canon b).1
  have hMY : pkeetnp.M.Y < E.q := by rw [hM]; exact (hE.canon b).2
  have hq0 : 0 < E.q := by omega
  have hrabs : (0 : Int).natAbs < 2 ^ 256 := by norm_num
  obtain ⟨pe, hpe, -, -, -, hU, hV⟩ := PKEETNP.Enc_spec E pkeetnp 0 hrabs
  refine ⟨pe, hpe, ?_, ?_, fun sk1 => ?_⟩
  · rw [hU, ← hE.base, hE.smul, zero_smul]
  · rw [hV, hM, hE.smul, zero_smul]
  · refine Ciphertext.Dec_Enc_of_Y E hq0 hq sk1 pkeetnp 0 hMX hMY (le_refl 0) hrabs ?_ pe hpe
    simp only [hPK, ← hE.base, hE.smul, zero_smul, smul_zero]

/-- C28: if `Enc` draws `r = 0`, then `cp.U` and `cp.V` are the identity point
and `Ciphertext.Dec` returns the plaintext and `true` for every key, for a
public key and a plaintext that are curve points. -/
theorem C28_zero_scalar_edge_case {G1Affine G2Affine GT : Type}
    (E : Env G1Affine G2Affine GT) {A : Type} [AddCommGroup A] (φ : A → PointAffine) (g : A)
    (hE : CurveModel E φ g) (hq : E.q ≤ 2 ^ 256) (pkeetnp : PKEETNP) (a b : A)
    (hPK : pkeetnp.PK = φ a) (hM : pkeetnp.M = φ b) :
    ∃ pe, pkeetnp.Enc E 0 = some pe ∧ pe.cp.U = φ 0 ∧ pe.cp.V = φ 0 ∧
      ∀ sk1 : Int, pe.cp.Dec E sk1 = some (pkeetnp.M, true) :=
  Ciphertext.Dec_Enc_zero E hE hq pkeetnp a b hPK hM

/-- C28 at the small instance: key `3·g`, plaintext `3·g`. -/
theorem C28_zero_scalar_edge_case_witness :
    CurveModel smallEnv smallPoint 1 ∧ smallEnv.q ≤ 2 ^ 256 ∧ smallPlain.PK = smallPoint 3 ∧
      smallPlain.M = smallPoint 3 ∧
      ∃ pe, smallPlain.Enc smallEnv 0 = some pe ∧ pe.cp.U = smallPoint 0 ∧
        pe.cp.V = smallPoint 0 ∧
        ∀ sk1 : Int, pe.cp.Dec smallEnv sk1 = some (smallPlain.M, true) :=
  ⟨smallEnv_model, by decide, rfl, rfl,
    C28_zero_scalar_edge_case smallEnv smallPoint 1 smallEnv_model (by decide) smallPlain 3 3
      rfl rfl⟩

/-! ### Failing draws (C23) -/

/-- With draws that all succeed, the four operations are the ones of the
source on the drawn values. -/
theorem draws_some {G1Affine G2Affine GT : Type} [AddCommGroup G1Affine]
    [AddCommGroup G2Affine] (E : Env G1Affine G2Affine GT) (nilScalar : Option Int)
    (cont : Content G1Affine) (pen : PKEETNP) (et : ETP G1Affine G2Affine)
    (uid u u1 k ru rk r d rv rAlpha rBeta : Int) :
    GetContent.draws E nilScalar uid (some u) (some u1) (some k) (some ru) (some rk)
        = some (GetContent E uid u u1 k ru rk) ∧
      Content.ProveSigma.draws E nilScalar cont uid (some ru) (some rk)
        = some (cont.ProveSigma E uid ru rk) ∧
      PKEETNP.Enc.draws E pen (some r) = pen.Enc E r ∧
      sigmaProof.ProveSigma.draws E nilScalar cont pen et (some d) (some rv) (some rAlpha)
          (some rBeta)
        = some (sigmaProof.ProveSigma E cont pen et d rv rAlpha rBeta) :=
  ⟨rfl, rfl, rfl, rfl⟩

/-- A failing checked draw aborts, whatever the library does with a nil
scalar. -/
theorem checked_none {G1Affine G2Affine GT : Type} [AddCommGroup G1Affine]
    [AddCommGroup G2Affine] (E : Env G1Affine G2Affine GT) (nilScalar : Option Int)
    (cont : Content G1Affine) (pen : PKEETNP) (et : ETP G1Affine G2Affine) (uid : Int)
    (u u1 k ru rk rv rAlpha rBeta : Option Int) :
    GetContent.draws E nilScalar uid none u1 k ru rk = none ∧
      GetContent.draws E nilScalar uid u u1 none ru rk = none ∧
      PKEETNP.Enc.draws E pen none = none ∧
      sigmaProof.ProveSigma.draws E nilScalar cont pen et none rv rAlpha rBeta = none := by
  refine ⟨rfl, ?_, rfl, rfl⟩
  unfold GetContent.draws checkedDraw
  cases u <;> cases hu1 : discardedDraw nilScalar u1 <;> rfl

/-- When the library call panics on a nil scalar, a failing draw aborts each of
the four operations. -/
theorem draws_none {G1Affine G2Affine GT : Type} [AddCommGroup G1Affine]
    [AddCommGroup G2Affine] (E : Env G1Affine G2Affine GT) (nilScalar : Option Int)
    (hnil : nilScalar = none) (cont : Content G1Affine) (pen : PKEETNP)
    (et : ETP G1Affine G2Affine) (uid : Int) :
    (∀ u u1 k ru rk : Option Int,
        u = none ∨ u1 = none ∨ k = none ∨ ru = none ∨ rk = none →
        GetContent.draws E nilScalar uid u u1 k ru rk = none) ∧
      (∀ ru rk : Option Int, ru = none ∨ rk = none →
        Content.ProveSigma.draws E nilScalar cont uid ru rk = none) ∧
      (∀ r : Option Int, r = none → PKEETNP.Enc.draws E pen r = none) ∧
      (∀ d rv rAlpha rBeta : Option Int,
        d = none ∨ rv = none ∨ rAlpha = none ∨ rBeta = none →
        sigmaProof.ProveSigma.draws E nilScalar cont pen et d rv rAlpha rBeta = none) := by
  subst hnil
  refine ⟨?_, ?_, ?_, ?_⟩
  · intro u u1 k ru rk h
    cases u <;> cases u1 <;> cases k <;> cases ru <;> cases rk <;>
      first | rfl | simp at h
  · intro ru rk h
    cases ru <;> cases rk <;> first | rfl | simp at h
  · intro r h
    subst h
    rfl
  · intro d rv rAlpha rBeta h
    cases d <;> cases rv <;> cases rAlpha <;> cases rBeta <;> first | rfl | simp at h

/-- C23: when a library call that receives a nil scalar panics (`nilScalar` is
`none`), each of the ten draws is fatal: if a draw of `GetContent` (`u`, `u1`,
`k`, and `ru`, `rk` of the `ProveSigma` it calls), of `Content.ProveSigma` (`ru`,
`rk`), of `PKEETNP.Enc` (`r`) or of `sigmaProof.ProveSigma` (`d`, `rv`, `rAlpha`,
`rBeta`) fails, the operation aborts and returns nothing.  The draws `u`, `k`,
`r` and `d` are checked by the operation itself and abort whatever the library
does; with draws that all succeed the operation is the one of the source. -/
theorem C23_randomness_failure_fatal {G1Affine G2Affine GT : Type} [AddCommGroup G1Affine]
    [AddCommGroup G2Affine] (E : Env G1Affine G2Affine GT) (nilScalar : Option Int)
    (hnil : nilScalar = none) (cont : Content G1Affine) (pen : PKEETNP)
    (et : ETP G1Affine G2Affine) (uid : Int) :
    ((∀ u u1 k ru rk : Option Int,
        u = none ∨ u1 = none ∨ k = none ∨ ru = none ∨ rk = none →
        GetContent.draws E nilScalar uid u u1 k ru rk = none) ∧
      (∀ ru rk : Option Int, ru = none ∨ rk = none →
        Content.ProveSigma.draws E nilScalar cont uid ru rk = none) ∧
      (∀ r : Option Int, r = none → PKEETNP.Enc.draws E pen r = none) ∧
      (∀ d rv rAlpha rBeta : Option Int,
        d = none ∨ rv = none ∨ rAlpha = none ∨ rBeta = none →
        sigmaProof.ProveSigma.draws E nilScalar cont pen et d rv rAlpha rBeta = none)) ∧
    (∀ (other : Option Int) (u u1 k ru rk rv rAlpha rBeta : Option Int),
      GetContent.draws E other uid none u1 k ru rk = none ∧
        GetContent.draws E other uid u u1 none ru rk = none ∧
        PKEETNP.Enc.draws E pen none = none ∧
        sigmaProof.ProveSigma.draws E other cont pen et none rv rAlpha rBeta = none) ∧
    (∀ u u1 k ru rk r d rv rAlpha rBeta : Int,
      GetContent.draws E nilScalar uid (some u) (some u1) (some k) (some ru) (some rk)
          = some (GetContent E uid u u1 k ru rk) ∧
        Content.ProveSigma.draws E nilScalar cont uid (some ru) (some rk)
          = some (cont.ProveSigma E uid ru rk) ∧
        PKEETNP.Enc.draws E pen (some r) = pen.Enc E r ∧
        sigmaProof.ProveSigma.draws E nilScalar cont pen et (some d) (some rv) (some rAlpha)
            (some rBeta)
          = some (sigmaProof.ProveSigma E cont pen et d rv rAlpha rBeta)) :=
  ⟨draws_none E nilScalar hnil cont pen et uid,
    fun other u u1 k ru rk rv rAlpha rBeta =>
      checked_none E other cont pen et uid u u1 k ru rk rv rAlpha rBeta,
    fun u u1 k ru rk r d rv rAlpha rBeta =>
      draws_some E nilScalar cont pen et uid u u1 k ru rk r d rv rAlpha rBeta⟩

/-- C23 at the small instance: the draw `u1` of `GetContent`, the draw `rk` of
`Content.ProveSigma`, the draw `r` of `Enc` and the draw `rBeta` of
`sigmaProof.ProveSigma` fail, the other draws succeed. -/
theorem C23_randomness_failure_fatal_witness :
    (none : Option Int) = none ∧
      GetContent.draws smallEnv none 3 (some 2) none (some 5) (some 1) (some 6) = none ∧
      Content.ProveSigma.draws smallEnv none smallContent 3 (some 1) none = none ∧
      PKEETNP.Enc.draws smallEnv smallPlain none = none ∧
      sigmaProof.ProveSigma.draws smallEnv none smallContent smallCipher smallToken (some 2)
        (some 1) (some 5) none = none :=
  ⟨rfl,
    (C23_randomness_failure_fatal smallEnv none rfl smallContent smallCipher smallToken 3).1.1
      (some 2) none (some 5) (some 1) (some 6) (Or.inr (Or.inl rfl)),
    (C23_randomness_failure_fatal smallEnv none rfl smallContent smallCipher smallToken
      3).1.2.1 (some 1) none (Or.inr rfl),
    (C23_randomness_failure_fatal smallEnv none rfl smallContent smallCipher smallToken
      3).1.2.2.1 none rfl,
    (C23_randomness_failure_fatal smallEnv none rfl smallContent smallCipher smallToken
      3).1.2.2.2 (some 2) (some 1) (some 5) none (Or.inr (Or.inr (Or.inr rfl)))⟩

/-! ### Tracing (C29, C30) -/

/-- The inner loop of `traceSP` on a round that `mt` covers: whether a pair of
the round hits. -/
theorem traceSP.inner_some {G1Affine G2Affine GT : Type} [DecidableEq GT]
    (E : Env G1Affine G2Affine GT) (mt : List (MatchingText G1Affine G2Affine)) (i : Nat)
    (m : MatchingText G1Affine G2Affine) (hm : mt[i]? = some m)
    (ps : List (AffinePair G1Affine G2Affine)) :
    ∃ b, traceSP.inner E mt i ps = some b ∧
      (b = true ↔ ∃ p ∈ ps, m.Pair.test E p = true) := by
  induction ps with
  | nil => exact ⟨false, rfl, by simp⟩
  | cons p rest ih =>
    by_cases hp : m.Pair.test E p = true
    · refine ⟨true, ?_, ?_⟩
      · simp only [traceSP.inner, hm, hp, if_true]
      · simp only [true_iff]
        exact ⟨p, List.mem_cons_self _ _, hp⟩
    · obtain ⟨b, hb, hb1⟩ := ih
      refine ⟨b, ?_, ?_⟩
      · simp only [traceSP.inner, hm, hp]
        exact hb
      · rw [hb1]
        constructor
        · rintro ⟨q, hq, hq1⟩
          exact ⟨q, List.mem_cons_of_mem _ hq, hq1⟩
        · rintro ⟨q, hq, hq1⟩
          rcases List.mem_cons.mp hq with rfl | hq2
          · exact absurd hq1 hp
          · exact ⟨q, hq2, hq1⟩

/-- The inner loop of `traceSP` on a round that `mt` does not cover panics when
the round has a pair. -/
theorem traceSP.inner_none {G1Affine G2Affine GT : Type} [DecidableEq GT]
    (E : Env G1Affine G2Affine GT) (mt : List (MatchingText G1Affine G2Affine)) (i : Nat)
    (hm : mt[i]? = none) (ps : List (AffinePair G1Affine G2Affine)) (hps : ps ≠ []) :
    traceSP.inner E mt i ps = none := by
  cases ps with
  | nil => exact absurd rfl hps
  | cons p rest => simp only [traceSP.inner, hm]

/-- The outer loop of `traceSP` from round `i` on, when `mt` covers every
remaining round. -/
theorem traceSP.loop_spec {G1Affine G2Affine GT : Type} [DecidableEq GT]
    (E : Env G1Affine G2Affine GT) (mt : List (MatchingText G1Affine G2Affine))
    (srs : List (SimplifiedRecord G1Affine G2Affine)) (i : Nat) (res : List Nat)
    (hlen : srs.length + i ≤ mt.length) :
    ∃ out, traceSP.loop E mt i srs res = some (res ++ out) ∧ out.Pairwise (· < ·) ∧
      ∀ j, j ∈ out ↔ (i ≤ j ∧ ∃ m sr, mt[j]? = some m ∧ srs[j - i]? = some sr ∧
        ∃ p ∈ sr.Pairs, m.Pair.test E p = true) := by
  induction srs generalizing i res with
  | nil =>
    refine ⟨[], by simp [traceSP.loop], List.Pairwise.nil, fun j => ?_⟩
    simp
  | cons sr rest ih =>
    have hi : i < mt.length := by simp only [List.length_cons] at hlen; omega
    obtain ⟨m, hm⟩ : ∃ m, mt[i]? = some m := ⟨mt[i], List.getElem?_eq_getElem hi⟩
    obtain ⟨b, hb, hb1⟩ := traceSP.inner_some E mt i m hm sr.Pairs
    have hlen1 : rest.length + (i + 1) ≤ mt.length := by
      simp only [List.length_cons] at hlen; omega
    have shift : ∀ j, i + 1 ≤ j → (sr :: rest)[j - i]? = rest[j - (i + 1)]? := by
      intro j hj
      have e : j - i = (j - (i + 1)) + 1 := by omega
      rw [e, List.getElem?_cons_succ]
    cases b with
    | true =>
      obtain ⟨out, ho, hp, hmem⟩ := ih (i + 1) (res ++ [i]) hlen1
      refine ⟨i :: out, ?_, ?_, fun j => ?_⟩
      · simp only [traceSP.loop, hb, ho, List.append_assoc, List.singleton_append]
      · refine List.Pairwise.cons (fun j hj => ?_) hp
        have := ((hmem j).mp hj).1
        omega
      · constructor
        · intro hj
          rcases List.mem_cons.mp hj with rfl | hj1
          · refine ⟨le_refl _, m, sr, hm, by simp, hb1.mp rfl⟩
          · obtain ⟨h1, m1, sr1, h2, h3, h4⟩ := (hmem j).mp hj1
            exact ⟨by omega, m1, sr1, h2, by rw [shift j h1]; exact h3, h4⟩
        · rintro ⟨h1, m1, sr1, h2, h3, h4⟩
          by_cases e : j = i
          · subst e; exact List.mem_cons_self _ _
          · have h5 : i + 1 ≤ j := by omega
            refine List.mem_cons_of_mem _ ((hmem j).mpr ⟨h5, m1, sr1, h2, ?_, h4⟩)
            rw [← shift j h5]; exact h3
    | false =>
      obtain ⟨out, ho, hp, hmem⟩ := ih (i + 1) res hlen1
      refine ⟨out, ?_, hp, fun j => ?_⟩
      · simp only [traceSP.loop, hb, ho]
      · constructor
        · intro hj
          obtain ⟨h1, m1, sr1, h2, h3, h4⟩ := (hmem j).mp hj
          exact ⟨by omega, m1, sr1, h2, by rw [shift j h1]; exact h3, h4⟩
        · rintro ⟨h1, m1, sr1, h2, h3, h4⟩
          by_cases e : j = i
          · subst e
            rw [hm] at h2
            simp only [Nat.sub_self, List.getElem?_cons_zero, Option.some.injEq] at h2 h3
            subst h2 h3
            have := hb1.mpr h4
            exact absurd this (by decide)
          · have h5 : i + 1 ≤ j := by omega
            refine (hmem j).mpr ⟨h5, m1, sr1, h2, ?_, h4⟩
            rw [← shift j h5]; exact h3

/-- The outer loop of `traceSP` panics when the first round that `mt` does not
cover has a pair. -/
theorem traceSP.loop_none {G1Affine G2Affine GT : Type} [DecidableEq GT]
    (E : Env G1Affine G2Affine GT) (mt : List (MatchingText G1Affine G2Affine))
    (srs : List (SimplifiedRecord G1Affine G2Affine)) (i : Nat) (res : List Nat)
    (hi : i ≤ mt.length) (sr : SimplifiedRecord G1Affine G2Affine)
    (hsr : srs[mt.length - i]? = some sr) (hps : sr.Pairs ≠ []) :
    traceSP.loop E mt i srs res = none := by
  induction srs generalizing i res with
  | nil => simp at hsr
  | cons sr0 rest ih =>
    by_cases e : i = mt.length
    · subst e
      simp only [Nat.sub_self, List.getElem?_cons_zero, Option.some.injEq] at hsr
      subst hsr
      have hm : mt[mt.length]? = none := List.getElem?_eq_none (le_refl _)
      simp only [traceSP.loop, traceSP.inner_none E mt _ hm sr0.Pairs hps]
    · have hlt : i < mt.length := by omega
      obtain ⟨m, hm⟩ : ∃ m, mt[i]? = some m := ⟨mt[i], List.getElem?_eq_getElem hlt⟩
      obtain ⟨b, hb, -⟩ := traceSP.inner_some E mt i m hm sr0.Pairs
      have e1 : mt.length - i = (mt.length - (i + 1)) + 1 := by omega
      rw [e1, List.getElem?_cons_succ] at hsr
      cases b with
      | true => simp only [traceSP.loop, hb]; exact ih (i + 1) _ (by omega) hsr
      | false => simp only [traceSP.loop, hb]; exact ih (i + 1) _ (by omega) hsr

/-- What `traceSP` returns. -/
theorem traceSP_spec {G1Affine G2Affine GT : Type} [DecidableEq GT]
    (E : Env G1Affine G2Affine GT) (mt : List (MatchingText G1Affine G2Affine))
    (srs : List (SimplifiedRecord G1Affine G2Affine)) (hlen : srs.length ≤ mt.length) :
    ∃ res, traceSP E mt srs = some res ∧ res.Pairwise (· < ·) ∧ res.Nodup ∧
      ∀ j, j ∈ res ↔ ∃ m sr, mt[j]? = some m ∧ srs[j]? = some sr ∧
        ∃ p ∈ sr.Pairs, m.Pair.test E p = true := by
  obtain ⟨out, ho, hp, hmem⟩ := traceSP.loop_spec E mt srs 0 [] (by simpa using hlen)
  refine ⟨out, by simpa [traceSP] using ho, hp, ?_, fun j => ?_⟩
  · exact hp.imp (fun h => Nat.ne_of_lt h)
  · rw [hmem j]
    simp

/-- C29: for every `mt` and `srs` with `len(mt) ≥ len(srs)`, `traceSP` returns
(no index is out of range) a list that is strictly increasing, so without
repetition, and that contains exactly the indices `j < len(srs)` for which at
least one pair in `srs[j].Pairs` satisfies `mt[j].Pair.test`.  Without the
precondition the access `mt[j]` panics: for a `mt1` that ends before a round
with at least one pair, `traceSP` returns nothing. -/
theorem C29_traceSP_result {G1Affine G2Affine GT : Type} [DecidableEq GT]
    (E : Env G1Affine G2Affine GT) (mt : List (MatchingText G1Affine G2Affine))
    (srs : List (SimplifiedRecord G1Affine G2Affine)) (hlen : srs.length ≤ mt.length) :
    (∃ res, traceSP E mt srs = some res ∧ res.Pairwise (· < ·) ∧ res.Nodup ∧
      ∀ j, j ∈ res ↔ (j < srs.length ∧ ∃ m sr, mt[j]? = some m ∧ srs[j]? = some sr ∧
        ∃ p ∈ sr.Pairs, m.Pair.test E p = true)) ∧
    (∀ (mt1 : List (MatchingText G1Affine G2Affine)) (sr : SimplifiedRecord G1Affine G2Affine),
      srs[mt1.length]? = some sr → sr.Pairs ≠ [] → traceSP E mt1 srs = none) := by
  refine ⟨?_, fun mt1 sr hsr hps => ?_⟩
  · obtain ⟨res, h1, h2, h3, h4⟩ := traceSP_spec E mt srs hlen
    refine ⟨res, h1, h2, h3, fun j => ?_⟩
    rw [h4 j]
    constructor
    · rintro ⟨m, sr, hm, hsr, hp⟩
      refine ⟨?_, m, sr, hm, hsr, hp⟩
      by_contra hn
      rw [List.getElem?_eq_none (by omega)] at hsr
      cases hsr
    · rintro ⟨-, h⟩
      exact h
  · exact traceSP.loop_none E mt1 srs 0 [] (Nat.zero_le _) sr (by simpa using hsr) hps

set_option maxRecDepth 100000 in
/-- C29 at the small instance: the rounds `0` and `2` are returned; with the
matching texts cut to two, the third round is out of range. -/
theorem C29_traceSP_result_witness :
    smallRecords.length ≤ smallMatching.length ∧
      traceSP smallEnv smallMatching smallRecords = some [0, 2] ∧
      traceSP smallEnv (smallMatching.take 2) smallRecords = none ∧
      (∃ res, traceSP smallEnv smallMatching smallRecords = some res ∧
        res.Pairwise (· < ·) ∧ res.Nodup ∧
        ∀ j, j ∈ res ↔ (j < smallRecords.length ∧ ∃ m sr, smallMatching[j]? = some m ∧
          smallRecords[j]? = some sr ∧ ∃ p ∈ sr.Pairs, m.Pair.test smallEnv p = true)) :=
  ⟨by decide, by decide, by decide,
    (C29_traceSP_result smallEnv smallMatching smallRecords (by decide)).1⟩

/-- The matching texts of `traceR`, by index. -/
theorem traceR.loop_get {G1Affine G2Affine : Type} [AddCommGroup G1Affine]
    [AddCommGroup G2Affine] (_M : G1Affine) (v : Nat → Int) (i : Nat) (HRS_ : List G2Affine)
    (j : Nat) :
    (traceR.loop _M v i HRS_)[j]? = (HRS_[j]?).map fun HR_ =>
      { HR_ := HR_, Pair := { _V := v (i + j) • _M, X_ := v (i + j) • HR_ } } := by
  induction HRS_ generalizing i j with
  | nil => simp [traceR.loop]
  | cons HR rest ih =>
    cases j with
    | zero => simp [traceR.loop]
    | succ j =>
      simp only [traceR.loop, List.getElem?_cons_succ, ih (i + 1) j]
      have e : i + 1 + j = i + (j + 1) := by omega
      rw [e]

/-- `traceR` returns one matching text per round generator. -/
theorem traceR.loop_length {G1Affine G2Affine : Type} [AddCommGroup G1Affine]
    [AddCommGroup G2Affine] (_M : G1Affine) (v : Nat → Int) (i : Nat) (HRS_ : List G2Affine) :
    (traceR.loop _M v i HRS_).length = HRS_.length := by
  induction HRS_ generalizing i with
  | nil => rfl
  | cons HR rest ih => simp [traceR.loop, ih]

/-- Tracing with the matching texts of `traceR` finds every round with a pair
of the target. -/
theorem traceSP_traceR {G1Affine G2Affine GT : Type} [AddCommGroup G1Affine]
    [AddCommGroup G2Affine] [AddCommGroup GT] [DecidableEq GT] (E : Env G1Affine G2Affine GT)
    (hP : Bilinear E.Pair) (m : G1Affine) (srs : List (SimplifiedRecord G1Affine G2Affine))
    (v : Nat → Int) (i : Nat) (sr : SimplifiedRecord G1Affine G2Affine)
    (hsr : srs[i]? = some sr) (w : Int) (p : AffinePair G1Affine G2Affine) (hp : p ∈ sr.Pairs)
    (hV : p._V = w • m) (hX : p.X_ = w • sr.HR_) :
    ∃ res, traceSP E (traceR m (srs.map fun sr => sr.HR_) v) srs = some res ∧ i ∈ res := by
  have hlen : srs.length ≤ (traceR m (srs.map fun sr => sr.HR_) v).length := by
    simp [traceR, traceR.loop_length]
  obtain ⟨res, h1, -, -, h4⟩ := traceSP_spec E _ srs hlen
  refine ⟨res, h1, (h4 i).mpr
    ⟨{ HR_ := sr.HR_, Pair := { _V := v i • m, X_ := v i • sr.HR_ } }, sr, ?_, hsr, p, hp, ?_⟩⟩
  · simp only [traceR, traceR.loop_get, List.getElem?_map, hsr, Option.map_some', zero_add]
  · simp only [AffinePair.test, hV, hX, hP.smul_left, hP.smul_right]
    rw [smul_comm (v i) w]
    simp

/-- C30: if `mt = traceR(m, [srs[0].HR_, …, srs[n−1].HR_])` and round `i` of
`srs` contains a pair of the form `(w·m, w·srs[i].HR_)`, then `traceSP(mt, srs)`
returns and `i` is in its result, for every outcome `v` of the draws of
`traceR`. -/
theorem C30_tracing_finds_target {G1Affine G2Affine GT : Type} [AddCommGroup G1Affine]
    [AddCommGroup G2Affine] [AddCommGroup GT] [DecidableEq GT] (E : Env G1Affine G2Affine GT)
    (hP : Bilinear E.Pair) (m : G1Affine) (srs : List (SimplifiedRecord G1Affine G2Affine))
    (v : Nat → Int) (i : Nat) (sr : SimplifiedRecord G1Affine G2Affine)
    (hsr : srs[i]? = some sr) (w : Int) (p : AffinePair G1Affine G2Affine) (hp : p ∈ sr.Pairs)
    (hV : p._V = w • m) (hX : p.X_ = w • sr.HR_) :
    ∃ res, traceSP E (traceR m (srs.map fun sr => sr.HR_) v) srs = some res ∧ i ∈ res :=
  traceSP_traceR E hP m srs v i sr hsr w p hp hV hX

/-- C30 at the small instance: round `2` holds the pair `(4·3, 4·2)` of the
target `3`. -/
theorem C30_tracing_finds_target_witness :
    Bilinear smallEnv.Pair ∧
      smallRecords[2]? = some { HR_ := 2, Pairs := [{ _V := 5, X_ := 5 },
        { _V := (4 : Int) • (3 : ZMod 7), X_ := (4 : Int) • (2 : ZMod 7) }] } ∧
      ∃ res, traceSP smallEnv
          (traceR (3 : ZMod 7) (smallRecords.map fun sr => sr.HR_) (fun i => (i : Int) + 1))
          smallRecords = some res ∧ 2 ∈ res :=
  ⟨smallEnv_bilinear, rfl,
    C30_tracing_finds_target smallEnv smallEnv_bilinear 3 smallRecords (fun i => (i : Int) + 1)
      2 { HR_ := 2, Pairs := [{ _V := 5, X_ := 5 },
        { _V := (4 : Int) • (3 : ZMod 7), X_ := (4 : Int) • (2 : ZMod 7) }] } rfl 4
      { _V := (4 : Int) • (3 : ZMod 7), X_ := (4 : Int) • (2 : ZMod 7) }
      (List.mem_cons_of_mem _ (List.mem_cons_self _ _)) rfl rfl⟩

/-! ### Shifting the responses of the commitment proof (C25) -/

/-- Reading back the residue of a point of the instance with cofactor. -/
theorem cofactorResidue_cofactorPoint (a : ZMod 14) :
    cofactorResidue (cofactorPoint a) = a := by
  simp [cofactorResidue, cofactorPoint]

/-- The instance with cofactor satisfies what is assumed of the curve library. -/
theorem cofactorEnv_model : CurveModel cofactorEnv cofactorPoint 2 where
  base := rfl
  add a b := by simp only [cofactorEnv, cofactorResidue_cofactorPoint]
  neg a := by simp only [cofactorEnv, cofactorResidue_cofactorPoint]
  smul a n := by simp only [cofactorEnv, cofactorResidue_cofactorPoint]
  canon a := ⟨lt_trans (ZMod.val_lt a) (by decide), Nat.succ_pos 16⟩

/-- A multiple of `L` added to a scalar is not seen on an element that `L`
annihilates. -/
theorem smul_shift {B : Type} [AddCommGroup B] (x : B) (L : Int) (hx : L • x = 0) (z n : Int) :
    (z + n * L) • x = z • x := by
  rw [add_smul, mul_smul, hx, smul_zero, add_zero]

/-- Shifting `zu` by a multiple of `L` does not change `VerifySigma`; nor does
shifting `zk`, when `L` annihilates `H` and `_H`. -/
theorem Content.VerifySigma_shift {G1Affine G2Affine GT : Type} [AddCommGroup G1Affine]
    (E : Env G1Affine G2Affine GT) {A : Type} [AddCommGroup A] {φ : A → PointAffine} {g : A}
    (hE : CurveModel E φ g) (L : Int) (hg : L • g = 0) (hG1 : L • E.G1 = 0)
    (cont : Content G1Affine) (n : Int) :
    ({ cont with zu := cont.zu + n * L }).VerifySigma E = cont.VerifySigma E ∧
      ∀ h : A, cont.H = φ h → L • h = 0 → L • cont._H = 0 →
        ({ cont with zk := cont.zk + n * L }).VerifySigma E = cont.VerifySigma E := by
  constructor
  · have e1 : E.ScalarMultiplication E.Base (cont.zu + n * L)
        = E.ScalarMultiplication E.Base cont.zu := by
      rw [← hE.base, hE.smul, hE.smul, smul_shift g L hg]
    simp only [Content.VerifySigma, Content.verifyTranscript, e1, smul_shift E.G1 L hG1]
  · intro h hH hh hH1
    have e1 : E.ScalarMultiplication cont.H (cont.zk + n * L)
        = E.ScalarMultiplication cont.H cont.zk := by
      rw [hH, hE.smul, hE.smul, smul_shift h L hh]
    simp only [Content.VerifySigma, Content.verifyTranscript, e1, smul_shift cont._H L hH1]

set_option maxRecDepth 100000 in
/-- C25 fails as stated for `zk`: in the instance with cofactor, `7` is a common
multiple of the orders of `g` and `G1`, the content `cofactorContent`, whose `H`
is the curve point of order 2, passes `VerifySigma`, and with `zk` replaced by
`zk + 1·7` it does not. -/
theorem C25_counterexample :
    (7 : Int) • (2 : ZMod 14) = 0 ∧ (7 : Int) • cofactorEnv.G1 = 0 ∧
      cofactorEnv.Base = cofactorPoint 2 ∧
      cofactorContent.H = cofactorPoint 7 ∧
      cofactorContent.B = cofactorEnv.Add cofactorContent.M
        (cofactorEnv.ScalarMultiplication cofactorContent.H cofactorContent.k) ∧
      cofactorContent._B = cofactorContent._M + cofactorContent.k • cofactorContent._H ∧
      cofactorContent.VerifySigma cofactorEnv = true ∧
      ({ cofactorContent with zk := cofactorContent.zk + 1 * 7 }).VerifySigma cofactorEnv
        = false := by
  decide

/-- C25, amended: for `L` a common multiple of the orders of `g` and `G1`, every
content and every integer `n`, replacing `zu` by `zu + n·L` leaves the result of
`VerifySigma` unchanged; replacing `zk` by `zk + n·L` leaves it unchanged when
`L` also annihilates the points `H` and `_H` of the content, as it does for
`H = u·g` and `_H = u1·G1`. -/
theorem C25_response_malleability {G1Affine G2Affine GT : Type} [AddCommGroup G1Affine]
    (E : Env G1Affine G2Affine GT) {A : Type} [AddCommGroup A] (φ : A → PointAffine) (g : A)
    (hE : CurveModel E φ g) (L : Int) (hg : L • g = 0) (hG1 : L • E.G1 = 0)
    (cont : Content G1Affine) (n : Int) :
    ({ cont with zu := cont.zu + n * L }).VerifySigma E = cont.VerifySigma E ∧
      (∀ h : A, cont.H = φ h → L • h = 0 → L • cont._H = 0 →
        ({ cont with zk := cont.zk + n * L }).VerifySigma E = cont.VerifySigma E) ∧
      (∀ u u1 : Int, L • (u • g) = 0 ∧ L • (u1 • E.G1) = 0) := by
  obtain ⟨h1, h2⟩ := Content.VerifySigma_shift E hE L hg hG1 cont n
  refine ⟨h1, h2, fun u u1 => ⟨?_, ?_⟩⟩
  · rw [smul_comm, hg, smul_zero]
  · rw [smul_comm, hG1, smul_zero]

set_option maxRecDepth 100000 in
/-- C25, amended, at the small instance, for `L = 7`, the content for `uid = 3`
and `n = 2`. -/
theorem C25_response_malleability_witness :
    CurveModel smallEnv smallPoint 1 ∧ (7 : Int) • (1 : ZMod 7) = 0 ∧
      (7 : Int) • smallEnv.G1 = 0 ∧ smallContent.H = smallPoint 2 ∧
      (7 : Int) • (2 : ZMod 7) = 0 ∧ (7 : Int) • smallContent._H = 0 ∧
      ({ smallContent with zu := smallContent.zu + 2 * 7 }).VerifySigma smallEnv
        = smallContent.VerifySigma smallEnv ∧
      ({ smallContent with zk := smallContent.zk + 2 * 7 }).VerifySigma smallEnv
        = smallContent.VerifySigma smallEnv :=
  ⟨smallEnv_model, by decide, by decide, by decide, by decide, by decide,
    (C25_response_malleability smallEnv smallPoint 1 smallEnv_model 7 (by decide) (by decide)
      smallContent 2).1,
    (C25_response_malleability smallEnv smallPoint 1 smallEnv_model 7 (by decide) (by decide)
      smallContent 2).2.1 2 (by decide) (by decide) (by decide)⟩

/-! ### The element `T` in the two byte strings of the consistency proof (C22) -/

/-- The challenge of `ProveSigma` is the digest of `proveTranscript`. -/
theorem sigmaProof.ProveSigma_cint {G1Affine G2Affine GT : Type} [AddCommGroup G1Affine]
    [AddCommGroup G2Affine] (E : Env G1Affine G2Affine GT) (cont : Content G1Affine)
    (pen : PKEETNP) (et : ETP G1Affine G2Affine) (d rv rAlpha rBeta : Int) :
    (sigmaProof.ProveSigma E cont pen et d rv rAlpha rBeta).cint =
      ((SetBytes (E.Sum256 (sigmaProof.proveTranscript E cont pen et d rv rAlpha rBeta)) : Nat)
        : Int) := rfl

/-- When the element `teT` of the prover is the element `teB + teD` of the
verifier. -/
theorem sigmaProof.teT_iff {G1Affine G2Affine GT : Type} [AddCommGroup G1Affine]
    [AddCommGroup G2Affine] (E : Env G1Affine G2Affine GT) {A : Type} [AddCommGroup A]
    {φ : A → PointAffine} {g : A} (hE : CurveModel E φ g) (cont : Content G1Affine)
    (pen : PKEETNP) (et : ETP G1Affine G2Affine) (d rv rAlpha rBeta : Int) (b h x : A)
    (hB : cont.B = φ b) (hH : cont.H = φ h) (hV : pen.cp.V = φ x) :
    E.Add pen.cp.V (E.ScalarMultiplication E.Base (d * et.v)) =
        E.Add (sigmaProof.ProveSigma E cont pen et d rv rAlpha rBeta).teB
          (sigmaProof.ProveSigma E cont pen et d rv rAlpha rBeta).teD ↔
      pen.cp.V = E.ScalarMultiplication
        (E.Add cont.B (E.Neg (E.ScalarMultiplication cont.H cont.k))) et.v := by
  simp only [sigmaProof.ProveSigma, hB, hH, hV, ← hE.base, hE.smul, hE.add, hE.neg]
  constructor
  · intro e
    have e1 := congrArg (fun p => E.Add p (E.Neg (φ ((d * et.v) • g)))) e
    simp only [hE.neg, hE.add] at e1
    have l : x + (d * et.v) • g + -((d * et.v) • g) = x := by module
    have r : et.v • b + ((d * et.v) • g + (-(cont.k * et.v)) • h) + -((d * et.v) • g)
        = et.v • (b + -(cont.k • h)) := by module
    rw [l, r] at e1
    exact e1
  · intro e
    have e1 := congrArg (fun p => E.Add p (φ ((d * et.v) • g))) e
    simp only [hE.add] at e1
    have r : et.v • (b + -(cont.k • h)) + (d * et.v) • g
        = et.v • b + ((d * et.v) • g + (-(cont.k * et.v)) • h) := by module
    rw [r] at e1
    exact e1

/-- When the element `bnT` of the prover is the element `bnB + bnD` of the
verifier. -/
theorem sigmaProof.bnT_iff {G1Affine G2Affine GT : Type} [AddCommGroup G1Affine]
    [AddCommGroup G2Affine] (E : Env G1Affine G2Affine GT) (cont : Content G1Affine)
    (pen : PKEETNP) (et : ETP G1Affine G2Affine) (d rv rAlpha rBeta : Int) :
    et._V + (d * et.v) • E.G1 =
        (sigmaProof.ProveSigma E cont pen et d rv rAlpha rBeta).bnB +
          (sigmaProof.ProveSigma E cont pen et d rv rAlpha rBeta).bnD ↔
      et._V = et.v • (cont._B + -(cont.k • cont._H)) := by
  simp only [sigmaProof.ProveSigma]
  rw [← sub_eq_zero, ← sub_eq_zero (a := et._V)]
  have e : et._V + (d * et.v) • E.G1 -
      (et.v • cont._B + ((d * et.v) • E.G1 + (-(cont.k * et.v)) • cont._H))
      = et._V - et.v • (cont._B + -(cont.k • cont._H)) := by module
  rw [e]

/-- The first thirteen blocks of the byte string of the prover: the element in
the fifth position of the group-A block is `teT = V + alpha·g`, the one in the
fifth position of the group-B block is `bnT = _V + alpha·G1`. -/
theorem sigmaProof.proveTranscript_blocks {G1Affine G2Affine GT : Type}
    [AddCommGroup G1Affine] [AddCommGroup G2Affine] (E : Env G1Affine G2Affine GT)
    (cont : Content G1Affine) (pen : PKEETNP) (et : ETP G1Affine G2Affine)
    (d rv rAlpha rBeta : Int) :
    ∃ (P6 P7 P8 : PointAffine) (t : List Nat),
      sigmaProof.proveTranscript E cont pen et d rv rAlpha rBeta =
        E.Marshal cont.B ++ (E.Marshal pen.cp.V ++
        (E.Marshal (sigmaProof.ProveSigma E cont pen et d rv rAlpha rBeta).teB ++
        (E.Marshal (sigmaProof.ProveSigma E cont pen et d rv rAlpha rBeta).teD ++
        (E.Marshal (E.Add pen.cp.V (E.ScalarMultiplication E.Base (d * et.v))) ++
        (E.Marshal P6 ++ (E.Marshal P7 ++ (E.Marshal P8 ++
        (E.MarshalG1 cont._B ++ (E.MarshalG1 et._V ++
        (E.MarshalG1 (sigmaProof.ProveSigma E cont pen et d rv rAlpha rBeta).bnB ++
        (E.MarshalG1 (sigmaProof.ProveSigma E cont pen et d rv rAlpha rBeta).bnD ++
        (E.MarshalG1 (et._V + (d * et.v) • E.G1) ++ t)))))))))))) := by
  simp only [sigmaProof.proveTranscript, sigmaProof.ProveSigma, List.append_assoc]
  exact ⟨_, _, _, _, rfl⟩

/-- The first thirteen blocks of the byte string of the verifier: the elements
in the two fifth positions are `teB + teD` and `bnB + bnD`. -/
theorem sigmaProof.verifyTranscript_blocks {G1Affine G2Affine GT : Type}
    [AddCommGroup G1Affine] [AddCommGroup G2Affine] (E : Env G1Affine G2Affine GT)
    (sigp : sigmaProof G1Affine) (B V H : PointAffine) (_B _V _H : G1Affine)
    (X_ HR_ : G2Affine) :
    ∃ (P6 P7 P8 : PointAffine) (t : List Nat),
      sigp.verifyTranscript E B V H _B _V _H X_ HR_ =
        E.Marshal B ++ (E.Marshal V ++ (E.Marshal sigp.teB ++ (E.Marshal sigp.teD ++
        (E.Marshal (E.Add sigp.teB sigp.teD) ++
        (E.Marshal P6 ++ (E.Marshal P7 ++ (E.Marshal P8 ++
        (E.MarshalG1 _B ++ (E.MarshalG1 _V ++ (E.MarshalG1 sigp.bnB ++
        (E.MarshalG1 sigp.bnD ++ (E.MarshalG1 (sigp.bnB + sigp.bnD) ++ t)))))))))))) := by
  simp only [sigmaProof.verifyTranscript, List.append_assoc]
  exact ⟨_, _, _, _, rfl⟩

/-- If the verifier rebuilds the byte string of the prover, the ciphertext and
the token are consistent with the commitment. -/
theorem sigmaProof.consistent_of_transcript {G1Affine G2Affine GT : Type}
    [AddCommGroup G1Affine] [AddCommGroup G2Affine] (E : Env G1Affine G2Affine GT)
    {A : Type} [AddCommGroup A] {φ : A → PointAffine} {g : A} (hE : CurveModel E φ g)
    (hC : CanonicalMarshal E φ) (cont : Content G1Affine) (pen : PKEETNP)
    (et : ETP G1Affine G2Affine) (d rv rAlpha rBeta : Int) (b h x : A)
    (hB : cont.B = φ b) (hH : cont.H = φ h) (hV : pen.cp.V = φ x)
    (heq : (sigmaProof.ProveSigma E cont pen et d rv rAlpha rBeta).verifyTranscript E cont.B
        pen.cp.V cont.H cont._B et._V cont._H et.X_ et.HR_
      = sigmaProof.proveTranscript E cont pen et d rv rAlpha rBeta) :
    pen.cp.V = E.ScalarMultiplication
        (E.Add cont.B (E.Neg (E.ScalarMultiplication cont.H cont.k))) et.v ∧
      et._V = et.v • (cont._B + -(cont.k • cont._H)) := by
  have h1 := (sigmaProof.teT_iff E hE cont pen et d rv rAlpha rBeta b h x hB hH hV).mp
  have h2 := (sigmaProof.bnT_iff E cont pen et d rv rAlpha rBeta).mp
  simp only [sigmaProof.verifyTranscript, sigmaProof.proveTranscript, sigmaProof.ProveSigma,
    List.append_assoc] at heq
  simp only [sigmaProof.ProveSigma] at h1 h2
  simp only [hB, hH, hV, ← hE.base, hE.smul, hE.add, hE.neg] at heq h1
  iterate 4 replace heq := List.append_cancel_left heq
  obtain ⟨e5, heq⟩ := List.append_inj heq (hC.te_len _ _)
  obtain ⟨-, heq⟩ := List.append_inj heq (hC.te_len _ _)
  obtain ⟨-, heq⟩ := List.append_inj heq (hC.te_len _ _)
  obtain ⟨-, heq⟩ := List.append_inj heq (hC.te_len _ _)
  iterate 4 replace heq := List.append_cancel_left heq
  have e13 := hC.g1_inj _ _ (List.append_inj_left heq (hC.g1_len _ _))
  refine ⟨?_, h2 e13.symm⟩
  rw [hB, hH, hV, hE.smul, hE.neg, hE.add, hE.smul]
  refine h1 ?_
  rw [hC.te_inj _ _ e5]

/-- C22: the challenge of `ProveSigma` is the digest of a byte string that has
`teT = V + alpha·g` in the fifth position of the group-A block and
`bnT = _V + alpha·G1` in the fifth position of the group-B block, where the byte
string of `VerifySigma` has `teB + teD` and `bnB + bnD`.  For every input to
`ProveSigma` with curve points `B`, `H`, `V`: `teT = teB + teD` if and only if
`V = v·(B − k·H)`, and `bnT = bnB + bnD` if and only if `_V = v·(_B − k·_H)`; and
when the verifier rebuilds the byte string of the prover, both equations hold
(the encodings being canonical). -/
theorem C22_transcript_T_element {G1Affine G2Affine GT : Type} [AddCommGroup G1Affine]
    [AddCommGroup G2Affine] (E : Env G1Affine G2Affine GT) {A : Type} [AddCommGroup A]
    (φ : A → PointAffine) (g : A) (hE : CurveModel E φ g) (hC : CanonicalMarshal E φ)
    (cont : Content G1Affine) (pen : PKEETNP) (et : ETP G1Affine G2Affine)
    (d rv rAlpha rBeta : Int) (b h x : A)
    (hB : cont.B = φ b) (hH : cont.H = φ h) (hV : pen.cp.V = φ x) :
    (sigmaProof.ProveSigma E cont pen et d rv rAlpha rBeta).cint =
        ((SetBytes (E.Sum256 (sigmaProof.proveTranscript E cont pen et d rv rAlpha rBeta)) : Nat)
          : Int) ∧
    (∃ (P6 P7 P8 : PointAffine) (t : List Nat),
      sigmaProof.proveTranscript E cont pen et d rv rAlpha rBeta =
        E.Marshal cont.B ++ (E.Marshal pen.cp.V ++
        (E.Marshal (sigmaProof.ProveSigma E cont pen et d rv rAlpha rBeta).teB ++
        (E.Marshal (sigmaProof.ProveSigma E cont pen et d rv rAlpha rBeta).teD ++
        (E.Marshal (E.Add pen.cp.V (E.ScalarMultiplication E.Base (d * et.v))) ++
        (E.Marshal P6 ++ (E.Marshal P7 ++ (E.Marshal P8 ++
        (E.MarshalG1 cont._B ++ (E.MarshalG1 et._V ++
        (E.MarshalG1 (sigmaProof.ProveSigma E cont pen et d rv rAlpha rBeta).bnB ++
        (E.MarshalG1 (sigmaProof.ProveSigma E cont pen et d rv rAlpha rBeta).bnD ++
        (E.MarshalG1 (et._V + (d * et.v) • E.G1) ++ t))))))))))))) ∧
    (∃ (P6 P7 P8 : PointAffine) (t : List Nat),
      (sigmaProof.ProveSigma E cont pen et d rv rAlpha rBeta).verifyTranscript E cont.B
          pen.cp.V cont.H cont._B et._V cont._H et.X_ et.HR_ =
        E.Marshal cont.B ++ (E.Marshal pen.cp.V ++
        (E.Marshal (sigmaProof.ProveSigma E cont pen et d rv rAlpha rBeta).teB ++
        (E.Marshal (sigmaProof.ProveSigma E cont pen et d rv rAlpha rBeta).teD ++
        (E.Marshal (E.Add (sigmaProof.ProveSigma E cont pen et d rv rAlpha rBeta).teB
          (sigmaProof.ProveSigma E cont pen et d rv rAlpha rBeta).teD) ++
        (E.Marshal P6 ++ (E.Marshal P7 ++ (E.Marshal P8 ++
        (E.MarshalG1 cont._B ++ (E.MarshalG1 et._V ++
        (E.MarshalG1 (sigmaProof.ProveSigma E cont pen et d rv rAlpha rBeta).bnB ++
        (E.MarshalG1 (sigmaProof.ProveSigma E cont pen et d rv rAlpha rBeta).bnD ++
        (E.MarshalG1 ((sigmaProof.ProveSigma E cont pen et d rv rAlpha rBeta).bnB +
          (sigmaProof.ProveSigma E cont pen et d rv rAlpha rBeta).bnD) ++ t))))))))))))) ∧
    (E.Add pen.cp.V (E.ScalarMultiplication E.Base (d * et.v)) =
        E.Add (sigmaProof.ProveSigma E cont pen et d rv rAlpha rBeta).teB
          (sigmaProof.ProveSigma E cont pen et d rv rAlpha rBeta).teD ↔
      pen.cp.V = E.ScalarMultiplication
        (E.Add cont.B (E.Neg (E.ScalarMultiplication cont.H cont.k))) et.v) ∧
    (et._V + (d * et.v) • E.G1 =
        (sigmaProof.ProveSigma E cont pen et d rv rAlpha rBeta).bnB +
          (sigmaProof.ProveSigma E cont pen et d rv rAlpha rBeta).bnD ↔
      et._V = et.v • (cont._B + -(cont.k • cont._H))) ∧
    ((sigmaProof.ProveSigma E cont pen et d rv rAlpha rBeta).verifyTranscript E cont.B
          pen.cp.V cont.H cont._B et._V cont._H et.X_ et.HR_
        = sigmaProof.proveTranscript E cont pen et d rv rAlpha rBeta →
      pen.cp.V = E.ScalarMultiplication
          (E.Add cont.B (E.Neg (E.ScalarMultiplication cont.H cont.k))) et.v ∧
        et._V = et.v • (cont._B + -(cont.k • cont._H))) :=
  ⟨sigmaProof.ProveSigma_cint E cont pen et d rv rAlpha rBeta,
    sigmaProof.proveTranscript_blocks E cont pen et d rv rAlpha rBeta,
    sigmaProof.verifyTranscript_blocks E _ _ _ _ _ _ _ _ _,
    sigmaProof.teT_iff E hE cont pen et d rv rAlpha rBeta b h x hB hH hV,
    sigmaProof.bnT_iff E cont pen et d rv rAlpha rBeta,
    sigmaProof.consistent_of_transcript E hE hC cont pen et d rv rAlpha rBeta b h x hB hH hV⟩

set_option maxRecDepth 100000 in
/-- C22 at the small instance: for the consistent inputs `smallContent`,
`smallCipher`, `smallToken` the two byte strings are the same, and with the `V`
of the ciphertext replaced by another point they differ. -/
theorem C22_transcript_T_element_witness :
    CurveModel smallEnv smallPoint 1 ∧ CanonicalMarshal smallEnv smallPoint ∧
      smallContent.B = smallPoint 6 ∧ smallContent.H = smallPoint 2 ∧
      smallCipher.cp.V = smallPoint 5 ∧
      (sigmaProof.ProveSigma smallEnv smallContent smallCipher smallToken 2 1 5
          3).verifyTranscript smallEnv smallContent.B smallCipher.cp.V smallContent.H
          smallContent._B smallToken._V smallContent._H smallToken.X_ smallToken.HR_
        = sigmaProof.proveTranscript smallEnv smallContent smallCipher smallToken 2 1 5 3 ∧
      (sigmaProof.ProveSigma smallEnv smallContent
          { smallCipher with cp := { smallCipher.cp with V := smallPoint 1 } } smallToken 2 1 5
          3).verifyTranscript smallEnv smallContent.B (smallPoint 1) smallContent.H
          smallContent._B smallToken._V smallContent._H smallToken.X_ smallToken.HR_
        ≠ sigmaProof.proveTranscript smallEnv smallContent
          { smallCipher with cp := { smallCipher.cp with V := smallPoint 1 } } smallToken 2 1 5
          3 ∧
      (smallCipher.cp.V = smallEnv.ScalarMultiplication
          (smallEnv.Add smallContent.B
            (smallEnv.Neg (smallEnv.ScalarMultiplication smallContent.H smallContent.k)))
          smallToken.v ∧
        smallToken._V = smallToken.v • (smallContent._B + -(smallContent.k • smallContent._H))) :=
  ⟨smallEnv_model, smallEnv_canonical, by decide, by decide, by decide, by decide, by decide,
    (C22_transcript_T_element smallEnv smallPoint 1 smallEnv_model smallEnv_canonical
      smallContent smallCipher smallToken 2 1 5 3 6 2 5 (by decide) (by decide)
      (by decide)).2.2.2.2.2 (by decide)⟩

/-! ### The range of `BigIntToFixed32Bytes` (C32) -/

/-- The minimal bytes fit in 32 bytes exactly for a magnitude below `2^256`. -/
theorem BigBytes_length_le_iff (n : Int) : (BigBytes n).length ≤ 32 ↔ n.natAbs < 2 ^ 256 := by
  constructor
  · intro h
    have h1 := SetBytes_lt (BigBytes n) (BigBytes_isBytes n)
    rw [SetBytes_BigBytes] at h1
    have h2 : 256 ^ (BigBytes n).length ≤ 256 ^ 32 := Nat.pow_le_pow_right (by norm_num) h
    have h3 : (256 : Nat) ^ 32 = 2 ^ 256 := by norm_num
    omega
  · intro h
    exact BigBytes_length_le n 32 (by norm_num; exact h)

/-- When `BigIntToFixed32Bytes` returns and what it returns. -/
theorem BigIntToFixed32Bytes_range (n : Int) :
    ((∃ b, BigIntToFixed32Bytes n = some b) ↔ n.natAbs < 2 ^ 256) ∧
      (BigIntToFixed32Bytes n = none ↔ 2 ^ 256 ≤ n.natAbs) ∧
      (∀ b, BigIntToFixed32Bytes n = some b →
        b.length = 32 ∧ IsBytes b ∧ SetBytes b = n.natAbs) ∧
      BigIntToFixed32Bytes (-n) = BigIntToFixed32Bytes n := by
  have key := BigBytes_length_le_iff n
  refine ⟨?_, ?_, ?_, ?_⟩
  · constructor
    · rintro ⟨b, hb⟩
      by_contra hn
      have : ¬ (BigBytes n).length ≤ 32 := fun h => hn (key.mp h)
      simp only [BigIntToFixed32Bytes, this, if_false] at hb
      cases hb
    · intro h
      exact ⟨_, BigIntToFixed32Bytes_eq n h⟩
  · constructor
    · intro hnone
      by_contra hn
      rw [BigIntToFixed32Bytes_eq n (by omega)] at hnone
      cases hnone
    · intro h
      have : ¬ (BigBytes n).length ≤ 32 := fun h1 => by have := key.mp h1; omega
      simp only [BigIntToFixed32Bytes, this, if_false]
  · intro b hb
    have hlt : n.natAbs < 2 ^ 256 := by
      by_contra hn
      have : ¬ (BigBytes n).length ≤ 32 := fun h => hn (key.mp h)
      simp only [BigIntToFixed32Bytes, this, if_false] at hb
      cases hb
    rw [BigIntToFixed32Bytes_eq n hlt, Option.some.injEq] at hb
    subst hb
    exact ElementBytes_spec _ hlt
  · simp only [BigIntToFixed32Bytes, BigBytes, Int.natAbs_neg]

/-- C32: `BigIntToFixed32Bytes(n)` returns if and only if `|n| < 2^256`; for a
larger magnitude it panics (the bound `32 − len(bytes)` of the slice expression
is negative) instead of truncating; on success the result has 32 bytes and
encodes `|n|`, and `n` and `−n` give the same result. -/
theorem C32_fixed_width_range_and_sign (n : Int) :
    ((∃ b, BigIntToFixed32Bytes n = some b) ↔ n.natAbs < 2 ^ 256) ∧
      (BigIntToFixed32Bytes n = none ↔ 2 ^ 256 ≤ n.natAbs) ∧
      (∀ b, BigIntToFixed32Bytes n = some b →
        b.length = 32 ∧ IsBytes b ∧ SetBytes b = n.natAbs) ∧
      BigIntToFixed32Bytes (-n) = BigIntToFixed32Bytes n :=
  BigIntToFixed32Bytes_range n

/-! ### The acceptance rule of `Dec` (C12) -/

/-- `Dec` panics when one of the three `W` does not fit in 32 bytes. -/
theorem Ciphertext.Dec_none {G1Affine G2Affine GT : Type} (E : Env G1Affine G2Affine GT)
    (cp : Ciphertext) (sk : Int)
    (h : ¬ (cp.W.1.natAbs < 2 ^ 256 ∧ cp.W.2.1.natAbs < 2 ^ 256 ∧ cp.W.2.2.natAbs < 2 ^ 256)) :
    cp.Dec E sk = none := by
  have key : BigIntToFixed32Bytes cp.W.1 = none ∨ BigIntToFixed32Bytes cp.W.2.1 = none ∨
      BigIntToFixed32Bytes cp.W.2.2 = none := by
    by_contra hn
    push_neg at hn
    apply h
    refine ⟨?_, ?_, ?_⟩
    · exact (BigIntToFixed32Bytes_range _).1.mp (Option.ne_none_iff_exists'.mp hn.1)
    · exact (BigIntToFixed32Bytes_range _).1.mp (Option.ne_none_iff_exists'.mp hn.2.1)
    · exact (BigIntToFixed32Bytes_range _).1.mp (Option.ne_none_iff_exists'.mp hn.2.2)
  unfold Ciphertext.Dec
  rcases key with k | k | k
  · simp only [k]
  · simp only [k]
    split <;> simp_all
  · simp only [k]
    split <;> simp_all

set_option maxRecDepth 100000 in
/-- C12 fails as stated: in the small instance the ciphertext of `smallMismatch`
with `W[0]` replaced by `2^256` makes `Dec` panic in `BigIntToFixed32Bytes`: it
returns neither the candidate point with `true` nor the zero-value point with
`false`. -/
theorem C12_counterexample :
    ({ smallMismatch.cp with W := (2 ^ 256, 1, 3) } : Ciphertext).Dec smallEnv 3 = none ∧
      ({ smallMismatch.cp with W := (2 ^ 256, 1, 3) } : Ciphertext).Dec smallEnv 3 ≠
        some ((({ smallMismatch.cp with W := (2 ^ 256, 1, 3) } : Ciphertext).candidates
          smallEnv 3).2, true) ∧
      ({ smallMismatch.cp with W := (2 ^ 256, 1, 3) } : Ciphertext).Dec smallEnv 3 ≠
        some ({ X := 0, Y := 0 }, false) := by
  decide

/-- C12, amended: for a ciphertext whose three `W` have a magnitude below
`2^256`, `Dec` with the key `sk` returns the candidate point and `true` exactly
when the candidates unmasked from `W` with the masks derived from
`(U, V, sk·U)`, the scalar `mask0 ⊕ W[0]` and the point
`(mask1 ⊕ W[1], mask2 ⊕ W[2])`, satisfy `U = r·g` and `V = r·m` for them, and in
every other such case it returns the zero-value point together with `false`;
when one of the three `W` has a magnitude of `2^256` or more, `Dec` panics in
`BigIntToFixed32Bytes` and returns nothing. -/
theorem C12_decryption_acceptance_rule {G1Affine G2Affine GT : Type}
    (E : Env G1Affine G2Affine GT) (hq0 : 0 < E.q) (hq : E.q ≤ 2 ^ 256) (cp : Ciphertext)
    (sk : Int) :
    (cp.W.1.natAbs < 2 ^ 256 ∧ cp.W.2.1.natAbs < 2 ^ 256 ∧ cp.W.2.2.natAbs < 2 ^ 256 →
      (cp.Dec E sk = some ((cp.candidates E sk).2, true) ↔
        (cp.U = E.ScalarMultiplication E.Base ((cp.candidates E sk).1 : Int) ∧
          cp.V = E.ScalarMultiplication (cp.candidates E sk).2
            ((cp.candidates E sk).1 : Int))) ∧
      (¬ (cp.U = E.ScalarMultiplication E.Base ((cp.candidates E sk).1 : Int) ∧
          cp.V = E.ScalarMultiplication (cp.candidates E sk).2
            ((cp.candidates E sk).1 : Int)) →
        cp.Dec E sk = some ({ X := 0, Y := 0 }, false))) ∧
    (¬ (cp.W.1.natAbs < 2 ^ 256 ∧ cp.W.2.1.natAbs < 2 ^ 256 ∧ cp.W.2.2.natAbs < 2 ^ 256) →
      cp.Dec E sk = none) := by
  refine ⟨fun hW => ?_, Ciphertext.Dec_none E cp sk⟩
  rw [Ciphertext.Dec_eq_candidates E hq0 hq cp sk hW.1 hW.2.1 hW.2.2]
  constructor
  · constructor
    · intro h
      by_contra hn
      rw [if_neg hn] at h
      simp at h
    · intro h
      rw [if_pos h]
  · intro hn
    rw [if_neg hn]

set_option maxRecDepth 100000 in
/-- C12, amended, at the small instance with the key `3`: the ciphertext of
`smallMismatch`, and the same ciphertext with `W[0] = 2^256`. -/
theorem C12_decryption_acceptance_rule_witness :
    0 < smallEnv.q ∧ smallEnv.q ≤ 2 ^ 256 ∧
    (smallMismatch.cp.W.1.natAbs < 2 ^ 256 ∧ smallMismatch.cp.W.2.1.natAbs < 2 ^ 256 ∧
      smallMismatch.cp.W.2.2.natAbs < 2 ^ 256) ∧
    ((smallMismatch.cp.Dec smallEnv 3 = some ((smallMismatch.cp.candidates smallEnv 3).2, true) ↔
      (smallMismatch.cp.U = smallEnv.ScalarMultiplication smallEnv.Base
          ((smallMismatch.cp.candidates smallEnv 3).1 : Int) ∧
        smallMismatch.cp.V = smallEnv.ScalarMultiplication
          (smallMismatch.cp.candidates smallEnv 3).2
          ((smallMismatch.cp.candidates smallEnv 3).1 : Int))) ∧
    (¬ (smallMismatch.cp.U = smallEnv.ScalarMultiplication smallEnv.Base
          ((smallMismatch.cp.candidates smallEnv 3).1 : Int) ∧
        smallMismatch.cp.V = smallEnv.ScalarMultiplication
          (smallMismatch.cp.candidates smallEnv 3).2
          ((smallMismatch.cp.candidates smallEnv 3).1 : Int)) →
      smallMismatch.cp.Dec smallEnv 3 = some ({ X := 0, Y := 0 }, false))) ∧
    ¬ ((2 ^ 256 : Int).natAbs < 2 ^ 256 ∧ (1 : Int).natAbs < 2 ^ 256 ∧
      (3 : Int).natAbs < 2 ^ 256) ∧
    ({ smallMismatch.cp with W := (2 ^ 256, 1, 3) } : Ciphertext).Dec smallEnv 3 = none :=
  ⟨by decide, by decide, by decide,
    (C12_decryption_acceptance_rule smallEnv (by decide) (by decide) smallMismatch.cp 3).1
      (by decide),
    by decide,
    (C12_decryption_acceptance_rule smallEnv (by decide) (by decide)
      { smallMismatch.cp with W := (2 ^ 256, 1, 3) } 3).2 (by decide)⟩

/-! ### The generated records (C31) -/

end PKEET
